import Mathlib

/-!
# Carlson's symmetric elliptic integral R_J: control flow of `_rj.hh`

A shallow embedding of `scipy/special/ellint_carlson_cpp_lite/_rj.hh`.

The C++ source is a template over a scalar type `T` (real or complex) whose real
base type is `RT = typing::decplx_t<T>`.  Everything the header takes from other
headers (`ellint_typing.hh`, `ellint_argcheck.hh`, `ellint_common.hh`,
`ellint_carlson.hh`) and from `<cmath>` is a field of one of two records:

* `RealOps R`   : the operations on the real base type `R` (the tolerance, a
  `double` in the source, is identified with `R`), the configuration constants,
  the coefficient tables, the status predicates and the sibling integrals
  `rf`, `rc`, `rg`;
* `ScalarOps T R` : the operations on the scalar type `T`.

The functions of the header itself (`rcmp`, `good_args`, `rj_cpv_dispatch`,
`rj_asym_conf`, `safe_atan_sqrt_div`, `rj` and the two update blocks
`ELLINT_RJ_CALC`, `ELLINT_RJ_UPDT`) are translated line by line over these
records, so every theorem about them holds for each interpretation of the
floating-point operations, IEEE arithmetic and exact arithmetic alike.
-/

namespace EllintRJ

/-! ## Status codes, regime tags, classification record -/

/-- Modelled from the spec: the `ExitStatus` enumeration of `ellint_carlson.hh` is not
part of the sources at hand.  The spec lists "a closed tag with at least: success,
bad_tolerance, bad_arguments, singular, iteration_limit"; the constructors carry the
names `_rj.hh` uses for them (`bad_rerr`, `bad_args`, `n_iter`), and `other` stands for
any further code a sibling integral may report. -/
inductive ExitStatus where
  | success
  | singular
  | n_iter
  | bad_args
  | bad_rerr
  | other (code : Nat)
  deriving DecidableEq

/-- Regime tags: `enum class AsymFlag`. -/
inductive AsymFlag where
  | nothing
  | hugep
  | tinyp
  | hugey
  | tinyx
  | tinyy
  | hugez
  deriving DecidableEq

/-- Classification flags: `struct ArgCases`. -/
structure ArgCases where
  maybe_asymp : Bool
  retry_caupv : Bool
  good_infinity : Bool
  hit_pole : Bool
  deriving DecidableEq

/-- The record after `std::memset(&classify, 0, sizeof classify)`. -/
def ArgCases.zeroed : ArgCases :=
  { maybe_asymp := false, retry_caupv := false, good_infinity := false, hit_pole := false }

/-- Regime cache: `struct AsymConfig<T>`.  A field is `none` until it is assigned, the
source declares the record without initialising it. -/
structure AsymConfig (R : Type) where
  a : Option R
  b : Option R
  c : Option R
  f : Option R
  g : Option R
  h : Option R
  deriving DecidableEq

/-- The cache as declared at `rjimpl::AsymConfig<RT> config;` -/
def AsymConfig.fresh (R : Type) : AsymConfig R :=
  { a := none, b := none, c := none, f := none, g := none, h := none }

/-- The four integrals a call can go to. -/
inductive Integral where
  | rj
  | rf
  | rc
  | rg
  deriving DecidableEq

/-- One sub-call made by an activation of `rj`: which integral, its scalar arguments in
order, the tolerance passed, and the status it returned. -/
structure SubCall (R : Type) where
  fn : Integral
  args : List R
  rerr : R
  status : ExitStatus
  deriving DecidableEq

/-- The `return` statements of `rj`, by what leads to them: the tolerance check
(line 395), the directed infinity (414), the principal-value branch (432), the pole
(435), the rejection (438), an asymptotic shortcut (562, with the regime) and the
general duplication path (653). -/
inductive ReturnSite where
  | bad_rerr
  | infinity
  | cpv
  | pole
  | bad_args
  | shortcut (regime : AsymFlag)
  | general
  deriving DecidableEq

/-- What a call of `rj` hands back: the out-parameter `res`, the returned status, and,
as a record of the execution, the sub-calls this activation made, in order, and the
`return` statement it left through. -/
structure Result (T R : Type) where
  res : T
  status : ExitStatus
  calls : List (SubCall R)
  via : ReturnSite
  deriving DecidableEq

/-! ## The environment: what `_rj.hh` takes from other headers -/

/-- Operations on the real base type `RT`, constants and collaborators. -/
structure RealOps (R : Type) where
  /-- floating literal -/
  lit : ℚ → R
  add : R → R → R
  sub : R → R → R
  mul : R → R → R
  div : R → R → R
  neg : R → R
  /-- comparison `a < b` -/
  lt : R → R → Bool
  /-- comparison `a <= b` -/
  le : R → R → Bool
  /-- comparison `a == b` -/
  eq : R → R → Bool
  sqrt : R → R
  log : R → R
  log1p : R → R
  atan : R → R
  atanh : R → R
  abs : R → R
  fmin : R → R → R
  fmax : R → R → R
  /-- `argcheck::invalid_rerr(rerr, ul)` -/
  invalid_rerr : R → R → Bool
  /-- `argcheck::too_small` at the real type -/
  too_small : R → Bool
  /-- `argcheck::isinf` at the real type -/
  isinf : R → Bool
  /-- `argcheck::ph_good` at the real type -/
  ph_good : R → Bool
  /-- `argcheck::r1conj2` at the real type -/
  r1conj2 : R → R → R → Bool
  /-- `typing::nan<RT>()` -/
  nan : R
  /-- `typing::huge<RT>()` -/
  huge : R
  /-- `config::asym_zero_ul` -/
  asym_zero_ul : R
  /-- `config::asym_close_ul` -/
  asym_close_ul : R
  /-- `config::max_iter` -/
  max_iter : Nat
  /-- `constants::pi` -/
  pi : R
  RDJ_C1 : List R
  RDJ_C2 : List R
  RDJ_C3 : List R
  RDJ_C4 : List R
  RDJ_C5 : List R
  RDJ_DENOM : R
  /-- `arithmetic::nsum2(a, n)` on the first `n` entries -/
  nsum2 : List R → R
  /-- `arithmetic::ndot2(a, b, n)` on the first `n` entries -/
  ndot2 : List R → List R → R
  /-- `arithmetic::dot2(a, b)` on whole arrays -/
  dot2 : List R → List R → R
  /-- `arithmetic::ocrt` -/
  ocrt : R → R
  /-- `arithmetic::comp_horner(x, table)` -/
  comp_horner : R → List R → R
  is_horrible : ExitStatus → Bool
  is_troublesome : ExitStatus → Bool
  /-- sibling `rf(x, y, z, rerr, res)`: the value written to `res` and the status -/
  rf : R → R → R → R → R × ExitStatus
  /-- sibling `rc(x, y, rerr, res)` -/
  rc : R → R → R → R × ExitStatus
  /-- sibling `rg(x, y, z, rerr, res)` -/
  rg : R → R → R → R → R × ExitStatus
  /-- the content of a local that was declared and never assigned -/
  indet : R

/-- Operations on the scalar type `T` over the real base type `R`. -/
structure ScalarOps (T R : Type) where
  add : T → T → T
  sub : T → T → T
  mul : T → T → T
  div : T → T → T
  sqrt : T → T
  atan : T → T
  /-- `std::abs` -/
  abs : T → R
  /-- `std::real` -/
  re : T → R
  /-- `std::imag` -/
  im : T → R
  /-- conversion `T(r)` of a real value; mixed products such as `Am * (RT)0.25` are
  taken through it -/
  ofReal : R → T
  too_small : T → Bool
  isinf : T → Bool
  ph_good : T → Bool
  r1conj2 : T → T → T → Bool
  nan : T
  huge : T
  nsum2 : List T → T
  ndot2 : List T → List T → T
  dot2 : List T → List T → T
  comp_horner : T → List R → T

/-- The instantiation `T = RT`: `std::real` is the identity, `std::imag` is zero. -/
def realScalar {R : Type} (RO : RealOps R) : ScalarOps R R :=
  { add := RO.add, sub := RO.sub, mul := RO.mul, div := RO.div,
    sqrt := RO.sqrt, atan := RO.atan, abs := RO.abs,
    re := fun x => x, im := fun _ => RO.lit 0, ofReal := fun r => r,
    too_small := RO.too_small, isinf := RO.isinf, ph_good := RO.ph_good,
    r1conj2 := RO.r1conj2, nan := RO.nan, huge := RO.huge,
    nsum2 := RO.nsum2, ndot2 := RO.ndot2, dot2 := RO.dot2,
    comp_horner := RO.comp_horner }

section Defs

variable {T R : Type}

/-- Value of `std::max({a, b, c, d})`: the leftmost greatest entry under `<`. -/
def max4 (RO : RealOps R) (a b c d : R) : R :=
  [b, c, d].foldl (fun m e => if RO.lt m e then e else m) a

/-- Source `asymp_zero`: `(0.0 < r) && (r <= config::asym_zero_ul)`. -/
def asymp_zero (RO : RealOps R) (r : R) : Bool :=
  RO.lt (RO.lit 0) r && RO.le r RO.asym_zero_ul

/-- Source `abs_close_zero`: `(0.0 < r) && (r <= config::asym_close_ul)`. -/
def abs_close_zero (RO : RealOps R) (r : R) : Bool :=
  RO.lt (RO.lit 0) r && RO.le r RO.asym_close_ul

/-- Source `rcmp`: comparison by the real part. -/
def rcmp (RO : RealOps R) (S : ScalarOps T R) (a b : T) : Bool :=
  RO.lt (S.re a) (S.re b)

/-- The call `std::sort(b, b + 3, cmp)` on the three symmetric arguments.  The standard
fixes the result only up to the order of equivalent entries; this is the insertion
sort that the library runs on so short a range. -/
def sort3 (cmp : T → T → Bool) (a b c : T) : T × T × T :=
  let fst2 := if cmp b a then (b, a) else (a, b)
  if cmp c fst2.1 then (c, fst2.1, fst2.2)
  else if cmp c fst2.2 then (fst2.1, c, fst2.2)
  else (fst2.1, fst2.2, c)

/-- Source `good_args` (lines 113-200): the returned flag and the record as the call
leaves it. -/
def good_args (RO : RealOps R) (S : ScalarOps T R) (x y z p : T) (classify : ArgCases) :
    Bool × ArgCases :=
  let c1 : ArgCases :=
    { classify with
      hit_pole := S.too_small x && S.too_small y && S.ph_good z && !S.too_small p }
  if c1.hit_pole then (false, c1)
  else
    let c2 : ArgCases :=
      { c1 with
        good_infinity := (S.isinf x || S.isinf y || S.isinf z || S.isinf p) &&
                         (S.ph_good x && S.ph_good y && S.ph_good z) }
    if c2.good_infinity then (false, c2)
    else
      let xr := S.re x
      let xi := S.im x
      let yr := S.re y
      let yi := S.im y
      let zi := S.im z
      let pr := S.re p
      let pi := S.im p
      let xyzreal_nonneg_atmost1z : Bool :=
        RO.too_small xi && RO.too_small yi && RO.too_small zi &&
        RO.le (RO.lit 0) xr && RO.lt (RO.lit 0) yr
      let x0 := S.too_small x
      let y0 := S.too_small y
      let z0 := S.too_small z
      /- the part after the principal-value / asymptotic block -/
      let rest (c : ArgCases) : Bool × ArgCases :=
        if RO.lt (RO.lit 0) pr && RO.le (RO.lit 0) xr &&
            !((y0 && (x0 || z0)) || (x0 && z0)) then (true, c)
        else if (!S.too_small p) && S.ph_good p then
          let flag0 : Bool := false
          let flag1 : Bool := if xyzreal_nonneg_atmost1z then xor flag0 true else flag0
          let flag2 : Bool :=
            if S.r1conj2 x y z || S.r1conj2 y z x || S.r1conj2 z x y then xor flag1 true
            else flag1
          (flag2, c)
        else (false, c)
      if RO.too_small pi && xyzreal_nonneg_atmost1z then
        let c3 : ArgCases := { c2 with retry_caupv := RO.lt pr (RO.lit 0) }
        if c3.retry_caupv then (false, c3)
        else
          let c4 : ArgCases := { c3 with maybe_asymp := RO.lt (RO.lit 0) pr }
          if c4.maybe_asymp then (true, c4)
          else rest c4
      else rest c2

/-- The tolerance `r = rerr / 3.0` of `rj_cpv_dispatch` (line 214). -/
def cpv_r (RO : RealOps R) (rerr : R) : R :=
  RO.div rerr (RO.lit 3)

/-- The transformed fourth argument `pn` of `rj_cpv_dispatch` (lines 211-217). -/
def cpv_pn (RO : RealOps R) (x y z p : R) : R :=
  let xct1_2 := RO.neg p
  let xy := RO.mul x y
  let xct2_3 := RO.add (RO.div xct1_2 z) (RO.lit 1)
  RO.div (RO.sub (RO.nsum2 [x, y, xct1_2]) (RO.div xy z)) xct2_3

/-- The product `pq = pn * (-p)` of `rj_cpv_dispatch` (line 236). -/
def cpv_pq (RO : RealOps R) (x y z p : R) : R :=
  RO.mul (cpv_pn RO x y z p) (RO.neg p)

/-- The sum `xypq = x * y + pq` of `rj_cpv_dispatch` (line 237). -/
def cpv_xypq (RO : RealOps R) (x y z p : R) : R :=
  RO.add (RO.mul x y) (cpv_pq RO x y z p)

/-- Record of the call `rj(x, y, z, pn, r, ...)` of line 220 returning `st`. -/
def cpv_call_rj (RO : RealOps R) (x y z p rerr : R) (st : ExitStatus) : SubCall R :=
  { fn := Integral.rj, args := [x, y, z, cpv_pn RO x y z p], rerr := cpv_r RO rerr,
    status := st }

/-- Record of the call `rf(x, y, z, r, ...)` of line 228. -/
def cpv_call_rf (RO : RealOps R) (x y z rerr : R) : SubCall R :=
  { fn := Integral.rf, args := [x, y, z], rerr := cpv_r RO rerr,
    status := (RO.rf x y z (cpv_r RO rerr)).2 }

/-- Record of the call `rc(xypq, pq, r, ...)` of line 238. -/
def cpv_call_rc (RO : RealOps R) (x y z p rerr : R) : SubCall R :=
  { fn := Integral.rc, args := [cpv_xypq RO x y z p, cpv_pq RO x y z p],
    rerr := cpv_r RO rerr,
    status := (RO.rc (cpv_xypq RO x y z p) (cpv_pq RO x y z p) (cpv_r RO rerr)).2 }

/-- Source `rj_cpv_dispatch` (lines 204-256), for real arguments.  `recur` is the call
of `rj`; `res` is the content of the out-parameter on entry, which an early return
leaves untouched.  Gives the status, the final content of `res` and the sub-calls
made, in order. -/
def rj_cpv_dispatch (RO : RealOps R)
    (recur : R → R → R → R → R → Option (R × ExitStatus))
    (x y z p rerr : R) (res : R) : Option (ExitStatus × R × List (SubCall R)) :=
  let xct1_0 := x
  let xct1_1 := y
  let xct1_2 := RO.neg p
  let xct1_3 := z
  let r := cpv_r RO rerr
  let xy := RO.mul xct1_0 xct1_1
  let xct2_3 := RO.add (RO.div xct1_2 xct1_3) (RO.lit 1)
  let pn := cpv_pn RO x y z p
  let status0 := ExitStatus.success
  match recur xct1_0 xct1_1 xct1_3 pn r with
  | none => none
  | some (xct2_0, tmp1) =>
    let log1 : List (SubCall R) := [cpv_call_rj RO x y z p rerr tmp1]
    if RO.is_horrible tmp1 then some (tmp1, res, log1)
    else
      let status1 := if RO.is_troublesome tmp1 then tmp1 else status0
      let rfv := RO.rf xct1_0 xct1_1 xct1_3 r
      let xct2_1 := rfv.1
      let tmp2 := rfv.2
      let log2 : List (SubCall R) := log1 ++ [cpv_call_rf RO x y z rerr]
      if RO.is_horrible tmp2 then some (tmp2, res, log2)
      else
        let status2 := if RO.is_troublesome tmp2 then tmp2 else status1
        let pq := cpv_pq RO x y z p
        let xypq := cpv_xypq RO x y z p
        let rcv := RO.rc xypq pq r
        let xct2_2 := rcv.1
        let tmp3 := rcv.2
        let log3 : List (SubCall R) := log2 ++ [cpv_call_rc RO x y z p rerr]
        if RO.is_horrible tmp3 then some (tmp3, res, log3)
        else
          let status3 := if RO.is_troublesome tmp3 then tmp3 else status2
          let n0 := RO.sub (RO.div pn xct1_3) (RO.lit 1)
          let n1 := RO.div (RO.neg (RO.lit 3)) xct1_3
          let n2 := RO.mul (RO.lit 3) (RO.sqrt (RO.div xy (RO.mul xypq xct1_3)))
          let tmpres := RO.ndot2 [n0, n1, n2] [xct2_0, xct2_1, xct2_2]
          let tmpres1 := RO.div tmpres xct2_3
          some (status3, tmpres1, log3)

/-- Source `rj_asym_conf` (lines 270-342): the tag and the cache as the call leaves
it. -/
def rj_asym_conf (RO : RealOps R) (x y z p : R) (conf : AsymConfig R) :
    AsymFlag × AsymConfig R :=
  if abs_close_zero RO p || ((!RO.eq x (RO.lit 0)) && asymp_zero RO (RO.div p x)) then
    (AsymFlag.tinyp, { conf with f := some (RO.sqrt (RO.mul (RO.mul x y) z)) })
  else
    let t := RO.div y (RO.fmin z p)
    let tail (cf : AsymConfig R) : AsymFlag × AsymConfig R :=
      if (!RO.eq x (RO.lit 0)) && asymp_zero RO (RO.div (RO.fmax z p) x) then
        (AsymFlag.hugey, cf)
      else if (!RO.eq z (RO.lit 0)) && asymp_zero RO (RO.div (RO.fmax y p) z) then
        let bv := RO.mul (RO.lit (1/2)) (RO.add x y)
        let hv := RO.sqrt (RO.mul x y)
        let cf2 : AsymConfig R := { cf with b := some bv, h := some hv }
        if RO.le (RO.abs (RO.log (RO.div z (RO.add bv hv)))) (RO.sqrt z) then
          (AsymFlag.hugez, cf2)
        else (AsymFlag.nothing, cf2)
      else (AsymFlag.nothing, cf)
    if (RO.lt (RO.lit 0) y && RO.le y (RO.lit (1/10^26))) || asymp_zero RO t then
      let av := RO.mul (RO.lit (1/2)) (RO.add x y)
      let gv := RO.sqrt (RO.mul x y)
      let cf1 : AsymConfig R := { conf with a := some av, g := some gv }
      if RO.le (RO.mul (RO.add (RO.div av z) (RO.div av p))
                       (RO.abs (RO.log (RO.div p av)))) (RO.lit 1) then
        (AsymFlag.tinyy, cf1)
      else tail cf1
    else tail conf

/-- Source `safe_atan_sqrt_div`, the overload for a real argument (lines 359-375). -/
def safe_atan_sqrt_div (RO : RealOps R) (x : R) : R :=
  if RO.too_small x then RO.lit 1
  else if RO.lt x (RO.lit 0) then
    let s := RO.sqrt (RO.neg x)
    RO.div (RO.atanh s) s
  else
    let s := RO.sqrt x
    RO.div (RO.atan s) s

/-- Source `safe_atan_sqrt_div`, the overload for a complex argument (lines 347-357). -/
def safe_atan_sqrt_div_cplx (RO : RealOps R) (S : ScalarOps T R) (z : T) : T :=
  if S.too_small z then S.ofReal (RO.lit 1)
  else
    let s := S.sqrt z
    S.div (S.atan s) s

/-- Read of a cache field: its content, or whatever an unassigned field holds. -/
def AsymConfig.rd (RO : RealOps R) (o : Option R) : R :=
  o.getD RO.indet

/-- Regime `tinyp`: the sum `lamt` of the pairwise products of the square roots
(lines 469-472). -/
def tinyp_lamt (RO : RealOps R) (xr yr zr : R) : R :=
  let sx := RO.sqrt xr
  let sy := RO.sqrt yr
  let sz := RO.sqrt zr
  RO.dot2 [sz, sx, sy] [sx, sy, sz]

/-- Regime `tinyp`: the first argument `alpha` handed to `rc` (lines 473-475). -/
def tinyp_alpha (RO : RealOps R) (config : AsymConfig R) (xr yr zr pr : R) : R :=
  let sx := RO.sqrt xr
  let sy := RO.sqrt yr
  let sz := RO.sqrt zr
  let alpha0 := RO.add (RO.dot2 [sz, sx, sy] [pr, pr, pr]) (AsymConfig.rd RO config.f)
  RO.mul alpha0 alpha0

/-- Regime `tinyp`: the second argument `beta` handed to `rc` (lines 476-477). -/
def tinyp_beta (RO : RealOps R) (xr yr zr pr : R) : R :=
  let beta0 := RO.add pr (tinyp_lamt RO xr yr zr)
  RO.mul (RO.mul beta0 beta0) pr

/-- Regime `hugez`: the first argument `tt` handed to `rc` (lines 538-539). -/
def hugez_tt (RO : RealOps R) (config : AsymConfig R) (pr : R) : R :=
  let tt0 := RO.add (AsymConfig.rd RO config.h) pr
  RO.mul tt0 tt0

/-- Regime `hugez`: the second argument handed to `rc` (line 540). -/
def hugez_arg2 (RO : RealOps R) (config : AsymConfig R) (pr : R) : R :=
  RO.mul (RO.mul (RO.lit 2) (RO.add (AsymConfig.rd RO config.b) (AsymConfig.rd RO config.h))) pr

/-- The `switch ( cres )` statement of `rj` (lines 452-558) acting on the variables
`cres`, `status` and `tmpres`.  Gives their contents after the statement and the
sub-calls made; `recur` is the call of `rj` at the real type. -/
def rj_asym_switch (RO : RealOps R)
    (recur : R → R → R → R → R → Option (R × ExitStatus))
    (cres : AsymFlag) (config : AsymConfig R) (xr yr zr pr rerr : R)
    (status : ExitStatus) (tmpres : R) :
    Option (AsymFlag × ExitStatus × R × List (SubCall R)) :=
  match cres with
  | AsymFlag.nothing => some (cres, status, tmpres, [])
  | AsymFlag.hugep =>
    let rfv := RO.rf xr yr zr rerr
    let tmpres1 :=
      RO.div (RO.mul (RO.lit 3)
        (RO.sub rfv.1 (RO.div (RO.mul (RO.lit (1/2)) RO.pi) (RO.sqrt pr)))) pr
    some (cres, rfv.2, tmpres1,
      [{ fn := Integral.rf, args := [xr, yr, zr], rerr := rerr, status := rfv.2 }])
  | AsymFlag.tinyp =>
    let r := RO.mul rerr (RO.lit (1/2))
    let lamt := tinyp_lamt RO xr yr zr
    let alpha := tinyp_alpha RO config xr yr zr pr
    let beta := tinyp_beta RO xr yr zr pr
    let rcv := RO.rc alpha beta r
    let status_tmp := rcv.2
    match recur (RO.add xr lamt) (RO.add yr lamt) (RO.add zr lamt) (RO.add pr lamt) r with
    | none => none
    | some (rjv, status1) =>
      let status2 := if status_tmp ≠ ExitStatus.success then status_tmp else status1
      let tmpres1 := RO.ndot2 [RO.lit 3, RO.lit 2] [rcv.1, rjv]
      some (cres, status2, tmpres1,
        [{ fn := Integral.rc, args := [alpha, beta], rerr := r, status := status_tmp },
         { fn := Integral.rj,
           args := [RO.add xr lamt, RO.add yr lamt, RO.add zr lamt, RO.add pr lamt],
           rerr := r, status := status1 }])
  | AsymFlag.hugey =>
    let r := RO.div rerr (RO.lit 3)
    let tmpres1 := RO.div (RO.lit 1) (RO.sqrt (RO.mul yr zr))
    let rcv := RO.rc xr pr r
    let status_tmp := rcv.2
    let rgv := RO.rg (RO.lit 0) yr zr r
    let status1 := rgv.2
    let status2 := if status_tmp ≠ ExitStatus.success then status_tmp else status1
    let tmpres2 :=
      RO.mul tmpres1
        (RO.sub (RO.mul (RO.lit 3) rcv.1) (RO.mul (RO.mul (RO.lit 2) rgv.1) tmpres1))
    some (cres, status2, tmpres2,
      [{ fn := Integral.rc, args := [xr, pr], rerr := r, status := status_tmp },
       { fn := Integral.rg, args := [RO.lit 0, yr, zr], rerr := r, status := status1 }])
  | AsymFlag.tinyx =>
    match recur (RO.lit 0) yr zr pr rerr with
    | none => none
    | some (rjv, status1) =>
      let tmpres1 :=
        RO.sub rjv
          (RO.div (RO.mul (RO.lit 3) (RO.sqrt xr)) (RO.mul (AsymConfig.rd RO config.h) pr))
      some (cres, status1, tmpres1,
        [{ fn := Integral.rj, args := [RO.lit 0, yr, zr, pr], rerr := rerr,
           status := status1 }])
  | AsymFlag.tinyy =>
    let ca := AsymConfig.rd RO config.a
    let cg := AsymConfig.rd RO config.g
    let rcv := RO.rc (RO.lit 1) (RO.div pr zr) rerr
    let status1 := rcv.2
    let log1 : List (SubCall R) :=
      [{ fn := Integral.rc, args := [RO.lit 1, RO.div pr zr], rerr := rerr,
         status := status1 }]
    let tx0 := rcv.1
    let tmpres1 :=
      RO.sub (RO.log (RO.div (RO.mul (RO.lit 8) zr) (RO.add ca cg)))
             (RO.mul (RO.lit 2) tx0)
    let tx :=
      RO.div (RO.log (RO.div (RO.mul (RO.lit 2) pr) (RO.add ca cg))) (RO.mul tmpres1 pr)
    let r_est_l := RO.div (RO.mul tx cg) (RO.sub (RO.lit 1) (RO.div cg pr))
    let r_est_h :=
      RO.div (RO.mul (RO.mul tx ca)
                (RO.add (RO.lit 1) (RO.div (RO.mul (RO.lit (1/2)) pr) zr)))
             (RO.sub (RO.lit 1) (RO.div ca pr))
    if RO.le (RO.mul (RO.lit 2) rerr) (RO.sub r_est_h r_est_l) then
      some (AsymFlag.nothing, ExitStatus.success, tmpres1, log1)
    else
      let tmpres2 := RO.add tmpres1 r_est_l
      let tmpres3 := RO.mul tmpres2 (RO.div (RO.lit (3/2)) (RO.mul (RO.sqrt zr) pr))
      some (cres, status1, tmpres3, log1)
  | AsymFlag.hugez =>
    let ch := AsymConfig.rd RO config.h
    let tt := hugez_tt RO config pr
    let arg2 := hugez_arg2 RO config pr
    let rcv := RO.rc tt arg2 rerr
    let status1 := rcv.2
    let log1 : List (SubCall R) :=
      [{ fn := Integral.rc, args := [tt, arg2], rerr := rerr, status := status1 }]
    let tmpres1 := rcv.1
    let r_est :=
      RO.div
        (RO.mul (RO.lit (1/4))
          (RO.add (RO.lit (1/2))
            (RO.log1p (RO.div (RO.mul (RO.lit 2) zr) (RO.sqrt (RO.mul ch pr))))))
        (RO.mul tmpres1 zr)
    if RO.le rerr r_est then
      some (AsymFlag.nothing, ExitStatus.success, tmpres1, log1)
    else
      some (cres, status1, RO.mul tmpres1 (RO.div (RO.lit 3) (RO.sqrt zr)), log1)

/-- The variables the duplication loop carries (lines 566-604); `m` is the
`unsigned int` counter. -/
structure DupState (T R : Type) where
  Am : T
  xm : T
  ym : T
  zm : T
  pm : T
  xxm : T
  yym : T
  zzm : T
  d4m : R
  fterm : R
  sm : T
  m : Nat
  deriving DecidableEq

/-- Block `ELLINT_RJ_CALC` (lines 35-43): the values it leaves in `lam` and `dm`. -/
def rj_calc (S : ScalarOps T R) (xm ym zm pm : T) : T × T :=
  let prm := S.sqrt pm
  let c0 := S.sqrt xm
  let c1 := S.sqrt ym
  let c2 := S.sqrt zm
  let lam := S.ndot2 [c0, c1, c2] [c2, c0, c1]
  let dm := S.mul (S.mul (S.add prm c0) (S.add prm c1)) (S.add prm c2)
  (lam, dm)

/-- Block `ELLINT_RJ_UPDT` (lines 45-57). -/
def rj_updt (RO : RealOps R) (S : ScalarOps T R) (lam : T) (st : DupState T R) :
    DupState T R :=
  let q := S.ofReal (RO.lit (1/4))
  { st with
    Am := S.mul (S.add st.Am lam) q
    xm := S.mul (S.add st.xm lam) q
    ym := S.mul (S.add st.ym lam) q
    zm := S.mul (S.add st.zm lam) q
    pm := S.mul (S.add st.pm lam) q
    xxm := S.mul st.xxm q
    yym := S.mul st.yym q
    zzm := S.mul st.zzm q
    d4m := RO.mul st.d4m (RO.lit (1/4))
    fterm := RO.mul st.fterm (RO.lit (1/4)) }

/-- The controlling expression of the `while` (lines 587-589). -/
def loop_cond (RO : RealOps R) (S : ScalarOps T R) (st : DupState T R) : Bool :=
  let aAm := S.abs st.Am
  RO.le aAm st.fterm ||
    RO.le aAm (max4 RO (S.abs st.xxm) (S.abs st.yym) (S.abs st.zzm)
                 (S.abs (S.sub st.Am st.pm)))

/-- One pass through the body of the `while` when the cap is not hit (lines 596-603);
the counter wraps at `2 ^ 32` as an `unsigned int` does. -/
def loop_body (RO : RealOps R) (S : ScalarOps T R) (delta : T) (st : DupState T R) :
    DupState T R :=
  let one := S.ofReal (RO.lit 1)
  let rm :=
    S.mul st.sm
      (S.add (S.sqrt (S.add (S.div (S.mul delta (S.ofReal st.d4m)) (S.mul st.sm st.sm)) one))
             one)
  let ld := rj_calc S st.xm st.ym st.zm st.pm
  let lam := ld.1
  let dm := ld.2
  let sm1 :=
    S.div
      (S.mul (S.sub (S.mul rm dm) (S.mul delta (S.ofReal (RO.mul st.d4m st.d4m))))
             (S.ofReal (RO.lit (1/2))))
      (S.add dm (S.mul rm (S.ofReal st.d4m)))
  let st1 := rj_updt RO S lam { st with sm := sm1 }
  { st1 with m := (st1.m + 1) % 2 ^ 32 }

/-- The `while` loop (lines 587-604) run for at most `fuel` evaluations of its
controlling expression: the state and the value of `status` on leaving it, or `none`
when `fuel` is used up first. -/
def rj_loop (RO : RealOps R) (S : ScalarOps T R) (delta : T) :
    Nat → DupState T R → ExitStatus → Option (DupState T R × ExitStatus)
  | 0, _, _ => none
  | fuel + 1, st, status =>
    if loop_cond RO S st then
      if st.m > RO.max_iter then some (st, ExitStatus.n_iter)
      else rj_loop RO S delta fuel (loop_body RO S delta st) status
    else some (st, status)

/-- Lines 566-586: the state on reaching the `while`, and `delta`. -/
def rj_init (RO : RealOps R) (S : ScalarOps T R) (xm ym zm p : T) (rerr : R) :
    DupState T R × T :=
  let Am := S.div (S.nsum2 [xm, ym, zm, p, p]) (S.ofReal (RO.lit 5))
  let delta := S.mul (S.mul (S.sub p xm) (S.sub p ym)) (S.sub p zm)
  let xxm := S.sub Am xm
  let yym := S.sub Am ym
  let zzm := S.sub Am zm
  let fterm :=
    RO.div (max4 RO (S.abs xxm) (S.abs yym) (S.abs zzm) (S.abs (S.sub Am p)))
           (RO.ocrt (RO.div rerr (RO.lit 5)))
  let d4m := RO.lit 1
  let pm := p
  let ld := rj_calc S xm ym zm pm
  let lam := ld.1
  let dm := ld.2
  let sm := S.mul dm (S.ofReal (RO.lit (1/2)))
  let st0 : DupState T R :=
    { Am := Am, xm := xm, ym := ym, zm := zm, pm := pm, xxm := xxm, yym := yym,
      zzm := zzm, d4m := d4m, fterm := fterm, sm := sm, m := 1 }
  (rj_updt RO S lam st0, delta)

/-- Lines 605-652: the value assembled from the state the loop leaves. -/
def rj_finish (RO : RealOps R) (S : ScalarOps T R) (atanDiv : T → T) (delta : T)
    (st : DupState T R) : T :=
  let Am := S.div (S.nsum2 [st.xm, st.ym, st.zm, st.pm, st.pm]) (S.ofReal (RO.lit 5))
  let xxm := S.div st.xxm Am
  let yym := S.div st.yym Am
  let zzm := S.div st.zzm Am
  let pp := S.mul (S.nsum2 [xxm, yym, zzm]) (S.ofReal (RO.lit (-1/2)))
  let c13 := S.mul pp (S.ofReal (RO.lit (-3)))
  let pp2 := S.mul pp pp
  let xyz := S.mul (S.mul yym zzm) xxm
  let e2 := S.ndot2 [xxm, yym, zzm, c13] [yym, zzm, xxm, pp]
  let two := S.ofReal (RO.lit 2)
  let e3 := S.add xyz (S.mul (S.mul pp two) (S.add e2 (S.mul pp2 two)))
  let e4 :=
    S.mul (S.add (S.mul two xyz) (S.mul (S.add e2 (S.mul (S.ofReal (RO.lit 3)) pp2)) pp)) pp
  let e5 := S.mul xyz pp2
  let t := S.sqrt Am
  let tmp := S.div (S.ofReal st.d4m) (S.mul (S.mul t t) t)
  let one := S.ofReal (RO.lit 1)
  let cct1 : List T :=
    [S.comp_horner e2 RO.RDJ_C1, S.comp_horner e3 RO.RDJ_C2, S.comp_horner e2 RO.RDJ_C3,
     S.comp_horner e2 RO.RDJ_C4, S.comp_horner e2 RO.RDJ_C5,
     S.mul e3 (S.ofReal (RO.RDJ_C5.getD 1 RO.indet))]
  let cct2 : List T := [one, one, e3, e4, e5, e4]
  let t1 := S.add (S.div (S.dot2 cct1 cct2) (S.ofReal RO.RDJ_DENOM)) one
  let tmp1 := S.mul tmp t1
  let t2 := S.div (S.mul delta (S.ofReal st.d4m)) (S.mul st.sm st.sm)
  S.add tmp1 (S.div (S.mul (atanDiv t2) (S.ofReal (RO.lit 3))) st.sm)

/-- The general duplication path of `rj` (lines 566-653), entered with the sorted
arguments and the current `status`. -/
def rj_general (RO : RealOps R) (S : ScalarOps T R) (atanDiv : T → T) (lfuel : Nat)
    (xm ym zm p : T) (rerr : R) (status : ExitStatus) : Option (T × ExitStatus) :=
  let ini := rj_init RO S xm ym zm p rerr
  match rj_loop RO S ini.2 lfuel ini.1 status with
  | none => none
  | some (st, status1) => some (rj_finish RO S atanDiv ini.2 st, status1)

/-- The body of `rj` (lines 380-654) at scalar type `T`.  `atanDiv` is the overload of
`safe_atan_sqrt_div` that `T` selects, `recur` the instance of `rj` at the real type
(the principal-value branch and the shortcuts call it), `lfuel` bounds the evaluations
of the loop condition.  The tolerance check of lines 391-397 is compiled in
(`ELLINT_NO_VALIDATE_RELATIVE_ERROR_BOUND` is not defined). -/
def rjCore (RO : RealOps R) (S : ScalarOps T R) (atanDiv : T → T)
    (recur : R → R → R → R → R → Option (R × ExitStatus)) (lfuel : Nat)
    (x y z p : T) (rerr : R) : Option (Result T R) :=
  let status0 := ExitStatus.success
  if RO.invalid_rerr rerr (RO.lit (1/10^4)) then
    some { res := S.nan, status := ExitStatus.bad_rerr, calls := [], via := ReturnSite.bad_rerr }
  else
    let srt := sort3 (rcmp RO S) x y z
    let xm := srt.1
    let ym := srt.2.1
    let zm := srt.2.2
    let ga := good_args RO S xm ym zm p ArgCases.zeroed
    let classify := ga.2
    if !ga.1 then
      if classify.good_infinity then
        some { res := S.ofReal (RO.lit 0), status := ExitStatus.success, calls := [],
               via := ReturnSite.infinity }
      else if classify.retry_caupv then
        match rj_cpv_dispatch RO recur (S.re xm) (S.re ym) (S.re zm) (S.re p) rerr
                RO.indet with
        | none => none
        | some (status, tmpres, calls) =>
          if RO.is_horrible status then
            some { res := S.nan, status := status, calls := calls, via := ReturnSite.cpv }
          else
            some { res := S.ofReal tmpres, status := status, calls := calls,
                   via := ReturnSite.cpv }
      else if classify.hit_pole then
        some { res := S.huge, status := ExitStatus.singular, calls := [],
               via := ReturnSite.pole }
      else
        some { res := S.nan, status := ExitStatus.bad_args, calls := [],
               via := ReturnSite.bad_args }
    else
      let general (status : ExitStatus) (calls : List (SubCall R)) : Option (Result T R) :=
        match rj_general RO S atanDiv lfuel xm ym zm p rerr status with
        | none => none
        | some (v, status1) =>
          some { res := v, status := status1, calls := calls, via := ReturnSite.general }
      if classify.maybe_asymp then
        let xr := S.re xm
        let yr := S.re ym
        let zr := S.re zm
        let pr := S.re p
        let ac := rj_asym_conf RO xr yr zr pr (AsymConfig.fresh R)
        match rj_asym_switch RO recur ac.1 ac.2 xr yr zr pr rerr status0 RO.indet with
        | none => none
        | some (cres, status, tmpres, calls) =>
          if cres ≠ AsymFlag.nothing then
            some { res := S.ofReal tmpres, status := status, calls := calls,
                   via := ReturnSite.shortcut cres }
          else general status calls
      else general status0 []

/-- The function `rj` at a real scalar type.  The first argument bounds the nesting of
recursive calls and, in each activation, the evaluations of the loop condition; `none`
means the bound was too small. -/
def rj (RO : RealOps R) : Nat → R → R → R → R → R → Option (Result R R)
  | 0 => fun _ _ _ _ _ => none
  | n + 1 => fun x y z p rerr =>
    rjCore RO (realScalar RO) (safe_atan_sqrt_div RO)
      (fun a b c d r => (rj RO n a b c d r).map (fun o => (o.res, o.status)))
      (n + 1) x y z p rerr

/-- The function `rj` at a complex scalar type `T`; its nested calls are at the real
type. -/
def rj_cplx (RO : RealOps R) (S : ScalarOps T R) (n : Nat) (x y z p : T) (rerr : R) :
    Option (Result T R) :=
  rjCore RO S (safe_atan_sqrt_div_cplx RO S)
    (fun a b c d r => (rj RO n a b c d r).map (fun o => (o.res, o.status)))
    (n + 1) x y z p rerr

end Defs

/-! ## A reference interpretation: exact arithmetic on extended rationals

For evaluating the functions above at concrete arguments.  Values are rationals
together with the two infinities and not-a-number; the four arithmetic operations
are exact.  None of the missing headers' numeric content is in the sources, so the
pieces below that stand for it say where they come from. -/

/-- Extended rationals: the values of the reference interpretation. -/
inductive XQ where
  | fin (q : ℚ)
  | pinf
  | ninf
  | nan
  deriving DecidableEq

namespace XQ

/-- Sum, with the IEEE conventions for infinities and not-a-number. -/
def add : XQ → XQ → XQ
  | fin a, fin b => fin (a + b)
  | fin _, pinf => pinf
  | fin _, ninf => ninf
  | pinf, fin _ => pinf
  | pinf, pinf => pinf
  | ninf, fin _ => ninf
  | ninf, ninf => ninf
  | _, _ => nan

/-- Negation. -/
def neg : XQ → XQ
  | fin a => fin (-a)
  | pinf => ninf
  | ninf => pinf
  | nan => nan

/-- Difference. -/
def sub (a b : XQ) : XQ := add a (neg b)

/-- Sign of a value: `some true` positive, `some false` negative, `none` for zero and
not-a-number. -/
def sgn : XQ → Option Bool
  | fin a => if 0 < a then some true else if a < 0 then some false else none
  | pinf => some true
  | ninf => some false
  | nan => none

/-- The infinity of a given sign. -/
def infOf (positive : Bool) : XQ := if positive then pinf else ninf

/-- Product. -/
def mul : XQ → XQ → XQ
  | fin a, fin b => fin (a * b)
  | nan, _ => nan
  | _, nan => nan
  | a, b =>
    match sgn a, sgn b with
    | some s, some t => infOf (s == t)
    | _, _ => nan

/-- Quotient; a non-zero value over zero is an infinity, zero over zero is
not-a-number. -/
def div : XQ → XQ → XQ
  | nan, _ => nan
  | _, nan => nan
  | fin a, fin b =>
    if b = 0 then
      (if 0 < a then pinf else if a < 0 then ninf else nan)
    else fin (a / b)
  | fin _, _ => fin 0
  | a, fin b =>
    match sgn a with
    | some s => infOf (s == decide (0 ≤ b))
    | none => nan
  | _, _ => nan

/-- Comparison `<`; false when either side is not-a-number. -/
def lt : XQ → XQ → Bool
  | fin a, fin b => decide (a < b)
  | fin _, pinf => true
  | ninf, fin _ => true
  | ninf, pinf => true
  | _, _ => false

/-- Comparison `==`; false when either side is not-a-number. -/
def beq : XQ → XQ → Bool
  | fin a, fin b => decide (a = b)
  | pinf, pinf => true
  | ninf, ninf => true
  | _, _ => false

/-- Comparison `<=`. -/
def le (a b : XQ) : Bool := lt a b || beq a b

/-- Absolute value. -/
def abs : XQ → XQ
  | fin a => fin |a|
  | pinf => pinf
  | ninf => pinf
  | nan => nan

/-- The `fmin` of `<cmath>`: the smaller value, a not-a-number operand is skipped. -/
def fmin : XQ → XQ → XQ
  | nan, b => b
  | a, nan => a
  | a, b => if lt b a then b else a

/-- The `fmax` of `<cmath>`. -/
def fmax : XQ → XQ → XQ
  | nan, b => b
  | a, nan => a
  | a, b => if lt a b then b else a

/-- Newton iteration from above for the integer square root. -/
def isqrtAux : Nat → Nat → Nat → Nat
  | 0, _, x => x
  | f + 1, n, x =>
    let y := (x + n / x) / 2
    if y < x then isqrtAux f n y else x

/-- Integer square root (rounded down). -/
def isqrt (n : Nat) : Nat := isqrtAux n n n

/-- Square root of a non-negative rational: exact when numerator and denominator are
squares, otherwise rounded down to a multiple of `2 ^ (-40) / den`. -/
def qsqrt (q : ℚ) : ℚ :=
  let n := q.num.toNat
  let d := q.den
  if isqrt n * isqrt n = n ∧ isqrt d * isqrt d = d then (isqrt n : ℚ) / (isqrt d : ℚ)
  else (isqrt (n * d * 4 ^ 40) : ℚ) / ((d : ℚ) * 2 ^ 40)

/-- Square root. -/
def sqrt : XQ → XQ
  | fin a => if a < 0 then nan else fin (qsqrt a)
  | pinf => pinf
  | _ => nan

/-- Inverse hyperbolic tangent by the first three terms of its series; a coarse
stand-in for the library function. -/
def atanh : XQ → XQ
  | fin s => if -1 < s ∧ s < 1 then fin (s + s ^ 3 / 3 + s ^ 5 / 5) else nan
  | _ => nan

/-- Arctangent by the first three terms of its series; a coarse stand-in for the
library function. -/
def atan : XQ → XQ
  | fin s => fin (s - s ^ 3 / 3 + s ^ 5 / 5)
  | _ => nan

/-- The constant `ln 2`, to twenty digits. -/
def ln2 : ℚ := 69314718055994530942 / 10 ^ 20

/-- The number of halvings that bring `n` below 2: `floor (log2 n)` for `n >= 1`, given
enough room in the first argument. -/
def halvings : Nat → Nat → Nat
  | 0, _ => 0
  | f + 1, n => if n < 2 then 0 else halvings f (n / 2) + 1

/-- The series `s + s^3/3 + ... + s^21/21` of the inverse hyperbolic tangent. -/
def atanhSeries (s : ℚ) : ℚ :=
  (List.range 11).foldl (fun acc i => acc + s ^ (2 * i + 1) / ((2 * i + 1 : ℕ) : ℚ)) 0

/-- Natural logarithm of a rational `a >= 1`: with `a = m * 2 ^ k`, `1 <= m < 2`, the
value `k * ln 2 + 2 * atanh ((m - 1) / (m + 1))`.  The argument of the series is below
`1/3`, so that cutting it after `s^21/21` leaves an error below `1e-11`. -/
def qlogGe1 (a : ℚ) : ℚ :=
  let n := a.num.toNat / a.den
  let k := halvings n n
  let m := a / 2 ^ k
  (k : ℚ) * ln2 + 2 * atanhSeries ((m - 1) / (m + 1))

/-- Natural logarithm of a positive rational, `log a = -log (1 / a)` below 1. -/
def qlog (a : ℚ) : ℚ :=
  if 1 ≤ a then qlogGe1 a else -qlogGe1 (1 / a)

/-- The `log` of `<cmath>`, to about eleven digits on positive finite values; minus
infinity at zero, not-a-number below zero. -/
def log : XQ → XQ
  | fin a => if 0 < a then fin (qlog a) else if a = 0 then ninf else nan
  | pinf => pinf
  | _ => nan

/-- The `log1p` of `<cmath>`. -/
def log1p (a : XQ) : XQ := log (add (fin 1) a)

/-- Exact sum of a list. -/
def sum (xs : List XQ) : XQ := xs.foldl add (fin 0)

/-- Exact dot product of two lists. -/
def dot (xs ys : List XQ) : XQ := sum (List.zipWith mul xs ys)

/-- Polynomial value by Horner's rule, lowest coefficient first. -/
def horner (x : XQ) (cs : List XQ) : XQ := cs.foldr (fun c acc => add c (mul x acc)) (fin 0)

end XQ

/-- Modelled from the spec: `argcheck::invalid_rerr` is not in the sources.  "Values that
are non-positive, or exceed a fixed conservative ceiling ... produce `bad_tolerance`." -/
def spec_invalid_rerr (rerr ul : XQ) : Bool :=
  !(XQ.lt (XQ.fin 0) rerr) || XQ.lt ul rerr

/-- Modelled from the spec: `argcheck::too_small` is not in the sources.  The spec calls a
value it accepts "negligibly close to zero" / "negligibly small"; here a finite value
is negligible when it is below the least positive normal double, `2 ^ (-1022)`, in
magnitude. -/
def spec_too_small : XQ → Bool
  | XQ.fin a => decide (|a| < 1 / 2 ^ 1022)
  | _ => false

/-- Modelled from the spec: `argcheck::isinf` is not in the sources; "infinite". -/
def spec_isinf : XQ → Bool
  | XQ.pinf => true
  | XQ.ninf => true
  | _ => false

/-- Modelled from the spec: `argcheck::ph_good` is not in the sources.  "Good phase: a
complex number's principal argument lies strictly within (-pi, pi) (i.e., it does not
lie on the negative real axis)"; for a real value: it is not negative. -/
def spec_ph_good (a : XQ) : Bool := XQ.le (XQ.fin 0) a

/-- Modelled from the spec: `argcheck::r1conj2` is not in the sources.  "Some cyclic pair
of the symmetric arguments is a non-real complex-conjugate pair ... and the third is
real non-negative"; real values form no non-real pair. -/
def spec_r1conj2 (_ _ _ : XQ) : Bool := false

/-- Modelled from the spec: `is_horrible` is not in the sources.  The fatal band:
"`bad_tolerance` and `bad_arguments` are terminal for the call"; codes outside the
five named ones are counted as fatal. -/
def spec_is_horrible : ExitStatus → Bool
  | ExitStatus.bad_args => true
  | ExitStatus.bad_rerr => true
  | ExitStatus.other _ => true
  | _ => false

/-- Modelled from the spec: `is_troublesome` is not in the sources.  The degraded band:
the statuses that are neither `success` nor fatal. -/
def spec_is_troublesome : ExitStatus → Bool
  | ExitStatus.singular => true
  | ExitStatus.n_iter => true
  | _ => false

/-- Modelled from the spec: `arithmetic::ocrt` is not in the sources.  "Scaled by the sixth
root of one-fifth the tolerance"; the root is taken as the square root of a cube root
found by Newton iteration on integers, rounded down to a multiple of
`2 ^ (-20) / den`, and exact on sixth powers. -/
def iroot6Aux : Nat → Nat → Nat → Nat
  | 0, _, x => x
  | f + 1, n, x =>
    let y := (5 * x + n / x ^ 5) / 6
    if y < x then iroot6Aux f n y else x

/-- Modelled from the spec: the sixth root used by `arithmetic::ocrt` (not in the
sources), on rationals. -/
def spec_ocrt : XQ → XQ
  | XQ.fin a =>
    if a < 0 then XQ.nan
    else
      let n := a.num.toNat
      let d := a.den
      let rn := iroot6Aux n n n
      let rd := iroot6Aux d d d
      if rn ^ 6 = n ∧ rd ^ 6 = d then XQ.fin ((rn : ℚ) / (rd : ℚ))
      else
        let k := n * d ^ 5 * 2 ^ 120
        XQ.fin ((iroot6Aux k k k : ℚ) / ((d : ℚ) * 2 ^ 20))
  | XQ.pinf => XQ.pinf
  | _ => XQ.nan

/-- Modelled from the spec: the sibling integrals are outside the sources ("treated here
purely as external subroutines with a defined calling contract ... each independently
validating its own tolerance and arguments").  This stand-in for `rc` validates the
tolerance and the arguments and otherwise gives the leading term `A^(-1/2)`,
`A = (x + 2 y) / 3`, of the series for `R_C`, which is the exact value when `x = y`. -/
def ref_rc (x y rerr : XQ) : XQ × ExitStatus :=
  if spec_invalid_rerr rerr (XQ.fin (3 / 10 ^ 4)) then (XQ.nan, ExitStatus.bad_rerr)
  else if XQ.le (XQ.fin 0) x && XQ.lt (XQ.fin 0) y then
    (XQ.div (XQ.fin 1)
      (XQ.sqrt (XQ.div (XQ.add x (XQ.mul (XQ.fin 2) y)) (XQ.fin 3))), ExitStatus.success)
  else (XQ.nan, ExitStatus.bad_args)

/-- Modelled from the spec: stand-in for the sibling `rf` (outside the sources), as
`ref_rc`: validation, then the leading term `A^(-1/2)`, `A = (x + y + z) / 3`. -/
def ref_rf (x y z rerr : XQ) : XQ × ExitStatus :=
  if spec_invalid_rerr rerr (XQ.fin (3 / 10 ^ 4)) then (XQ.nan, ExitStatus.bad_rerr)
  else if XQ.le (XQ.fin 0) x && XQ.lt (XQ.fin 0) y && XQ.lt (XQ.fin 0) z then
    (XQ.div (XQ.fin 1)
      (XQ.sqrt (XQ.div (XQ.sum [x, y, z]) (XQ.fin 3))), ExitStatus.success)
  else (XQ.nan, ExitStatus.bad_args)

/-- Modelled from the spec: stand-in for the sibling `rg` (outside the sources), as
`ref_rc`: validation, then the leading term `A^(1/2)`, `A = (x + y + z) / 3`. -/
def ref_rg (x y z rerr : XQ) : XQ × ExitStatus :=
  if spec_invalid_rerr rerr (XQ.fin (3 / 10 ^ 4)) then (XQ.nan, ExitStatus.bad_rerr)
  else if XQ.le (XQ.fin 0) x && XQ.le (XQ.fin 0) y && XQ.le (XQ.fin 0) z then
    (XQ.sqrt (XQ.div (XQ.sum [x, y, z]) (XQ.fin 3)), ExitStatus.success)
  else (XQ.nan, ExitStatus.bad_args)

/-- The reference interpretation, for given sibling integrals `rc`, `rf`, `rg`.  The
configuration constants and the coefficient tables are not in the sources and the spec
gives no figures for them: `asym_zero_ul = 5e-14`, `asym_close_ul = 1e-26`,
`max_iter = 1000`, and the tables hold the coefficients of Carlson's series for `R_J`
over the common denominator `4084080`, lowest order first. -/
def refOps (rc : XQ → XQ → XQ → XQ × ExitStatus)
    (rf rg : XQ → XQ → XQ → XQ → XQ × ExitStatus) : RealOps XQ :=
  { lit := XQ.fin, add := XQ.add, sub := XQ.sub, mul := XQ.mul, div := XQ.div,
    neg := XQ.neg, lt := XQ.lt, le := XQ.le, eq := XQ.beq,
    sqrt := XQ.sqrt, log := XQ.log, log1p := XQ.log1p, atan := XQ.atan,
    atanh := XQ.atanh, abs := XQ.abs, fmin := XQ.fmin, fmax := XQ.fmax,
    invalid_rerr := spec_invalid_rerr, too_small := spec_too_small,
    isinf := spec_isinf, ph_good := spec_ph_good, r1conj2 := spec_r1conj2,
    nan := XQ.nan, huge := XQ.pinf,
    asym_zero_ul := XQ.fin (5 / 10 ^ 14), asym_close_ul := XQ.fin (1 / 10 ^ 26),
    max_iter := 1000,
    pi := XQ.fin (3141592653589793 / 10 ^ 15),
    RDJ_C1 := [XQ.fin 0, XQ.fin (-875160), XQ.fin 417690, XQ.fin (-255255)],
    RDJ_C2 := [XQ.fin 0, XQ.fin 680680, XQ.fin 306306],
    RDJ_C3 := [XQ.fin 0, XQ.fin (-706860), XQ.fin 675675],
    RDJ_C4 := [XQ.fin (-556920), XQ.fin 612612],
    RDJ_C5 := [XQ.fin 471240, XQ.fin (-540540)],
    RDJ_DENOM := XQ.fin 4084080,
    nsum2 := XQ.sum, ndot2 := XQ.dot, dot2 := XQ.dot,
    ocrt := spec_ocrt, comp_horner := XQ.horner,
    is_horrible := spec_is_horrible, is_troublesome := spec_is_troublesome,
    rf := rf, rc := rc, rg := rg,
    indet := XQ.nan }

/-- The reference interpretation with the stand-in siblings. -/
def refEnv : RealOps XQ := refOps ref_rc ref_rf ref_rg

/-- The operations of `RO` are exact on the image of an ordered field `F` under `emb`:
on values `emb a` the arithmetic, the comparisons, the compensated sums and the
tolerance check give what the field gives (a quotient only for a non-zero divisor),
such values are finite, and zero is negligibly small. -/
structure ExactOn {R F : Type} [LinearOrderedField F] (RO : RealOps R) (emb : F → R) :
    Prop where
  lit : ∀ q : ℚ, RO.lit q = emb (q : F)
  add : ∀ a b : F, RO.add (emb a) (emb b) = emb (a + b)
  sub : ∀ a b : F, RO.sub (emb a) (emb b) = emb (a - b)
  mul : ∀ a b : F, RO.mul (emb a) (emb b) = emb (a * b)
  div : ∀ a b : F, b ≠ 0 → RO.div (emb a) (emb b) = emb (a / b)
  lt : ∀ a b : F, RO.lt (emb a) (emb b) = decide (a < b)
  le : ∀ a b : F, RO.le (emb a) (emb b) = decide (a ≤ b)
  eq : ∀ a b : F, RO.eq (emb a) (emb b) = decide (a = b)
  abs : ∀ a : F, RO.abs (emb a) = emb |a|
  fmin : ∀ a b : F, RO.fmin (emb a) (emb b) = emb (min a b)
  fmax : ∀ a b : F, RO.fmax (emb a) (emb b) = emb (max a b)
  nsum2 : ∀ l : List F, RO.nsum2 (l.map emb) = emb l.sum
  ndot2 : ∀ l l2 : List F,
    RO.ndot2 (l.map emb) (l2.map emb) = emb (List.zipWith (fun a b => a * b) l l2).sum
  dot2 : ∀ l l2 : List F,
    RO.dot2 (l.map emb) (l2.map emb) = emb (List.zipWith (fun a b => a * b) l l2).sum
  isinf : ∀ a : F, RO.isinf (emb a) = false
  too_small_zero : RO.too_small (emb 0) = true
  invalid_rerr : ∀ r ul : F, RO.invalid_rerr (emb r) (emb ul) = decide (r ≤ 0 ∨ ul < r)

/-- What the equal-argument closed form needs beyond exact arithmetic: the square root
is exact on squares; the sibling `rc` is exact on the diagonal (`R_C(u, u) = u^(-1/2)`)
for a valid tolerance; `ocrt` of a positive value is a non-zero finite value; the two
regime thresholds are finite, `asym_close_ul` at least `1e-26` (the literal of line 311)
and `asym_zero_ul` below 1; and the correction series has finite coefficients at zero,
no constant term (tables `RDJ_C1`, `RDJ_C2`) and a non-zero denominator. -/
structure ExactSetup {R F : Type} [LinearOrderedField F] (RO : RealOps R) (emb : F → R) :
    Prop where
  sqrt : ∀ t : F, 0 ≤ t → RO.sqrt (emb (t * t)) = emb t
  rc : ∀ t r : F, 0 < t → 0 < r → r ≤ 1 / 10 ^ 4 →
    RO.rc (emb (t * t)) (emb (t * t)) (emb r) = (emb (1 / t), ExitStatus.success)
  ocrt : ∀ q : F, 0 < q → ∃ w : F, w ≠ 0 ∧ RO.ocrt (emb q) = emb w
  close_ul : ∃ cu : F, RO.asym_close_ul = emb cu ∧ 1 / 10 ^ 26 ≤ cu
  zero_ul : ∃ zu : F, RO.asym_zero_ul = emb zu ∧ zu < 1
  denom : ∃ d : F, RO.RDJ_DENOM = emb d ∧ d ≠ 0
  series : ∃ c1 c2 c3 c4 c5 k : F,
    RO.comp_horner (emb 0) RO.RDJ_C1 = emb c1 ∧
    RO.comp_horner (emb 0) RO.RDJ_C2 = emb c2 ∧
    RO.comp_horner (emb 0) RO.RDJ_C3 = emb c3 ∧
    RO.comp_horner (emb 0) RO.RDJ_C4 = emb c4 ∧
    RO.comp_horner (emb 0) RO.RDJ_C5 = emb c5 ∧
    RO.RDJ_C5.getD 1 RO.indet = emb k ∧
    c1 + c2 = 0

/-- The loop state of `rj(a, a, a, a)` with `a = s * s` on reaching the `while`, in
exact arithmetic: all four variables and the mean at `a`, all deviations and the
threshold at zero, `d4m = 1/4`, `sm = 4 s^3`. -/
def eqState {R F : Type} [LinearOrderedField F] (emb : F → R) (s : F) : DupState R R :=
  { Am := emb (s * s), xm := emb (s * s), ym := emb (s * s), zm := emb (s * s),
    pm := emb (s * s), xxm := emb 0, yym := emb 0, zzm := emb 0, d4m := emb (1 / 4),
    fterm := emb 0, sm := emb (4 * (s * s * s)), m := 1 }

/-- A sibling `rf` that reports a fatal status on every call. -/
def failing_rf (_ _ _ _ : XQ) : XQ × ExitStatus := (XQ.nan, ExitStatus.bad_args)

/-- The reference interpretation with a sibling `rf` that always fails. -/
def envFailRf : RealOps XQ := refOps ref_rc failing_rf ref_rg

/-- The loop state and `delta` of `rj(1, 1, 100, 1)` at tolerance `1e-5` on reaching the
`while`, in the reference interpretation. -/
def sample_skew : DupState XQ XQ × XQ :=
  rj_init refEnv (realScalar refEnv) (XQ.fin 1) (XQ.fin 1) (XQ.fin 100) (XQ.fin 1)
    (XQ.fin (1 / 10 ^ 5))

/-- The loop state and `delta` of `rj(1, 1, 1, 1)` at tolerance `1e-12` on reaching the
`while`, in the reference interpretation. -/
def sample_equal : DupState XQ XQ × XQ :=
  rj_init refEnv (realScalar refEnv) (XQ.fin 1) (XQ.fin 1) (XQ.fin 1) (XQ.fin 1)
    (XQ.fin (1 / 10 ^ 12))

/-- The comparison `cmp` is a strict total order on the entries of `l`: asymmetric,
transitive, and two entries neither of which precedes the other are equal.  This is
what `<` is on real values that are not not-a-number (signed zeros identified). -/
def StrictTotalOn {T : Type} (cmp : T → T → Bool) (l : List T) : Prop :=
  (∀ u ∈ l, ∀ v ∈ l, cmp u v = true → cmp v u = false) ∧
  (∀ u ∈ l, ∀ v ∈ l, ∀ w ∈ l, cmp u v = true → cmp v w = true → cmp u w = true) ∧
  (∀ u ∈ l, ∀ v ∈ l, cmp u v = false → cmp v u = false → u = v)

section DefsMore

variable {T R : Type}

/-- The pole test of `good_args` (lines 120-123). -/
def pole_rule (S : ScalarOps T R) (x y z p : T) : Bool :=
  S.too_small x && S.too_small y && S.ph_good z && !S.too_small p

/-- The directed-infinity test of `good_args` (lines 127-133). -/
def infinity_rule (S : ScalarOps T R) (x y z p : T) : Bool :=
  (S.isinf x || S.isinf y || S.isinf z || S.isinf p) &&
    (S.ph_good x && S.ph_good y && S.ph_good z)

/-- The local `xyzreal_nonneg_atmost1z` of `good_args` (lines 150-153). -/
def xyzreal_nonneg_atmost1z (RO : RealOps R) (S : ScalarOps T R) (x y z : T) : Bool :=
  RO.too_small (S.im x) && RO.too_small (S.im y) && RO.too_small (S.im z) &&
    RO.le (RO.lit 0) (S.re x) && RO.lt (RO.lit 0) (S.re y)

/-- The condition of the block of lines 154-166: `p` is real and the symmetric
arguments are real, non-negative, at most one of them zero. -/
def real_block (RO : RealOps R) (S : ScalarOps T R) (x y z p : T) : Bool :=
  RO.too_small (S.im p) && xyzreal_nonneg_atmost1z RO S x y z

/-- The test of the ordinary rule as coded (line 174). -/
def ordinary_rule (RO : RealOps R) (S : ScalarOps T R) (x y z p : T) : Bool :=
  RO.lt (RO.lit 0) (S.re p) && RO.le (RO.lit 0) (S.re x) &&
    !((S.too_small y && (S.too_small x || S.too_small z)) ||
      (S.too_small x && S.too_small z))

/-- The ordinary rule in the words of the claim: `Re p > 0`, `Re x >= 0`, and at most
one of the three symmetric arguments is negligibly zero. -/
def ordinary_rule_words (RO : RealOps R) (S : ScalarOps T R) (x y z p : T) : Bool :=
  RO.lt (RO.lit 0) (S.re p) && RO.le (RO.lit 0) (S.re x) &&
    decide ((S.too_small x).toNat + (S.too_small y).toNat + (S.too_small z).toNat ≤ 1)

/-- The general complex rule of `good_args` (lines 179-199): what the function returns
when the ordinary rule fails. -/
def complex_rule (RO : RealOps R) (S : ScalarOps T R) (x y z p : T) : Bool :=
  if (!S.too_small p) && S.ph_good p then
    xor (xyzreal_nonneg_atmost1z RO S x y z)
      (S.r1conj2 x y z || S.r1conj2 y z x || S.r1conj2 z x y)
  else false

/-- Regime `tinyy`: the content of `tmpres` before the a-posteriori check
(lines 513-515). -/
def tinyy_tmpres (RO : RealOps R) (config : AsymConfig R) (zr pr rerr : R) : R :=
  RO.sub (RO.log (RO.div (RO.mul (RO.lit 8) zr)
      (RO.add (AsymConfig.rd RO config.a) (AsymConfig.rd RO config.g))))
    (RO.mul (RO.lit 2) (RO.rc (RO.lit 1) (RO.div pr zr) rerr).1)

/-- Regime `tinyy`: the second content of `tx` (lines 516-517). -/
def tinyy_tx (RO : RealOps R) (config : AsymConfig R) (zr pr rerr : R) : R :=
  RO.div (RO.log (RO.div (RO.mul (RO.lit 2) pr)
      (RO.add (AsymConfig.rd RO config.a) (AsymConfig.rd RO config.g))))
    (RO.mul (tinyy_tmpres RO config zr pr rerr) pr)

/-- Regime `tinyy`: the estimate `r_est_l` (line 518). -/
def tinyy_est_l (RO : RealOps R) (config : AsymConfig R) (zr pr rerr : R) : R :=
  RO.div (RO.mul (tinyy_tx RO config zr pr rerr) (AsymConfig.rd RO config.g))
    (RO.sub (RO.lit 1) (RO.div (AsymConfig.rd RO config.g) pr))

/-- Regime `tinyy`: the estimate `r_est_h` (lines 519-521). -/
def tinyy_est_h (RO : RealOps R) (config : AsymConfig R) (zr pr rerr : R) : R :=
  RO.div (RO.mul (RO.mul (tinyy_tx RO config zr pr rerr) (AsymConfig.rd RO config.a))
      (RO.add (RO.lit 1) (RO.div (RO.mul (RO.lit (1/2)) pr) zr)))
    (RO.sub (RO.lit 1) (RO.div (AsymConfig.rd RO config.a) pr))

/-- Regime `hugez`: the estimate `r_est` (lines 541-544). -/
def hugez_est (RO : RealOps R) (config : AsymConfig R) (zr pr rerr : R) : R :=
  RO.div
    (RO.mul (RO.lit (1/4))
      (RO.add (RO.lit (1/2))
        (RO.log1p (RO.div (RO.mul (RO.lit 2) zr)
          (RO.sqrt (RO.mul (AsymConfig.rd RO config.h) pr))))))
    (RO.mul (RO.rc (hugez_tt RO config pr) (hugez_arg2 RO config pr) rerr).1 zr)

/-- The transformed fourth argument `pn = (x + y - p - x*y/z) / (1 - p/z)` of the
principal-value reduction, over an ordered field. -/
def pn_formula {F : Type} [LinearOrderedField F] (x y z p : F) : F :=
  (x + y - p - x * y / z) / (1 - p / z)

/-- The value `rj_cpv_dispatch` assembles from the three sub-results (lines 244-253):
the `ndot2` of the three coefficients with the sub-results, over `xct2[3]`. -/
def cpv_combine (RO : RealOps R) (x y z p rjv rfv rcv : R) : R :=
  let xy := RO.mul x y
  let xct2_3 := RO.add (RO.div (RO.neg p) z) (RO.lit 1)
  let pn := cpv_pn RO x y z p
  let xypq := cpv_xypq RO x y z p
  let n0 := RO.sub (RO.div pn z) (RO.lit 1)
  let n1 := RO.div (RO.neg (RO.lit 3)) z
  let n2 := RO.mul (RO.lit 3) (RO.sqrt (RO.div xy (RO.mul xypq z)))
  RO.div (RO.ndot2 [n0, n1, n2] [rjv, rfv, rcv]) xct2_3

/-- The formula the comments of lines 249-252 document:
`tmpres = (pn - zz) * rjv - 3.0 * (rfv - sqrt(xy * zz / xypq) * rcv)`, then
`tmpres /= q + zz`, with `q = -p` and `zz = z`. -/
def cpv_documented (RO : RealOps R) (x y z p rjv rfv rcv : R) : R :=
  let xy := RO.mul x y
  let q := RO.neg p
  let pn := cpv_pn RO x y z p
  let xypq := cpv_xypq RO x y z p
  let tmpres :=
    RO.sub (RO.mul (RO.sub pn z) rjv)
      (RO.mul (RO.lit 3)
        (RO.sub rfv (RO.mul (RO.sqrt (RO.div (RO.mul xy z) xypq)) rcv)))
  RO.div tmpres (RO.add q z)

/-- Lines 566-584 up to the first `ELLINT_RJ_UPDT`: the state before that update (with
`d4m = 1`, `pm = p`), the `lam` of the first `ELLINT_RJ_CALC`, and `delta`. -/
def rj_start (RO : RealOps R) (S : ScalarOps T R) (xm ym zm p : T) (rerr : R) :
    DupState T R × T × T :=
  let Am := S.div (S.nsum2 [xm, ym, zm, p, p]) (S.ofReal (RO.lit 5))
  let delta := S.mul (S.mul (S.sub p xm) (S.sub p ym)) (S.sub p zm)
  let xxm := S.sub Am xm
  let yym := S.sub Am ym
  let zzm := S.sub Am zm
  let fterm :=
    RO.div (max4 RO (S.abs xxm) (S.abs yym) (S.abs zzm) (S.abs (S.sub Am p)))
           (RO.ocrt (RO.div rerr (RO.lit 5)))
  let d4m := RO.lit 1
  let pm := p
  let ld := rj_calc S xm ym zm pm
  let sm := S.mul ld.2 (S.ofReal (RO.lit (1/2)))
  ({ Am := Am, xm := xm, ym := ym, zm := zm, pm := pm, xxm := xxm, yym := yym,
     zzm := zzm, d4m := d4m, fterm := fterm, sm := sm, m := 1 }, ld.1, delta)

/-- The duplication-step invariants after `k` updates, for a state of field values:
`Am = (xm + ym + zm + 2*pm) / 5`, `xxm = Am - xm`, `yym = Am - ym`, `zzm = Am - zm`,
`d4m = 4^(-k)` and `(pm - xm) * (pm - ym) * (pm - zm) = delta * d4m^3`. -/
def DupInv {R F : Type} [LinearOrderedField F] (emb : F → R) (delta : F) (k : Nat)
    (st : DupState R R) : Prop :=
  ∃ A x y z p : F,
    st.Am = emb A ∧ st.xm = emb x ∧ st.ym = emb y ∧ st.zm = emb z ∧ st.pm = emb p ∧
    st.xxm = emb (A - x) ∧ st.yym = emb (A - y) ∧ st.zzm = emb (A - z) ∧
    st.d4m = emb ((1 / 4) ^ k) ∧
    A = (x + y + z + 2 * p) / 5 ∧
    (p - x) * (p - y) * (p - z) = delta * ((1 / 4) ^ k) ^ 3

end DefsMore

/-! ## Theorems -/

section Theorems

variable {T R : Type}

/-- An activation of the real `rj` with room for at least one activation is the body
`rjCore` at the real instantiation. -/
lemma rj_succ (RO : RealOps R) (n : Nat) (x y z p rerr : R) :
    rj RO (n + 1) x y z p rerr =
      rjCore RO (realScalar RO) (safe_atan_sqrt_div RO)
        (fun a b c d r => (rj RO n a b c d r).map (fun o => (o.res, o.status)))
        (n + 1) x y z p rerr := rfl

/-- Being a strict total order on a list depends on the entries only. -/
lemma StrictTotalOn.of_subset {cmp : T → T → Bool} {l l2 : List T}
    (h : StrictTotalOn cmp l) (hsub : ∀ u ∈ l2, u ∈ l) : StrictTotalOn cmp l2 :=
  ⟨fun u hu v hv => h.1 u (hsub u hu) v (hsub v hv),
   fun u hu v hv w hw => h.2.1 u (hsub u hu) v (hsub v hv) w (hsub w hw),
   fun u hu v hv => h.2.2 u (hsub u hu) v (hsub v hv)⟩

/-- The six outcomes of `sort3`. -/
lemma sort3_eq (cmp : T → T → Bool) (a b c : T) :
    sort3 cmp a b c =
      if cmp b a = true then
        (if cmp c b = true then (c, b, a) else if cmp c a = true then (b, c, a) else (b, a, c))
      else
        (if cmp c a = true then (c, a, b) else if cmp c b = true then (a, c, b) else (a, b, c)) := by
  unfold sort3
  by_cases hba : cmp b a = true <;> by_cases h1 : cmp c b = true <;>
    by_cases h2 : cmp c a = true <;> simp [hba, h1, h2]

/-- The sorted triple is a rearrangement of the three entries. -/
lemma sort3_perm (cmp : T → T → Bool) (a b c : T) :
    List.Perm [(sort3 cmp a b c).1, (sort3 cmp a b c).2.1, (sort3 cmp a b c).2.2]
      [a, b, c] := by
  rw [sort3_eq]
  split_ifs
  · exact List.reverse_perm [a, b, c]
  · exact (List.perm_append_comm : List.Perm ([b, c] ++ [a]) ([a] ++ [b, c]))
  · exact List.Perm.swap a b [c]
  · exact (List.perm_append_comm : List.Perm ([c] ++ [a, b]) ([a, b] ++ [c]))
  · exact (List.Perm.swap b c []).cons a
  · exact List.Perm.refl _

/-- The sorted triple is in order: no entry precedes its left neighbour. -/
lemma sort3_sorted (cmp : T → T → Bool) (a b c : T) (h : StrictTotalOn cmp [a, b, c]) :
    cmp (sort3 cmp a b c).2.1 (sort3 cmp a b c).1 = false ∧
    cmp (sort3 cmp a b c).2.2 (sort3 cmp a b c).2.1 = false := by
  obtain ⟨has, -, -⟩ := h
  have ma : a ∈ [a, b, c] := by simp
  have mb : b ∈ [a, b, c] := by simp
  have mc : c ∈ [a, b, c] := by simp
  rw [sort3_eq]
  split_ifs with hba h1 h2 h1 h2
  · exact ⟨has c mc b mb h1, has b mb a ma hba⟩
  · exact ⟨by simpa using h1, has c mc a ma h2⟩
  · exact ⟨has b mb a ma hba, by simpa using h2⟩
  · exact ⟨has c mc a ma h1, by simpa using hba⟩
  · exact ⟨by simpa using h1, has c mc b mb h2⟩
  · exact ⟨by simpa using hba, by simpa using h2⟩

/-- In an ordered triple the last entry does not precede the first. -/
lemma sorted3_ends (cmp : T → T → Bool) (l : List T) (h : StrictTotalOn cmp l)
    (p q r : T) (hp : p ∈ l) (hq : q ∈ l) (hr : r ∈ l)
    (h1 : cmp q p = false) (h2 : cmp r q = false) : cmp r p = false := by
  obtain ⟨-, htr, htot⟩ := h
  by_contra hc
  have hrp : cmp r p = true := by simpa using hc
  by_cases hqr : cmp q r = true
  · have := htr q hq r hr p hp hqr hrp
    simp [h1] at this
  · have e : q = r := htot q hq r hr (by simpa using hqr) h2
    subst e
    simp [h1] at hrp

/-- Two ordered arrangements of the same three entries coincide. -/
lemma sorted3_unique (cmp : T → T → Bool) (l : List T) (h : StrictTotalOn cmp l)
    (p q r p2 q2 r2 : T) (hl : List.Perm [p, q, r] l) (hl2 : List.Perm [p2, q2, r2] l)
    (h1 : cmp q p = false) (h2 : cmp r q = false)
    (k1 : cmp q2 p2 = false) (k2 : cmp r2 q2 = false) :
    p = p2 ∧ q = q2 ∧ r = r2 := by
  have hp : p ∈ l := hl.subset (by simp)
  have hq : q ∈ l := hl.subset (by simp)
  have hr : r ∈ l := hl.subset (by simp)
  have hp2 : p2 ∈ l := hl2.subset (by simp)
  have hq2 : q2 ∈ l := hl2.subset (by simp)
  have hr2 : r2 ∈ l := hl2.subset (by simp)
  have h3 := sorted3_ends cmp l h p q r hp hq hr h1 h2
  have k3 := sorted3_ends cmp l h p2 q2 r2 hp2 hq2 hr2 k1 k2
  obtain ⟨has, htr, htot⟩ := h
  have irr : ∀ u ∈ l, cmp u u = false := by
    intro u hu
    by_contra hc
    have hc2 : cmp u u = true := by simpa using hc
    have := has u hu u hu hc2
    simp [hc2] at this
  have hpp : List.Perm [p, q, r] [p2, q2, r2] := hl.trans hl2.symm
  -- the first entries are both least
  have m1 : p2 ∈ [p, q, r] := hpp.symm.subset (by simp)
  have m2 : p ∈ [p2, q2, r2] := hpp.subset (by simp)
  have e1 : cmp p2 p = false := by
    simp only [List.mem_cons, List.mem_singleton, List.not_mem_nil, or_false] at m1
    rcases m1 with e | e | e
    · rw [e]; exact irr p hp
    · rw [e]; exact h1
    · rw [e]; exact h3
  have e2 : cmp p p2 = false := by
    simp only [List.mem_cons, List.mem_singleton, List.not_mem_nil, or_false] at m2
    rcases m2 with e | e | e
    · rw [e]; exact irr p2 hp2
    · rw [e]; exact k1
    · rw [e]; exact k3
  have ep : p = p2 := htot p hp p2 hp2 e2 e1
  -- the last entries are both greatest
  have n1 : r2 ∈ [p, q, r] := hpp.symm.subset (by simp)
  have n2 : r ∈ [p2, q2, r2] := hpp.subset (by simp)
  have f1 : cmp r r2 = false := by
    simp only [List.mem_cons, List.mem_singleton, List.not_mem_nil, or_false] at n1
    rcases n1 with e | e | e
    · rw [e]; exact h3
    · rw [e]; exact h2
    · rw [e]; exact irr r hr
  have f2 : cmp r2 r = false := by
    simp only [List.mem_cons, List.mem_singleton, List.not_mem_nil, or_false] at n2
    rcases n2 with e | e | e
    · rw [e]; exact k3
    · rw [e]; exact k2
    · rw [e]; exact irr r2 hr2
  have er : r = r2 := htot r hr r2 hr2 f1 f2
  subst ep
  subst er
  refine ⟨rfl, ?_, rfl⟩
  have t1 : List.Perm [q, r] [q2, r] := (List.perm_cons p).1 hpp
  have t2 : List.Perm [r, q] [r, q2] :=
    ((List.Perm.swap q r []).trans t1).trans (List.Perm.swap r q2 [])
  have t3 : List.Perm [q] [q2] := (List.perm_cons r).1 t2
  exact List.singleton_perm_singleton.1 t3

/-- Under a strict total order the sorted triple depends on the three entries only up
to their arrangement. -/
lemma sort3_of_perm (cmp : T → T → Bool) (a b c a2 b2 c2 : T)
    (h : StrictTotalOn cmp [a, b, c]) (hp : List.Perm [a2, b2, c2] [a, b, c]) :
    sort3 cmp a2 b2 c2 = sort3 cmp a b c := by
  have h2 : StrictTotalOn cmp [a2, b2, c2] := h.of_subset (fun u hu => hp.subset hu)
  have s1 := sort3_sorted cmp a b c h
  have s2 := sort3_sorted cmp a2 b2 c2 h2
  have p1 := sort3_perm cmp a b c
  have p2 := (sort3_perm cmp a2 b2 c2).trans hp
  obtain ⟨e1, e2, e3⟩ :=
    sorted3_unique cmp [a, b, c] h _ _ _ _ _ _ p2 p1 s2.1 s2.2 s1.1 s1.2
  exact Prod.ext e1 (Prod.ext e2 e3)

/-- C1. Tolerance validation: when `argcheck::invalid_rerr(rerr, 1e-4)` holds, `rj`
returns not-a-number with status `bad_rerr` for every quadruple, at the real and at
the complex scalar type, having made no sub-call; the result does not depend on the
arguments, on the siblings or on the room left for recursion and iteration. -/
theorem C1_bad_tolerance (RO : RealOps R) (S : ScalarOps T R) (n : Nat)
    (x y z p : R) (xc yc zc pc : T) (rerr : R)
    (h : RO.invalid_rerr rerr (RO.lit (1 / 10 ^ 4)) = true) :
    rj RO (n + 1) x y z p rerr =
        some { res := RO.nan, status := ExitStatus.bad_rerr, calls := [],
               via := ReturnSite.bad_rerr } ∧
    rj_cplx RO S n xc yc zc pc rerr =
        some { res := S.nan, status := ExitStatus.bad_rerr, calls := [],
               via := ReturnSite.bad_rerr } := by
  constructor
  · rw [rj_succ, rjCore, if_pos h]
    rfl
  · rw [rj_cplx, rjCore, if_pos h]

/-- C1, at the tolerances 1.0, 0 and -1 in the reference interpretation. -/
theorem C1_bad_tolerance_witness :
    (refEnv.invalid_rerr (XQ.fin 1) (refEnv.lit (1 / 10 ^ 4)) = true ∧
      rj refEnv 1 (XQ.fin 1) (XQ.fin 1) (XQ.fin 1) (XQ.fin 1) (XQ.fin 1) =
        some { res := XQ.nan, status := ExitStatus.bad_rerr, calls := [],
               via := ReturnSite.bad_rerr }) ∧
    (refEnv.invalid_rerr (XQ.fin 0) (refEnv.lit (1 / 10 ^ 4)) = true ∧
      rj refEnv 1 (XQ.fin 1) (XQ.fin 1) (XQ.fin 1) (XQ.fin 1) (XQ.fin 0) =
        some { res := XQ.nan, status := ExitStatus.bad_rerr, calls := [],
               via := ReturnSite.bad_rerr }) ∧
    (refEnv.invalid_rerr (XQ.fin (-1)) (refEnv.lit (1 / 10 ^ 4)) = true ∧
      rj refEnv 1 (XQ.fin 1) (XQ.fin 1) (XQ.fin 1) (XQ.fin 1) (XQ.fin (-1)) =
        some { res := XQ.nan, status := ExitStatus.bad_rerr, calls := [],
               via := ReturnSite.bad_rerr }) :=
  ⟨⟨by decide!, (C1_bad_tolerance refEnv (realScalar refEnv) 0 _ _ _ _ (XQ.fin 1)
        (XQ.fin 1) (XQ.fin 1) (XQ.fin 1) _ (by decide!)).1⟩,
   ⟨by decide!, (C1_bad_tolerance refEnv (realScalar refEnv) 0 _ _ _ _ (XQ.fin 1)
        (XQ.fin 1) (XQ.fin 1) (XQ.fin 1) _ (by decide!)).1⟩,
   ⟨by decide!, (C1_bad_tolerance refEnv (realScalar refEnv) 0 _ _ _ _ (XQ.fin 1)
        (XQ.fin 1) (XQ.fin 1) (XQ.fin 1) _ (by decide!)).1⟩⟩

/-- C2. Symmetry: for real arguments on which `<` is a strict total order (reals that
are not not-a-number), `rj` applied to any rearrangement of the first three arguments,
with `p`, the tolerance and the room for recursion unchanged, gives the same outcome
(value, status, sub-calls, or running out of room) as `rj x y z p`. -/
theorem C2_symmetry (RO : RealOps R) (n : Nat) (x y z x2 y2 z2 p rerr : R)
    (hord : StrictTotalOn RO.lt [x, y, z])
    (hperm : List.Perm [x2, y2, z2] [x, y, z]) :
    rj RO n x2 y2 z2 p rerr = rj RO n x y z p rerr := by
  cases n with
  | zero => rfl
  | succ n =>
    have hs : sort3 (rcmp RO (realScalar RO)) x2 y2 z2 =
        sort3 (rcmp RO (realScalar RO)) x y z :=
      sort3_of_perm (rcmp RO (realScalar RO)) x y z x2 y2 z2 hord hperm
    rw [rj_succ, rj_succ]
    unfold rjCore
    rw [hs]

/-- C2 at the arguments (3, 1, 2) against (1, 2, 3) in the reference interpretation. -/
theorem C2_symmetry_witness :
    StrictTotalOn refEnv.lt [XQ.fin 1, XQ.fin 2, XQ.fin 3] ∧
    List.Perm [XQ.fin 3, XQ.fin 1, XQ.fin 2] [XQ.fin 1, XQ.fin 2, XQ.fin 3] ∧
    rj refEnv 2 (XQ.fin 3) (XQ.fin 1) (XQ.fin 2) (XQ.fin 5) (XQ.fin (1 / 10 ^ 5)) =
      rj refEnv 2 (XQ.fin 1) (XQ.fin 2) (XQ.fin 3) (XQ.fin 5) (XQ.fin (1 / 10 ^ 5)) :=
  have h : StrictTotalOn refEnv.lt [XQ.fin 1, XQ.fin 2, XQ.fin 3] := by
    unfold StrictTotalOn
    decide!
  have hp : List.Perm [XQ.fin 3, XQ.fin 1, XQ.fin 2] [XQ.fin 1, XQ.fin 2, XQ.fin 3] :=
    (List.perm_append_comm :
      List.Perm ([XQ.fin 3] ++ [XQ.fin 1, XQ.fin 2]) ([XQ.fin 1, XQ.fin 2] ++ [XQ.fin 3]))
  ⟨h, hp, C2_symmetry refEnv 2 _ _ _ _ _ _ _ _ h hp⟩

/-- C3, the claim as stated fails: with `z = 1 > 0`, the positive but negligibly small
`p = 2 ^ (-1074)` and a valid tolerance, `rj(0, 0, z, p)` is rejected with not-a-number
and `bad_args`, because the pole rule asks for `!too_small(p)`. -/
theorem C3_pole_counterexample :
    XQ.lt (XQ.fin 0) (XQ.fin 1) = true ∧
    XQ.lt (XQ.fin 0) (XQ.fin (1 / 2 ^ 1074)) = true ∧
    refEnv.invalid_rerr (XQ.fin (1 / 10 ^ 5)) (refEnv.lit (1 / 10 ^ 4)) = false ∧
    rj refEnv 1 (XQ.fin 0) (XQ.fin 0) (XQ.fin 1) (XQ.fin (1 / 2 ^ 1074))
        (XQ.fin (1 / 10 ^ 5)) =
      some { res := XQ.nan, status := ExitStatus.bad_args, calls := [],
             via := ReturnSite.bad_args } := by
  decide!

/-- C3, amended. Pole: with a valid tolerance, for every real `z` that is not below zero
and has good phase (as every `z > 0` has) and every `p` that is not negligibly small
(`too_small(p)` false), zero being negligibly small, `rj(0, 0, z, p)` returns status
`singular` with the huge sentinel as value, having made no sub-call. -/
theorem C3_pole (RO : RealOps R) (n : Nat) (z p rerr : R)
    (hv : RO.invalid_rerr rerr (RO.lit (1 / 10 ^ 4)) = false)
    (h0 : RO.too_small (RO.lit 0) = true)
    (hz : RO.lt z (RO.lit 0) = false)
    (hg : RO.ph_good z = true)
    (hp : RO.too_small p = false) :
    rj RO (n + 1) (RO.lit 0) (RO.lit 0) z p rerr =
      some { res := RO.huge, status := ExitStatus.singular, calls := [],
             via := ReturnSite.pole } := by
  have hs : sort3 (rcmp RO (realScalar RO)) (RO.lit 0) (RO.lit 0) z =
      (RO.lit 0, RO.lit 0, z) := by
    rw [sort3_eq]
    have hc : rcmp RO (realScalar RO) z (RO.lit 0) = false := hz
    simp [hc]
  have hga : good_args RO (realScalar RO) (RO.lit 0) (RO.lit 0) z p ArgCases.zeroed =
      (false, { ArgCases.zeroed with hit_pole := true }) := by
    simp [good_args, realScalar, h0, hg, hp, ArgCases.zeroed]
  rw [rj_succ]
  unfold rjCore
  rw [if_neg (by rw [hv]; exact Bool.false_ne_true), hs]
  simp only [hga]
  simp [ArgCases.zeroed, realScalar]

/-- C3, amended, at `z = 1`, `p = 1` in the reference interpretation. -/
theorem C3_pole_witness :
    refEnv.invalid_rerr (XQ.fin (1 / 10 ^ 5)) (refEnv.lit (1 / 10 ^ 4)) = false ∧
    refEnv.too_small (refEnv.lit 0) = true ∧
    refEnv.lt (XQ.fin 1) (refEnv.lit 0) = false ∧
    refEnv.ph_good (XQ.fin 1) = true ∧
    refEnv.too_small (XQ.fin 1) = false ∧
    rj refEnv 1 (refEnv.lit 0) (refEnv.lit 0) (XQ.fin 1) (XQ.fin 1) (XQ.fin (1 / 10 ^ 5)) =
      some { res := XQ.pinf, status := ExitStatus.singular, calls := [],
             via := ReturnSite.pole } :=
  ⟨by decide!, by decide!, by decide!, by decide!, by decide!,
   C3_pole refEnv 0 (XQ.fin 1) (XQ.fin 1) (XQ.fin (1 / 10 ^ 5))
     (by decide!) (by decide!) (by decide!) (by decide!) (by decide!)⟩

/-- A test that holds of one of three entries holds of one entry of the sorted
triple. -/
lemma sort3_any (cmp : T → T → Bool) (f : T → Bool) (a b c : T) :
    (f (sort3 cmp a b c).1 || f (sort3 cmp a b c).2.1 || f (sort3 cmp a b c).2.2) =
      (f a || f b || f c) := by
  rw [sort3_eq]
  split_ifs <;> cases f a <;> cases f b <;> cases f c <;> rfl

/-- A test that holds of all three entries holds of all entries of the sorted triple. -/
lemma sort3_all (cmp : T → T → Bool) (f : T → Bool) (a b c : T) :
    (f (sort3 cmp a b c).1 && f (sort3 cmp a b c).2.1 && f (sort3 cmp a b c).2.2) =
      (f a && f b && f c) := by
  rw [sort3_eq]
  split_ifs <;> cases f a <;> cases f b <;> cases f c <;> rfl

/-- C4, the claim as stated fails: `a = b = 2 ^ (-1074)` and `c = 3` are finite positive
reals and `p` is plus infinity, the tolerance is valid, and `rj` returns the huge
sentinel with status `singular`, not 0 with `success`: the pole rule is tested before
the directed infinity and the two smallest arguments are negligibly small. -/
theorem C4_infinity_counterexample :
    XQ.lt (XQ.fin 0) (XQ.fin (1 / 2 ^ 1074)) = true ∧
    XQ.lt (XQ.fin 0) (XQ.fin 3) = true ∧
    refEnv.isinf XQ.pinf = true ∧
    refEnv.invalid_rerr (XQ.fin (1 / 10 ^ 5)) (refEnv.lit (1 / 10 ^ 4)) = false ∧
    rj refEnv 1 (XQ.fin (1 / 2 ^ 1074)) (XQ.fin (1 / 2 ^ 1074)) (XQ.fin 3) XQ.pinf
        (XQ.fin (1 / 10 ^ 5)) =
      some { res := XQ.pinf, status := ExitStatus.singular, calls := [],
             via := ReturnSite.pole } := by
  decide!

/-- C4, amended. Directed infinity: with a valid tolerance, whenever one of the four
arguments is infinite, the three symmetric arguments have good phase, and the pole
rule does not hold of the sorted arguments (the two smallest are not both negligibly
small, or `p` is), `rj` returns the value 0 with status `success`, having made no
sub-call. -/
theorem C4_infinity (RO : RealOps R) (n : Nat) (x y z p rerr : R)
    (hv : RO.invalid_rerr rerr (RO.lit (1 / 10 ^ 4)) = false)
    (hpole : (RO.too_small (sort3 RO.lt x y z).1 && RO.too_small (sort3 RO.lt x y z).2.1 &&
              RO.ph_good (sort3 RO.lt x y z).2.2 && !RO.too_small p) = false)
    (hinf : (RO.isinf x || RO.isinf y || RO.isinf z || RO.isinf p) = true)
    (hgood : (RO.ph_good x && RO.ph_good y && RO.ph_good z) = true) :
    rj RO (n + 1) x y z p rerr =
      some { res := RO.lit 0, status := ExitStatus.success, calls := [],
             via := ReturnSite.infinity } := by
  have hcmp : rcmp RO (realScalar RO) = RO.lt := rfl
  have hi : (RO.isinf (sort3 RO.lt x y z).1 || RO.isinf (sort3 RO.lt x y z).2.1 ||
      RO.isinf (sort3 RO.lt x y z).2.2 || RO.isinf p) = true := by
    rw [sort3_any RO.lt RO.isinf x y z]
    exact hinf
  have hgd : (RO.ph_good (sort3 RO.lt x y z).1 && RO.ph_good (sort3 RO.lt x y z).2.1 &&
      RO.ph_good (sort3 RO.lt x y z).2.2) = true := by
    rw [sort3_all RO.lt RO.ph_good x y z]
    exact hgood
  have hga : good_args RO (realScalar RO) (sort3 RO.lt x y z).1 (sort3 RO.lt x y z).2.1
      (sort3 RO.lt x y z).2.2 p ArgCases.zeroed =
      (false, { ArgCases.zeroed with good_infinity := true }) := by
    have hp2 : (RO.too_small (sort3 RO.lt x y z).1 && RO.too_small (sort3 RO.lt x y z).2.1 &&
              RO.ph_good (sort3 RO.lt x y z).2.2 && !RO.too_small p) = false := hpole
    unfold good_args
    simp only [realScalar, hp2, hi, hgd, ArgCases.zeroed]
    simp
  rw [rj_succ]
  unfold rjCore
  rw [if_neg (by rw [hv]; exact Bool.false_ne_true), hcmp]
  simp only [hga]
  simp [ArgCases.zeroed, realScalar]

/-- C4, amended, at `(1, 2, 3, +infinity)` in the reference interpretation. -/
theorem C4_infinity_witness :
    refEnv.invalid_rerr (XQ.fin (1 / 10 ^ 5)) (refEnv.lit (1 / 10 ^ 4)) = false ∧
    rj refEnv 1 (XQ.fin 1) (XQ.fin 2) (XQ.fin 3) XQ.pinf (XQ.fin (1 / 10 ^ 5)) =
      some { res := XQ.fin 0, status := ExitStatus.success, calls := [],
             via := ReturnSite.infinity } :=
  ⟨by decide!,
   C4_infinity refEnv 0 (XQ.fin 1) (XQ.fin 2) (XQ.fin 3) XQ.pinf (XQ.fin (1 / 10 ^ 5))
     (by decide!) (by decide!) (by decide!) (by decide!)⟩

/-! ### The duplication loop -/

/-- A pass through the loop body advances the counter by one, modulo `2 ^ 32`. -/
lemma loop_body_m (RO : RealOps R) (S : ScalarOps T R) (delta : T) (st : DupState T R) :
    (loop_body RO S delta st).m = (st.m + 1) % 2 ^ 32 := rfl

/-- Unfolding of the loop at a state where the controlling expression is false. -/
lemma rj_loop_stop (RO : RealOps R) (S : ScalarOps T R) (delta : T) (fuel : Nat)
    (st : DupState T R) (status : ExitStatus) (h : loop_cond RO S st = false) :
    rj_loop RO S delta (fuel + 1) st status = some (st, status) := by
  simp [rj_loop, h]

/-- Unfolding of the loop at a state where the cap is hit. -/
lemma rj_loop_cap (RO : RealOps R) (S : ScalarOps T R) (delta : T) (fuel : Nat)
    (st : DupState T R) (status : ExitStatus) (h : loop_cond RO S st = true)
    (hm : st.m > RO.max_iter) :
    rj_loop RO S delta (fuel + 1) st status = some (st, ExitStatus.n_iter) := by
  simp [rj_loop, h, hm]

/-- Unfolding of the loop at a state where the body is run. -/
lemma rj_loop_step (RO : RealOps R) (S : ScalarOps T R) (delta : T) (fuel : Nat)
    (st : DupState T R) (status : ExitStatus) (h : loop_cond RO S st = true)
    (hm : st.m ≤ RO.max_iter) :
    rj_loop RO S delta (fuel + 1) st status =
      rj_loop RO S delta fuel (loop_body RO S delta st) status := by
  have hm2 : ¬ st.m > RO.max_iter := Nat.not_lt.mpr hm
  simp [rj_loop, h, hm2]

/-- The loop leaves `status` as it was or sets it to `n_iter`. -/
lemma rj_loop_status (RO : RealOps R) (S : ScalarOps T R) (delta : T) :
    ∀ (fuel : Nat) (st st2 : DupState T R) (status s : ExitStatus),
      rj_loop RO S delta fuel st status = some (st2, s) →
      s = status ∨ s = ExitStatus.n_iter := by
  intro fuel
  induction fuel with
  | zero => intro st st2 status s h; simp [rj_loop] at h
  | succ f ih =>
    intro st st2 status s h
    by_cases hc : loop_cond RO S st = true
    · by_cases hm : st.m > RO.max_iter
      · rw [rj_loop_cap RO S delta f st status hc hm] at h
        simp only [Option.some.injEq, Prod.mk.injEq] at h
        exact Or.inr h.2.symm
      · rw [rj_loop_step RO S delta f st status hc (Nat.not_lt.mp hm)] at h
        exact ih _ _ _ _ h
    · rw [rj_loop_stop RO S delta f st status (by simpa using hc)] at h
      simp only [Option.some.injEq, Prod.mk.injEq] at h
      exact Or.inl h.2.symm

/-- With the counter at `m` and `k = max_iter + 1 - m` passes left before the cap, the
loop ends within `k` passes given room for `k + 1` evaluations of its condition. -/
lemma rj_loop_terminates (RO : RealOps R) (S : ScalarOps T R) (delta : T)
    (hmax : RO.max_iter + 1 < 2 ^ 32) :
    ∀ (k : Nat) (st : DupState T R) (status : ExitStatus) (fuel : Nat),
      st.m + k = RO.max_iter + 1 → k + 1 ≤ fuel →
      ∃ j, j ≤ k ∧ ∃ s,
        rj_loop RO S delta fuel st status = some ((loop_body RO S delta)^[j] st, s) ∧
        ((s = status ∧ loop_cond RO S ((loop_body RO S delta)^[j] st) = false) ∨
         (s = ExitStatus.n_iter ∧ j = k ∧
            loop_cond RO S ((loop_body RO S delta)^[j] st) = true)) := by
  intro k
  induction k with
  | zero =>
    intro st status fuel hm hf
    obtain ⟨f, rfl⟩ : ∃ f, fuel = f + 1 := ⟨fuel - 1, by omega⟩
    refine ⟨0, le_refl _, ?_⟩
    by_cases hc : loop_cond RO S st = true
    · refine ⟨ExitStatus.n_iter, ?_, Or.inr ⟨rfl, rfl, by simpa using hc⟩⟩
      simpa using rj_loop_cap RO S delta f st status hc (by omega)
    · have hc2 : loop_cond RO S st = false := by simpa using hc
      refine ⟨status, ?_, Or.inl ⟨rfl, by simpa using hc2⟩⟩
      simpa using rj_loop_stop RO S delta f st status hc2
  | succ k ih =>
    intro st status fuel hm hf
    obtain ⟨f, rfl⟩ : ∃ f, fuel = f + 1 := ⟨fuel - 1, by omega⟩
    by_cases hc : loop_cond RO S st = true
    · have hle : st.m ≤ RO.max_iter := by omega
      have hm2 : (loop_body RO S delta st).m + k = RO.max_iter + 1 := by
        rw [loop_body_m, Nat.mod_eq_of_lt (by omega)]
        omega
      obtain ⟨j, hj, s, hrun, hs⟩ := ih (loop_body RO S delta st) status f hm2 (by omega)
      refine ⟨j + 1, by omega, s, ?_, ?_⟩
      · rw [rj_loop_step RO S delta f st status hc hle, hrun, Function.iterate_succ_apply]
      · rw [Function.iterate_succ_apply]
        rcases hs with ⟨h1, h2⟩ | ⟨h1, h2, h3⟩
        · exact Or.inl ⟨h1, h2⟩
        · exact Or.inr ⟨h1, by omega, h3⟩
    · have hc2 : loop_cond RO S st = false := by simpa using hc
      refine ⟨0, Nat.zero_le _, status, ?_, Or.inl ⟨rfl, by simpa using hc2⟩⟩
      simpa using rj_loop_stop RO S delta f st status hc2

/-- The counter is 1 on reaching the `while`. -/
lemma rj_init_m (RO : RealOps R) (S : ScalarOps T R) (xm ym zm p : T) (rerr : R) :
    (rj_init RO S xm ym zm p rerr).1.m = 1 := rfl

/-- When the `switch` leaves the tag `nothing`, it leaves `status` at `success`
(given that it was `success` before, as it is in `rj`). -/
lemma rj_asym_switch_nothing (RO : RealOps R)
    (recur : R → R → R → R → R → Option (R × ExitStatus))
    (cres : AsymFlag) (config : AsymConfig R) (xr yr zr pr rerr tmpres : R)
    (st : ExitStatus) (t : R) (cs : List (SubCall R))
    (h : rj_asym_switch RO recur cres config xr yr zr pr rerr ExitStatus.success tmpres =
      some (AsymFlag.nothing, st, t, cs)) : st = ExitStatus.success := by
  cases cres with
  | nothing =>
    simp only [rj_asym_switch, Option.some.injEq, Prod.mk.injEq] at h
    exact h.2.1.symm
  | hugep => simp [rj_asym_switch] at h
  | tinyp =>
    simp only [rj_asym_switch] at h
    split at h <;> simp at h
  | hugey => simp [rj_asym_switch] at h
  | tinyx =>
    simp only [rj_asym_switch] at h
    split at h <;> simp at h
  | tinyy =>
    simp only [rj_asym_switch] at h
    split at h
    · simp only [Option.some.injEq, Prod.mk.injEq] at h
      exact h.2.1.symm
    · simp at h
  | hugez =>
    simp only [rj_asym_switch] at h
    split at h
    · simp only [Option.some.injEq, Prod.mk.injEq] at h
      exact h.2.1.symm
    · simp at h

/-- The general path hands back the status the loop leaves. -/
lemma rj_general_status (RO : RealOps R) (S : ScalarOps T R) (atanDiv : T → T)
    (lfuel : Nat) (xm ym zm p : T) (rerr : R) (status : ExitStatus) (v : T)
    (s : ExitStatus)
    (h : rj_general RO S atanDiv lfuel xm ym zm p rerr status = some (v, s)) :
    s = status ∨ s = ExitStatus.n_iter := by
  unfold rj_general at h
  dsimp only at h
  split at h
  · simp at h
  · rename_i st s1 hl
    simp only [Option.some.injEq, Prod.mk.injEq] at h
    rw [← h.2]
    exact rj_loop_status RO S _ _ _ _ _ _ hl

/-- A result that left `rj` through the general path has status `success` or
`n_iter`. -/
lemma rjCore_general_status (RO : RealOps R) (S : ScalarOps T R) (atanDiv : T → T)
    (recur : R → R → R → R → R → Option (R × ExitStatus)) (lfuel : Nat)
    (x y z p : T) (rerr : R) (res : Result T R)
    (h : rjCore RO S atanDiv recur lfuel x y z p rerr = some res)
    (hv : res.via = ReturnSite.general) :
    res.status = ExitStatus.success ∨ res.status = ExitStatus.n_iter := by
  unfold rjCore at h
  simp only at h
  split_ifs at h with h1 h2 h3 h4 h5 h6
  all_goals first
    | (simp only [Option.some.injEq] at h; subst h; simp at hv)
    | skip
  · split at h
    · simp at h
    · split_ifs at h <;> (simp only [Option.some.injEq] at h; subst h; simp at hv)
  · split at h
    · simp at h
    · rename_i cres status tmpres calls hsw
      split_ifs at h with h7
      · simp only [Option.some.injEq] at h; subst h; simp at hv
      · split at h
        · simp at h
        · rename_i v s1 hg
          simp only [Option.some.injEq] at h
          subst h
          have hn : cres = AsymFlag.nothing := by simpa using h7
          subst hn
          have hst := rj_asym_switch_nothing RO recur _ _ _ _ _ _ _ _ _ _ _ hsw
          subst hst
          exact rj_general_status RO S atanDiv lfuel _ _ _ _ _ _ _ _ hg
  · split at h
    · simp at h
    · rename_i v s1 hg
      simp only [Option.some.injEq] at h
      subst h
      exact rj_general_status RO S atanDiv lfuel _ _ _ _ _ _ _ _ hg

/-- C6. Iteration cap: with `max_iter + 1` below `2 ^ 32` (the counter is an
`unsigned int`) and room for `max_iter + 1` evaluations of the loop condition, the
general duplication path, entered with status `success`, runs the loop body `j` times
for some `j <= max_iter` (beyond the one update made before the loop) and returns
a value; the status is `success` when the continuation test failed after those
passes, or `n_iter` when `j = max_iter` and the test still held.  And whatever the
path before it, a result that leaves `rj` through the general path has status
`success` or `n_iter`. -/
theorem C6_iteration_cap (RO : RealOps R) (S : ScalarOps T R) (atanDiv : T → T)
    (lfuel : Nat) (xm ym zm p : T) (rerr : R)
    (hmax : RO.max_iter + 1 < 2 ^ 32) (hfuel : RO.max_iter + 1 ≤ lfuel) :
    (∃ j, j ≤ RO.max_iter ∧ ∃ s,
      rj_loop RO S (rj_init RO S xm ym zm p rerr).2 lfuel (rj_init RO S xm ym zm p rerr).1
          ExitStatus.success =
        some ((loop_body RO S (rj_init RO S xm ym zm p rerr).2)^[j]
                (rj_init RO S xm ym zm p rerr).1, s) ∧
      ((s = ExitStatus.success ∧
          loop_cond RO S ((loop_body RO S (rj_init RO S xm ym zm p rerr).2)^[j]
            (rj_init RO S xm ym zm p rerr).1) = false) ∨
       (s = ExitStatus.n_iter ∧ j = RO.max_iter ∧
          loop_cond RO S ((loop_body RO S (rj_init RO S xm ym zm p rerr).2)^[j]
            (rj_init RO S xm ym zm p rerr).1) = true)) ∧
      rj_general RO S atanDiv lfuel xm ym zm p rerr ExitStatus.success =
        some (rj_finish RO S atanDiv (rj_init RO S xm ym zm p rerr).2
                ((loop_body RO S (rj_init RO S xm ym zm p rerr).2)^[j]
                  (rj_init RO S xm ym zm p rerr).1), s)) ∧
    (∀ (recur : R → R → R → R → R → Option (R × ExitStatus)) (x y z q : T) (r : R)
        (res : Result T R),
      rjCore RO S atanDiv recur lfuel x y z q r = some res →
      res.via = ReturnSite.general →
      res.status = ExitStatus.success ∨ res.status = ExitStatus.n_iter) := by
  constructor
  · obtain ⟨j, hj, s, hrun, hs⟩ :=
      rj_loop_terminates RO S (rj_init RO S xm ym zm p rerr).2 hmax RO.max_iter
        (rj_init RO S xm ym zm p rerr).1 ExitStatus.success lfuel
        (by rw [rj_init_m]; omega) hfuel
    refine ⟨j, hj, s, hrun, hs, ?_⟩
    unfold rj_general
    simp only [hrun]
  · intro recur x y z q r res h hv
    exact rjCore_general_status RO S atanDiv recur lfuel x y z q r res h hv

/-- C6 at `rj(1, 1, 100, 1)` in the reference interpretation, whose `max_iter` is
1000. -/
theorem C6_iteration_cap_witness :
    refEnv.max_iter + 1 < 2 ^ 32 ∧ refEnv.max_iter + 1 ≤ 1001 ∧
    ∃ j, j ≤ refEnv.max_iter ∧ ∃ s,
      rj_loop refEnv (realScalar refEnv)
          (rj_init refEnv (realScalar refEnv) (XQ.fin 1) (XQ.fin 1) (XQ.fin 100) (XQ.fin 1)
            (XQ.fin (1 / 10 ^ 5))).2 1001
          (rj_init refEnv (realScalar refEnv) (XQ.fin 1) (XQ.fin 1) (XQ.fin 100) (XQ.fin 1)
            (XQ.fin (1 / 10 ^ 5))).1 ExitStatus.success =
        some ((loop_body refEnv (realScalar refEnv)
                (rj_init refEnv (realScalar refEnv) (XQ.fin 1) (XQ.fin 1) (XQ.fin 100)
                  (XQ.fin 1) (XQ.fin (1 / 10 ^ 5))).2)^[j]
                (rj_init refEnv (realScalar refEnv) (XQ.fin 1) (XQ.fin 1) (XQ.fin 100)
                  (XQ.fin 1) (XQ.fin (1 / 10 ^ 5))).1, s) ∧
      (s = ExitStatus.success ∨ s = ExitStatus.n_iter) :=
  ⟨by decide, by decide,
    match (C6_iteration_cap refEnv (realScalar refEnv) (safe_atan_sqrt_div refEnv) 1001
      (XQ.fin 1) (XQ.fin 1) (XQ.fin 100) (XQ.fin 1) (XQ.fin (1 / 10 ^ 5))
      (by decide) (by decide)).1 with
    | ⟨j, hj, s, hrun, hs, _⟩ =>
      ⟨j, hj, s, hrun, hs.elim (fun a => Or.inl a.1) (fun a => Or.inr a.1)⟩⟩

/-- C10, the claim as stated fails, in both directions.  For `rj(1, 1, 100, 1)` the state
on reaching the loop has `|Am|` at most `fterm` and at most the greatest deviation, and
the loop does not stop there: it runs three passes (the counter ends at 4).  For
`rj(1, 1, 1, 1)` neither comparison holds and the loop stops at once. -/
theorem C10_stopping_counterexample :
    (refEnv.le ((realScalar refEnv).abs sample_skew.1.Am) sample_skew.1.fterm = true ∧
     refEnv.le ((realScalar refEnv).abs sample_skew.1.Am)
        (max4 refEnv ((realScalar refEnv).abs sample_skew.1.xxm)
          ((realScalar refEnv).abs sample_skew.1.yym)
          ((realScalar refEnv).abs sample_skew.1.zzm)
          ((realScalar refEnv).abs
            ((realScalar refEnv).sub sample_skew.1.Am sample_skew.1.pm))) = true ∧
     (rj_loop refEnv (realScalar refEnv) sample_skew.2 1001 sample_skew.1
        ExitStatus.success).map (fun r => (r.1.m, r.2)) = some (4, ExitStatus.success)) ∧
    (refEnv.le ((realScalar refEnv).abs sample_equal.1.Am) sample_equal.1.fterm = false ∧
     refEnv.le ((realScalar refEnv).abs sample_equal.1.Am)
        (max4 refEnv ((realScalar refEnv).abs sample_equal.1.xxm)
          ((realScalar refEnv).abs sample_equal.1.yym)
          ((realScalar refEnv).abs sample_equal.1.zzm)
          ((realScalar refEnv).abs
            ((realScalar refEnv).sub sample_equal.1.Am sample_equal.1.pm))) = false ∧
     rj_loop refEnv (realScalar refEnv) sample_equal.2 1001 sample_equal.1
        ExitStatus.success = some (sample_equal.1, ExitStatus.success)) := by
  decide!

/-- C10, amended. Stopping criterion: the loop goes on while `|Am| <= fterm` or
`|Am| <= max(|xxm|, |yym|, |zzm|, |Am - pm|)`; it stops, leaving state and status as
they are, exactly when neither comparison holds (`|Am|` exceeds both the threshold and
the greatest remaining deviation); when one holds it runs the body, unless the counter
is past `max_iter`, in which case it stops with `n_iter`. -/
theorem C10_stopping (RO : RealOps R) (S : ScalarOps T R) (delta : T) (fuel : Nat)
    (st : DupState T R) (status : ExitStatus) :
    (rj_loop RO S delta (fuel + 1) st status = some (st, status) ∧
        loop_cond RO S st = false ↔
      RO.le (S.abs st.Am) st.fterm = false ∧
      RO.le (S.abs st.Am)
        (max4 RO (S.abs st.xxm) (S.abs st.yym) (S.abs st.zzm)
          (S.abs (S.sub st.Am st.pm))) = false) ∧
    (loop_cond RO S st = true → st.m ≤ RO.max_iter →
      rj_loop RO S delta (fuel + 1) st status =
        rj_loop RO S delta fuel (loop_body RO S delta st) status) ∧
    (loop_cond RO S st = true → st.m > RO.max_iter →
      rj_loop RO S delta (fuel + 1) st status = some (st, ExitStatus.n_iter)) := by
  refine ⟨?_, rj_loop_step RO S delta fuel st status, rj_loop_cap RO S delta fuel st status⟩
  constructor
  · rintro ⟨-, hc⟩
    simpa [loop_cond] using hc
  · intro h
    have hc : loop_cond RO S st = false := by simpa [loop_cond] using h
    exact ⟨rj_loop_stop RO S delta fuel st status hc, hc⟩

/-! ### The principal-value branch -/

/-- The dispatcher when the nested `rj` reports a fatal status: nothing else is
called and `res` is left as it was. -/
lemma cpv_fatal_rj (RO : RealOps R) (recur : R → R → R → R → R → Option (R × ExitStatus))
    (x y z p rerr res v1 : R) (s1 : ExitStatus)
    (hrec : recur x y z (cpv_pn RO x y z p) (cpv_r RO rerr) = some (v1, s1))
    (h1 : RO.is_horrible s1 = true) :
    rj_cpv_dispatch RO recur x y z p rerr res =
      some (s1, res, [cpv_call_rj RO x y z p rerr s1]) := by
  unfold rj_cpv_dispatch
  simp only [hrec, h1, if_true]

/-- The dispatcher when `rf` reports a fatal status: `rc` is not called. -/
lemma cpv_fatal_rf (RO : RealOps R) (recur : R → R → R → R → R → Option (R × ExitStatus))
    (x y z p rerr res v1 : R) (s1 : ExitStatus)
    (hrec : recur x y z (cpv_pn RO x y z p) (cpv_r RO rerr) = some (v1, s1))
    (h1 : RO.is_horrible s1 = false)
    (h2 : RO.is_horrible (RO.rf x y z (cpv_r RO rerr)).2 = true) :
    rj_cpv_dispatch RO recur x y z p rerr res =
      some ((RO.rf x y z (cpv_r RO rerr)).2, res,
        [cpv_call_rj RO x y z p rerr s1, cpv_call_rf RO x y z rerr]) := by
  unfold rj_cpv_dispatch
  simp only [hrec, h1, h2, if_true]
  simp

/-- The dispatcher when `rc` reports a fatal status. -/
lemma cpv_fatal_rc (RO : RealOps R) (recur : R → R → R → R → R → Option (R × ExitStatus))
    (x y z p rerr res v1 : R) (s1 : ExitStatus)
    (hrec : recur x y z (cpv_pn RO x y z p) (cpv_r RO rerr) = some (v1, s1))
    (h1 : RO.is_horrible s1 = false)
    (h2 : RO.is_horrible (RO.rf x y z (cpv_r RO rerr)).2 = false)
    (h3 : RO.is_horrible
      (RO.rc (cpv_xypq RO x y z p) (cpv_pq RO x y z p) (cpv_r RO rerr)).2 = true) :
    rj_cpv_dispatch RO recur x y z p rerr res =
      some ((RO.rc (cpv_xypq RO x y z p) (cpv_pq RO x y z p) (cpv_r RO rerr)).2, res,
        [cpv_call_rj RO x y z p rerr s1, cpv_call_rf RO x y z rerr,
         cpv_call_rc RO x y z p rerr]) := by
  unfold rj_cpv_dispatch
  simp only [hrec, h1, h2, h3, if_true]
  simp

/-- On the principal-value branch `rj` returns what the dispatcher gives, with
not-a-number for the value when the status is fatal. -/
lemma rjCore_cpv (RO : RealOps R) (S : ScalarOps T R) (atanDiv : T → T)
    (recur : R → R → R → R → R → Option (R × ExitStatus)) (lfuel : Nat)
    (x y z p xm ym zm : T) (rerr : R) (c : ArgCases)
    (hv : RO.invalid_rerr rerr (RO.lit (1 / 10 ^ 4)) = false)
    (hs : sort3 (rcmp RO S) x y z = (xm, ym, zm))
    (hga : good_args RO S xm ym zm p ArgCases.zeroed = (false, c))
    (hinf : c.good_infinity = false) (hpv : c.retry_caupv = true) :
    rjCore RO S atanDiv recur lfuel x y z p rerr =
      match rj_cpv_dispatch RO recur (S.re xm) (S.re ym) (S.re zm) (S.re p) rerr
              RO.indet with
      | none => none
      | some (status, tmpres, calls) =>
        some { res := if RO.is_horrible status then S.nan else S.ofReal tmpres,
               status := status, calls := calls, via := ReturnSite.cpv } := by
  unfold rjCore
  rw [if_neg (by rw [hv]; exact Bool.false_ne_true), hs]
  simp only [hga, hinf, hpv]
  simp only [Bool.not_false, if_true, Bool.false_eq_true, if_false]
  cases rj_cpv_dispatch RO recur (S.re xm) (S.re ym) (S.re zm) (S.re p) rerr RO.indet with
  | none => rfl
  | some r =>
    obtain ⟨status, tmpres, calls⟩ := r
    simp only
    split_ifs <;> rfl

/-- C7. Principal-value fatal short-circuit: on the principal-value branch the
sub-calls are made in the order `rj`, `rf`, `rc`.  If the nested `rj` returns a fatal
status, the dispatcher returns it having called nothing else; if `rf` does, `rc` is
not called; in each of the three cases the dispatcher returns the fatal status with
`res` untouched and the enclosing `rj` returns that status with value not-a-number. -/
theorem C7_cpv_fatal (RO : RealOps R) (S : ScalarOps T R) (atanDiv : T → T)
    (recur : R → R → R → R → R → Option (R × ExitStatus)) (lfuel : Nat)
    (x y z p xm ym zm : T) (rerr res v1 : R) (s1 : ExitStatus) (c : ArgCases)
    (hv : RO.invalid_rerr rerr (RO.lit (1 / 10 ^ 4)) = false)
    (hs : sort3 (rcmp RO S) x y z = (xm, ym, zm))
    (hga : good_args RO S xm ym zm p ArgCases.zeroed = (false, c))
    (hinf : c.good_infinity = false) (hpv : c.retry_caupv = true)
    (hrec : recur (S.re xm) (S.re ym) (S.re zm)
              (cpv_pn RO (S.re xm) (S.re ym) (S.re zm) (S.re p)) (cpv_r RO rerr) =
            some (v1, s1)) :
    (RO.is_horrible s1 = true →
      rj_cpv_dispatch RO recur (S.re xm) (S.re ym) (S.re zm) (S.re p) rerr res =
        some (s1, res, [cpv_call_rj RO (S.re xm) (S.re ym) (S.re zm) (S.re p) rerr s1]) ∧
      rjCore RO S atanDiv recur lfuel x y z p rerr =
        some { res := S.nan, status := s1,
               calls := [cpv_call_rj RO (S.re xm) (S.re ym) (S.re zm) (S.re p) rerr s1],
               via := ReturnSite.cpv }) ∧
    (RO.is_horrible s1 = false →
     RO.is_horrible (RO.rf (S.re xm) (S.re ym) (S.re zm) (cpv_r RO rerr)).2 = true →
      rj_cpv_dispatch RO recur (S.re xm) (S.re ym) (S.re zm) (S.re p) rerr res =
        some ((RO.rf (S.re xm) (S.re ym) (S.re zm) (cpv_r RO rerr)).2, res,
          [cpv_call_rj RO (S.re xm) (S.re ym) (S.re zm) (S.re p) rerr s1,
           cpv_call_rf RO (S.re xm) (S.re ym) (S.re zm) rerr]) ∧
      rjCore RO S atanDiv recur lfuel x y z p rerr =
        some { res := S.nan,
               status := (RO.rf (S.re xm) (S.re ym) (S.re zm) (cpv_r RO rerr)).2,
               calls := [cpv_call_rj RO (S.re xm) (S.re ym) (S.re zm) (S.re p) rerr s1,
                         cpv_call_rf RO (S.re xm) (S.re ym) (S.re zm) rerr],
               via := ReturnSite.cpv }) ∧
    (RO.is_horrible s1 = false →
     RO.is_horrible (RO.rf (S.re xm) (S.re ym) (S.re zm) (cpv_r RO rerr)).2 = false →
     RO.is_horrible
        (RO.rc (cpv_xypq RO (S.re xm) (S.re ym) (S.re zm) (S.re p))
          (cpv_pq RO (S.re xm) (S.re ym) (S.re zm) (S.re p)) (cpv_r RO rerr)).2 = true →
      rj_cpv_dispatch RO recur (S.re xm) (S.re ym) (S.re zm) (S.re p) rerr res =
        some ((RO.rc (cpv_xypq RO (S.re xm) (S.re ym) (S.re zm) (S.re p))
                (cpv_pq RO (S.re xm) (S.re ym) (S.re zm) (S.re p)) (cpv_r RO rerr)).2, res,
          [cpv_call_rj RO (S.re xm) (S.re ym) (S.re zm) (S.re p) rerr s1,
           cpv_call_rf RO (S.re xm) (S.re ym) (S.re zm) rerr,
           cpv_call_rc RO (S.re xm) (S.re ym) (S.re zm) (S.re p) rerr]) ∧
      rjCore RO S atanDiv recur lfuel x y z p rerr =
        some { res := S.nan,
               status := (RO.rc (cpv_xypq RO (S.re xm) (S.re ym) (S.re zm) (S.re p))
                 (cpv_pq RO (S.re xm) (S.re ym) (S.re zm) (S.re p)) (cpv_r RO rerr)).2,
               calls := [cpv_call_rj RO (S.re xm) (S.re ym) (S.re zm) (S.re p) rerr s1,
                         cpv_call_rf RO (S.re xm) (S.re ym) (S.re zm) rerr,
                         cpv_call_rc RO (S.re xm) (S.re ym) (S.re zm) (S.re p) rerr],
               via := ReturnSite.cpv }) := by
  have hcore := rjCore_cpv RO S atanDiv recur lfuel x y z p xm ym zm rerr c hv hs hga hinf hpv
  refine ⟨fun h1 => ?_, fun h1 h2 => ?_, fun h1 h2 h3 => ?_⟩
  · refine ⟨cpv_fatal_rj RO recur _ _ _ _ rerr res v1 s1 hrec h1, ?_⟩
    rw [hcore, cpv_fatal_rj RO recur _ _ _ _ rerr RO.indet v1 s1 hrec h1]
    simp only [h1, if_true]
  · refine ⟨cpv_fatal_rf RO recur _ _ _ _ rerr res v1 s1 hrec h1 h2, ?_⟩
    rw [hcore, cpv_fatal_rf RO recur _ _ _ _ rerr RO.indet v1 s1 hrec h1 h2]
    simp only [h2, if_true]
  · refine ⟨cpv_fatal_rc RO recur _ _ _ _ rerr res v1 s1 hrec h1 h2 h3, ?_⟩
    rw [hcore, cpv_fatal_rc RO recur _ _ _ _ rerr RO.indet v1 s1 hrec h1 h2 h3]
    simp only [h3, if_true]

/-- C7 at `rj(1, 1, 1, -1)` with a sibling `rf` that fails: the nested call is
`rj(1, 1, 1, 1)`, which succeeds, then `rf` reports `bad_args`, `rc` is not called, and
`rj` returns not-a-number with `bad_args`. -/
theorem C7_cpv_fatal_witness :
    envFailRf.invalid_rerr (XQ.fin (1 / 10 ^ 5)) (envFailRf.lit (1 / 10 ^ 4)) = false ∧
    envFailRf.is_horrible ExitStatus.success = false ∧
    envFailRf.is_horrible
      (envFailRf.rf (XQ.fin 1) (XQ.fin 1) (XQ.fin 1)
        (cpv_r envFailRf (XQ.fin (1 / 10 ^ 5)))).2 = true ∧
    rj envFailRf 2 (XQ.fin 1) (XQ.fin 1) (XQ.fin 1) (XQ.fin (-1)) (XQ.fin (1 / 10 ^ 5)) =
      some { res := XQ.nan, status := ExitStatus.bad_args,
             calls := [cpv_call_rj envFailRf (XQ.fin 1) (XQ.fin 1) (XQ.fin 1) (XQ.fin (-1))
                         (XQ.fin (1 / 10 ^ 5)) ExitStatus.success,
                       cpv_call_rf envFailRf (XQ.fin 1) (XQ.fin 1) (XQ.fin 1)
                         (XQ.fin (1 / 10 ^ 5))],
             via := ReturnSite.cpv } :=
  ⟨by decide!, by decide!, by decide!,
   ((C7_cpv_fatal envFailRf (realScalar envFailRf) (safe_atan_sqrt_div envFailRf)
      (fun a b c d r => (rj envFailRf 1 a b c d r).map (fun o => (o.res, o.status))) 2
      (XQ.fin 1) (XQ.fin 1) (XQ.fin 1) (XQ.fin (-1)) (XQ.fin 1) (XQ.fin 1) (XQ.fin 1)
      (XQ.fin (1 / 10 ^ 5)) XQ.nan (XQ.fin 1) ExitStatus.success
      { ArgCases.zeroed with retry_caupv := true }
      (by decide!) (by decide!) (by decide!) rfl rfl (by decide!)).2.1
      (by decide!) (by decide!)).2⟩

/-! ### The asymptotic shortcuts -/

/-- When the `switch` leaves a regime tag, `rj` returns what the `switch` computed:
value, status and sub-calls. -/
lemma rjCore_shortcut (RO : RealOps R) (S : ScalarOps T R) (atanDiv : T → T)
    (recur : R → R → R → R → R → Option (R × ExitStatus)) (lfuel : Nat)
    (x y z p xm ym zm : T) (rerr : R) (c : ArgCases)
    (cres : AsymFlag) (st : ExitStatus) (t : R) (cs : List (SubCall R))
    (hv : RO.invalid_rerr rerr (RO.lit (1 / 10 ^ 4)) = false)
    (hs : sort3 (rcmp RO S) x y z = (xm, ym, zm))
    (hga : good_args RO S xm ym zm p ArgCases.zeroed = (true, c))
    (hasym : c.maybe_asymp = true)
    (hsw : rj_asym_switch RO recur
        (rj_asym_conf RO (S.re xm) (S.re ym) (S.re zm) (S.re p) (AsymConfig.fresh R)).1
        (rj_asym_conf RO (S.re xm) (S.re ym) (S.re zm) (S.re p) (AsymConfig.fresh R)).2
        (S.re xm) (S.re ym) (S.re zm) (S.re p) rerr ExitStatus.success RO.indet =
      some (cres, st, t, cs))
    (hne : cres ≠ AsymFlag.nothing) :
    rjCore RO S atanDiv recur lfuel x y z p rerr =
      some { res := S.ofReal t, status := st, calls := cs,
             via := ReturnSite.shortcut cres } := by
  unfold rjCore
  rw [if_neg (by rw [hv]; exact Bool.false_ne_true), hs]
  simp only [hga, hasym, hsw]
  simp [hne]

/-- What the `switch` does with the statuses of the sub-calls, in every environment: no
regime tests a status for being fatal.  Regime `tinyp` always calls `rc` and then the
nested `rj`, regime `hugey` always calls `rc` and then `rg`; either leaves the
closed-form combination of the two sub-results, with the status of the first sub-call
unless that is `success`, and else the status of the second.  Regimes `tinyy` and
`hugez` call `rc` once and either keep its status with the value computed from its
result, or discard the shortcut.  And `rj` returns exactly the value, status and
sub-calls that the `switch` leaves whenever it leaves a regime tag. -/
lemma shortcut_status_merge (RO : RealOps R)
    (recur : R → R → R → R → R → Option (R × ExitStatus))
    (config : AsymConfig R) (xr yr zr pr rerr : R) (status : ExitStatus) (tmpres : R) :
    (∀ (v : R) (s1 : ExitStatus),
      recur (RO.add xr (tinyp_lamt RO xr yr zr)) (RO.add yr (tinyp_lamt RO xr yr zr))
          (RO.add zr (tinyp_lamt RO xr yr zr)) (RO.add pr (tinyp_lamt RO xr yr zr))
          (RO.mul rerr (RO.lit (1 / 2))) = some (v, s1) →
      rj_asym_switch RO recur AsymFlag.tinyp config xr yr zr pr rerr status tmpres =
        some (AsymFlag.tinyp,
          (if (RO.rc (tinyp_alpha RO config xr yr zr pr) (tinyp_beta RO xr yr zr pr)
                (RO.mul rerr (RO.lit (1 / 2)))).2 ≠ ExitStatus.success
           then (RO.rc (tinyp_alpha RO config xr yr zr pr) (tinyp_beta RO xr yr zr pr)
                (RO.mul rerr (RO.lit (1 / 2)))).2
           else s1),
          RO.ndot2 [RO.lit 3, RO.lit 2]
            [(RO.rc (tinyp_alpha RO config xr yr zr pr) (tinyp_beta RO xr yr zr pr)
                (RO.mul rerr (RO.lit (1 / 2)))).1, v],
          [{ fn := Integral.rc,
             args := [tinyp_alpha RO config xr yr zr pr, tinyp_beta RO xr yr zr pr],
             rerr := RO.mul rerr (RO.lit (1 / 2)),
             status := (RO.rc (tinyp_alpha RO config xr yr zr pr)
                (tinyp_beta RO xr yr zr pr) (RO.mul rerr (RO.lit (1 / 2)))).2 },
           { fn := Integral.rj,
             args := [RO.add xr (tinyp_lamt RO xr yr zr), RO.add yr (tinyp_lamt RO xr yr zr),
                      RO.add zr (tinyp_lamt RO xr yr zr), RO.add pr (tinyp_lamt RO xr yr zr)],
             rerr := RO.mul rerr (RO.lit (1 / 2)), status := s1 }])) ∧
    (rj_asym_switch RO recur AsymFlag.hugey config xr yr zr pr rerr status tmpres =
        some (AsymFlag.hugey,
          (if (RO.rc xr pr (RO.div rerr (RO.lit 3))).2 ≠ ExitStatus.success
           then (RO.rc xr pr (RO.div rerr (RO.lit 3))).2
           else (RO.rg (RO.lit 0) yr zr (RO.div rerr (RO.lit 3))).2),
          RO.mul (RO.div (RO.lit 1) (RO.sqrt (RO.mul yr zr)))
            (RO.sub (RO.mul (RO.lit 3) (RO.rc xr pr (RO.div rerr (RO.lit 3))).1)
              (RO.mul (RO.mul (RO.lit 2) (RO.rg (RO.lit 0) yr zr (RO.div rerr (RO.lit 3))).1)
                (RO.div (RO.lit 1) (RO.sqrt (RO.mul yr zr))))),
          [{ fn := Integral.rc, args := [xr, pr], rerr := RO.div rerr (RO.lit 3),
             status := (RO.rc xr pr (RO.div rerr (RO.lit 3))).2 },
           { fn := Integral.rg, args := [RO.lit 0, yr, zr], rerr := RO.div rerr (RO.lit 3),
             status := (RO.rg (RO.lit 0) yr zr (RO.div rerr (RO.lit 3))).2 }])) ∧
    rj_asym_switch RO recur AsymFlag.tinyy config xr yr zr pr rerr status tmpres =
      (if RO.le (RO.mul (RO.lit 2) rerr)
            (RO.sub (tinyy_est_h RO config zr pr rerr) (tinyy_est_l RO config zr pr rerr)) =
          true then
        some (AsymFlag.nothing, ExitStatus.success, tinyy_tmpres RO config zr pr rerr,
          [{ fn := Integral.rc, args := [RO.lit 1, RO.div pr zr], rerr := rerr,
             status := (RO.rc (RO.lit 1) (RO.div pr zr) rerr).2 }])
      else
        some (AsymFlag.tinyy, (RO.rc (RO.lit 1) (RO.div pr zr) rerr).2,
          RO.mul (RO.add (tinyy_tmpres RO config zr pr rerr)
              (tinyy_est_l RO config zr pr rerr))
            (RO.div (RO.lit (3/2)) (RO.mul (RO.sqrt zr) pr)),
          [{ fn := Integral.rc, args := [RO.lit 1, RO.div pr zr], rerr := rerr,
             status := (RO.rc (RO.lit 1) (RO.div pr zr) rerr).2 }])) ∧
    rj_asym_switch RO recur AsymFlag.hugez config xr yr zr pr rerr status tmpres =
      (if RO.le rerr (hugez_est RO config zr pr rerr) = true then
        some (AsymFlag.nothing, ExitStatus.success,
          (RO.rc (hugez_tt RO config pr) (hugez_arg2 RO config pr) rerr).1,
          [{ fn := Integral.rc, args := [hugez_tt RO config pr, hugez_arg2 RO config pr],
             rerr := rerr,
             status := (RO.rc (hugez_tt RO config pr) (hugez_arg2 RO config pr) rerr).2 }])
      else
        some (AsymFlag.hugez,
          (RO.rc (hugez_tt RO config pr) (hugez_arg2 RO config pr) rerr).2,
          RO.mul (RO.rc (hugez_tt RO config pr) (hugez_arg2 RO config pr) rerr).1
            (RO.div (RO.lit 3) (RO.sqrt zr)),
          [{ fn := Integral.rc, args := [hugez_tt RO config pr, hugez_arg2 RO config pr],
             rerr := rerr,
             status :=
               (RO.rc (hugez_tt RO config pr) (hugez_arg2 RO config pr) rerr).2 }])) ∧
    (∀ (S : ScalarOps T R) (atanDiv : T → T) (lfuel : Nat) (x y z p xm ym zm : T)
        (c : ArgCases) (cres : AsymFlag) (st : ExitStatus) (t : R) (cs : List (SubCall R)),
      RO.invalid_rerr rerr (RO.lit (1 / 10 ^ 4)) = false →
      sort3 (rcmp RO S) x y z = (xm, ym, zm) →
      good_args RO S xm ym zm p ArgCases.zeroed = (true, c) →
      c.maybe_asymp = true →
      rj_asym_switch RO recur
          (rj_asym_conf RO (S.re xm) (S.re ym) (S.re zm) (S.re p) (AsymConfig.fresh R)).1
          (rj_asym_conf RO (S.re xm) (S.re ym) (S.re zm) (S.re p) (AsymConfig.fresh R)).2
          (S.re xm) (S.re ym) (S.re zm) (S.re p) rerr ExitStatus.success RO.indet =
        some (cres, st, t, cs) →
      cres ≠ AsymFlag.nothing →
      rjCore RO S atanDiv recur lfuel x y z p rerr =
        some { res := S.ofReal t, status := st, calls := cs,
               via := ReturnSite.shortcut cres }) := by
  refine ⟨?_, ?_, ?_, ?_, ?_⟩
  · intro v s1 hrec
    simp only [rj_asym_switch, hrec]
  · simp only [rj_asym_switch]
  · simp only [rj_asym_switch, tinyy_est_h, tinyy_est_l, tinyy_tx, tinyy_tmpres]
  · simp only [rj_asym_switch, hugez_est]
  · intro S atanDiv lfuel x y z p xm ym zm c cres st t cs hv hs hga hasym hsw hne
    exact rjCore_shortcut RO S atanDiv recur lfuel x y z p xm ym zm rerr c cres st t cs
      hv hs hga hasym hsw hne

/-- The dispatcher returns `success` only if each sub-call it made returned `success`,
when the fatal and the degraded band together are exactly the statuses other than
`success`. -/
lemma cpv_dispatch_success (RO : RealOps R)
    (recur : R → R → R → R → R → Option (R × ExitStatus))
    (hband : ∀ s, (RO.is_horrible s = true ∨ RO.is_troublesome s = true) ↔
      s ≠ ExitStatus.success)
    (x y z p rerr res t : R) (cs : List (SubCall R))
    (h : rj_cpv_dispatch RO recur x y z p rerr res = some (ExitStatus.success, t, cs)) :
    ∀ c ∈ cs, c.status = ExitStatus.success := by
  have hH : RO.is_horrible ExitStatus.success = false := by
    by_contra hc
    exact (hband ExitStatus.success).1 (Or.inl (by simpa using hc)) rfl
  have hT : RO.is_troublesome ExitStatus.success = false := by
    by_contra hc
    exact (hband ExitStatus.success).1 (Or.inr (by simpa using hc)) rfl
  have hN : ∀ s, RO.is_horrible s = false → RO.is_troublesome s = false →
      s = ExitStatus.success := by
    intro s a b
    by_contra hne
    rcases (hband s).2 hne with k | k
    · rw [a] at k; exact Bool.false_ne_true k
    · rw [b] at k; exact Bool.false_ne_true k
  unfold rj_cpv_dispatch at h
  dsimp only at h
  split at h
  · simp at h
  · rename_i v1 s1 hrec
    by_cases h1 : RO.is_horrible s1 = true
    · simp only [h1, if_true, Option.some.injEq, Prod.mk.injEq] at h
      rw [h.1, hH] at h1
      exact absurd h1 Bool.false_ne_true
    · have h1f : RO.is_horrible s1 = false := by simpa using h1
      by_cases h2 : RO.is_horrible (RO.rf x y z (cpv_r RO rerr)).2 = true
      · simp only [h1f, h2, if_true, Bool.false_eq_true, if_false, Option.some.injEq,
          Prod.mk.injEq] at h
        rw [h.1, hH] at h2
        exact absurd h2 Bool.false_ne_true
      · have h2f : RO.is_horrible (RO.rf x y z (cpv_r RO rerr)).2 = false := by
          simpa using h2
        by_cases h3 : RO.is_horrible
            (RO.rc (cpv_xypq RO x y z p) (cpv_pq RO x y z p) (cpv_r RO rerr)).2 = true
        · simp only [h1f, h2f, h3, if_true, Bool.false_eq_true, if_false,
            Option.some.injEq, Prod.mk.injEq] at h
          rw [h.1, hH] at h3
          exact absurd h3 Bool.false_ne_true
        · have h3f : RO.is_horrible
              (RO.rc (cpv_xypq RO x y z p) (cpv_pq RO x y z p) (cpv_r RO rerr)).2 = false := by
            simpa using h3
          simp only [h1f, h2f, h3f, Bool.false_eq_true, if_false, Option.some.injEq,
            Prod.mk.injEq] at h
          obtain ⟨hst, -, hcs⟩ := h
          -- the three statuses, last first
          have e3 : (RO.rc (cpv_xypq RO x y z p) (cpv_pq RO x y z p) (cpv_r RO rerr)).2 =
              ExitStatus.success := by
            by_cases t3 : RO.is_troublesome
                (RO.rc (cpv_xypq RO x y z p) (cpv_pq RO x y z p) (cpv_r RO rerr)).2 = true
            · rw [if_pos t3] at hst
              exact hst
            · exact hN _ h3f (by simpa using t3)
          rw [e3, hT] at hst
          simp only [Bool.false_eq_true, if_false] at hst
          have e2 : (RO.rf x y z (cpv_r RO rerr)).2 = ExitStatus.success := by
            by_cases t2 : RO.is_troublesome (RO.rf x y z (cpv_r RO rerr)).2 = true
            · rw [if_pos t2] at hst
              exact hst
            · exact hN _ h2f (by simpa using t2)
          rw [e2, hT] at hst
          simp only [Bool.false_eq_true, if_false] at hst
          have e1 : s1 = ExitStatus.success := by
            by_cases t1 : RO.is_troublesome s1 = true
            · rw [if_pos t1] at hst
              exact hst
            · exact hN _ h1f (by simpa using t1)
          subst hcs
          intro c hc
          simp only [List.cons_append, List.nil_append, List.mem_cons, List.mem_singleton,
            List.not_mem_nil, or_false] at hc
          rcases hc with rfl | rfl | rfl
          · exact e1
          · exact e2
          · exact e3

/-- A shortcut regime hands back `success` only if each sub-call it made returned
`success`. -/
lemma rj_asym_switch_success (RO : RealOps R)
    (recur : R → R → R → R → R → Option (R × ExitStatus))
    (cres : AsymFlag) (config : AsymConfig R) (xr yr zr pr rerr : R)
    (status : ExitStatus) (tmpres : R) (cres2 : AsymFlag) (t : R) (cs : List (SubCall R))
    (h : rj_asym_switch RO recur cres config xr yr zr pr rerr status tmpres =
      some (cres2, ExitStatus.success, t, cs))
    (hne : cres2 ≠ AsymFlag.nothing) :
    ∀ c ∈ cs, c.status = ExitStatus.success := by
  cases cres with
  | nothing =>
    simp only [rj_asym_switch, Option.some.injEq, Prod.mk.injEq] at h
    exact absurd h.1.symm hne
  | hugep =>
    simp only [rj_asym_switch, Option.some.injEq, Prod.mk.injEq] at h
    obtain ⟨-, e, -, hcs⟩ := h
    subst hcs
    intro c hc
    simp only [List.mem_singleton] at hc
    subst hc
    exact e
  | tinyp =>
    simp only [rj_asym_switch] at h
    split at h
    · simp at h
    · rename_i v s1 hrec
      simp only [Option.some.injEq, Prod.mk.injEq] at h
      obtain ⟨-, e, -, hcs⟩ := h
      subst hcs
      by_cases k : (RO.rc (tinyp_alpha RO config xr yr zr pr) (tinyp_beta RO xr yr zr pr)
          (RO.mul rerr (RO.lit (1 / 2)))).2 = ExitStatus.success
      · rw [if_neg (by simpa using k)] at e
        intro c hc
        simp only [List.mem_cons, List.mem_singleton, List.not_mem_nil, or_false] at hc
        rcases hc with rfl | rfl
        · exact k
        · exact e
      · rw [if_pos (by simpa using k)] at e
        exact absurd e k
  | hugey =>
    simp only [rj_asym_switch, Option.some.injEq, Prod.mk.injEq] at h
    obtain ⟨-, e, -, hcs⟩ := h
    subst hcs
    by_cases k : (RO.rc xr pr (RO.div rerr (RO.lit 3))).2 = ExitStatus.success
    · rw [if_neg (by simpa using k)] at e
      intro c hc
      simp only [List.mem_cons, List.mem_singleton, List.not_mem_nil, or_false] at hc
      rcases hc with rfl | rfl
      · exact k
      · exact e
    · rw [if_pos (by simpa using k)] at e
      exact absurd e k
  | tinyx =>
    simp only [rj_asym_switch] at h
    split at h
    · simp at h
    · rename_i v s1 hrec
      simp only [Option.some.injEq, Prod.mk.injEq] at h
      obtain ⟨-, e, -, hcs⟩ := h
      subst hcs
      intro c hc
      simp only [List.mem_singleton] at hc
      subst hc
      exact e
  | tinyy =>
    simp only [rj_asym_switch] at h
    split at h
    · simp only [Option.some.injEq, Prod.mk.injEq] at h
      exact absurd h.1.symm hne
    · simp only [Option.some.injEq, Prod.mk.injEq] at h
      obtain ⟨-, e, -, hcs⟩ := h
      subst hcs
      intro c hc
      simp only [List.mem_singleton] at hc
      subst hc
      exact e
  | hugez =>
    simp only [rj_asym_switch] at h
    split at h
    · simp only [Option.some.injEq, Prod.mk.injEq] at h
      exact absurd h.1.symm hne
    · simp only [Option.some.injEq, Prod.mk.injEq] at h
      obtain ⟨-, e, -, hcs⟩ := h
      subst hcs
      intro c hc
      simp only [List.mem_singleton] at hc
      subst hc
      exact e

/-- C9. No silent upgrade: when the fatal and the degraded band together are exactly
the statuses other than `success`, a result that `rj` returns through a composite
path (the principal-value branch, or an asymptotic shortcut that is returned and not
discarded) has status `success` only if every sub-call made to `rj`, `rf`, `rc`, `rg`
returned `success`. -/
theorem C9_no_silent_upgrade (RO : RealOps R) (S : ScalarOps T R) (atanDiv : T → T)
    (recur : R → R → R → R → R → Option (R × ExitStatus)) (lfuel : Nat)
    (x y z p : T) (rerr : R) (res : Result T R)
    (hband : ∀ s, (RO.is_horrible s = true ∨ RO.is_troublesome s = true) ↔
      s ≠ ExitStatus.success)
    (h : rjCore RO S atanDiv recur lfuel x y z p rerr = some res)
    (hvia : res.via = ReturnSite.cpv ∨ ∃ g, res.via = ReturnSite.shortcut g)
    (hst : res.status = ExitStatus.success) :
    ∀ c ∈ res.calls, c.status = ExitStatus.success := by
  unfold rjCore at h
  simp only at h
  split_ifs at h with h1 h2 h3 h4 h5 h6
  all_goals first
    | (simp only [Option.some.injEq] at h; subst h; simp at hvia)
    | skip
  · split at h
    · simp at h
    · rename_i status tmpres calls hd
      have hres : res.status = status ∧ res.calls = calls := by
        split_ifs at h <;> (simp only [Option.some.injEq] at h; subst h; exact ⟨rfl, rfl⟩)
      rw [hres.1] at hst
      subst hst
      rw [hres.2]
      exact cpv_dispatch_success RO recur hband _ _ _ _ _ _ _ _ hd
  · split at h
    · simp at h
    · rename_i cres status tmpres calls hsw
      split_ifs at h with h7
      · simp only [Option.some.injEq] at h
        subst h
        simp only at hst
        subst hst
        exact rj_asym_switch_success RO recur _ _ _ _ _ _ _ _ _ _ _ _ hsw h7
      · split at h
        · simp at h
        · simp only [Option.some.injEq] at h
          subst h
          simp at hvia
  · split at h
    · simp at h
    · simp only [Option.some.injEq] at h
      subst h
      simp at hvia

/-- C9 at `rj(1, 1, 1, -1)` in the reference interpretation: the principal-value branch
returns `success`, having made three sub-calls, and each of them returned `success`. -/
theorem C9_no_silent_upgrade_witness :
    (∀ s, (refEnv.is_horrible s = true ∨ refEnv.is_troublesome s = true) ↔
      s ≠ ExitStatus.success) ∧
    (rj refEnv 2 (XQ.fin 1) (XQ.fin 1) (XQ.fin 1) (XQ.fin (-1)) (XQ.fin (1 / 10 ^ 5))).map
        (fun r => (r.via, r.status, r.calls.length)) =
      some (ReturnSite.cpv, ExitStatus.success, 3) ∧
    (∀ res, rj refEnv 2 (XQ.fin 1) (XQ.fin 1) (XQ.fin 1) (XQ.fin (-1))
        (XQ.fin (1 / 10 ^ 5)) = some res →
      ∀ c ∈ res.calls, c.status = ExitStatus.success) := by
  have hband : ∀ s, (refEnv.is_horrible s = true ∨ refEnv.is_troublesome s = true) ↔
      s ≠ ExitStatus.success := by
    intro s
    cases s <;> simp [refEnv, refOps, spec_is_horrible, spec_is_troublesome]
  have hev : (rj refEnv 2 (XQ.fin 1) (XQ.fin 1) (XQ.fin 1) (XQ.fin (-1))
      (XQ.fin (1 / 10 ^ 5))).map (fun r => (r.via, r.status, r.calls.length)) =
      some (ReturnSite.cpv, ExitStatus.success, 3) := by decide!
  refine ⟨hband, hev, ?_⟩
  intro res hres
  rw [hres] at hev
  simp only [Option.map_some', Option.some.injEq, Prod.mk.injEq] at hev
  exact C9_no_silent_upgrade refEnv (realScalar refEnv) (safe_atan_sqrt_div refEnv)
    (fun a b c d r => (rj refEnv 1 a b c d r).map (fun o => (o.res, o.status))) 2
    (XQ.fin 1) (XQ.fin 1) (XQ.fin 1) (XQ.fin (-1)) (XQ.fin (1 / 10 ^ 5)) res hband
    hres (Or.inl hev.1) hev.2.1

/-! ### Equal arguments -/

section Equal
variable {F : Type} [LinearOrderedField F]

/-- Exact `nsum2` of five values. -/
lemma ex_nsum5 {RO : RealOps R} {emb : F → R} (hex : ExactOn RO emb) (a b c d e : F) :
    RO.nsum2 [emb a, emb b, emb c, emb d, emb e] = emb (a + b + c + d + e) := by
  have := hex.nsum2 [a, b, c, d, e]
  simp only [List.map, List.sum_cons, List.sum_nil] at this
  rw [this]; congr 1; ring

/-- Exact `ndot2` of two triples. -/
lemma ex_ndot3 {RO : RealOps R} {emb : F → R} (hex : ExactOn RO emb) (a b c d e f : F) :
    RO.ndot2 [emb a, emb b, emb c] [emb d, emb e, emb f] = emb (a * d + b * e + c * f) := by
  have := hex.ndot2 [a, b, c] [d, e, f]
  simp only [List.map, List.zipWith, List.sum_cons, List.sum_nil] at this
  rw [this]; congr 1; ring

/-- Block `ELLINT_RJ_CALC` at four equal arguments `s * s`: `lam = 3 s^2`, `dm = 8 s^3`. -/
lemma eq_calc {RO : RealOps R} {emb : F → R} (hex : ExactOn RO emb) (hset : ExactSetup RO emb)
    (s : F) (hs : 0 < s) :
    rj_calc (realScalar RO) (emb (s * s)) (emb (s * s)) (emb (s * s)) (emb (s * s)) =
      (emb (3 * (s * s)), emb (8 * (s * s * s))) := by
  unfold rj_calc
  simp only [realScalar, hset.sqrt s hs.le, ex_ndot3 hex, hex.add, hex.mul]
  congr 1 <;> (congr 1; ring)


/-- The floating literals of the source as field elements. -/
lemma ex_lit {RO : RealOps R} {emb : F → R} (hex : ExactOn RO emb) :
    RO.lit 0 = emb 0 ∧ RO.lit 1 = emb 1 ∧ RO.lit 2 = emb 2 ∧ RO.lit 3 = emb 3 ∧
    RO.lit 5 = emb 5 ∧ RO.lit (1 / 2) = emb (1 / 2) ∧ RO.lit (1 / 4) = emb (1 / 4) ∧
    RO.lit (-1 / 2) = emb (-1 / 2) ∧ RO.lit (-3) = emb (-3) ∧
    RO.lit (1 / 10 ^ 26) = emb (1 / 10 ^ 26) ∧ RO.lit (1 / 10 ^ 4) = emb (1 / 10 ^ 4) := by
  refine ⟨?_, ?_, ?_, ?_, ?_, ?_, ?_, ?_, ?_, ?_, ?_⟩ <;> rw [hex.lit] <;> congr 1 <;> push_cast <;> ring

/-- The state of `rj(a, a, a, a)` on reaching the loop, and `delta = 0`. -/
lemma eq_init {RO : RealOps R} {emb : F → R} (hex : ExactOn RO emb) (hset : ExactSetup RO emb)
    (s r : F) (hs : 0 < s) (hr : 0 < r) :
    rj_init RO (realScalar RO) (emb (s * s)) (emb (s * s)) (emb (s * s)) (emb (s * s)) (emb r) =
      (eqState emb s, emb 0) := by
  obtain ⟨w, hw0, hw⟩ := hset.ocrt (r / 5) (by positivity)
  obtain ⟨l0, l1, l2, l3, l5, lh, lq, -, -, -, -⟩ := ex_lit hex
  have h5 : (5 : F) ≠ 0 := by norm_num
  have hA : (s * s + s * s + s * s + s * s + s * s) / 5 = s * s := by
    field_simp; ring
  unfold rj_init rj_updt
  simp only [eq_calc hex hset s hs]
  simp only [realScalar, l0, l1, l2, l3, l5, lh, lq, ex_nsum5 hex, hex.sub, hex.mul, hex.add,
    hex.div _ _ h5, hex.abs, max4, List.foldl, hex.lt, hw, hex.div _ _ hw0, hA, sub_self,
    abs_zero, lt_self_iff_false, decide_False, Bool.false_eq_true, if_false, zero_mul,
    zero_div]
  unfold eqState
  have hB : (s * s + 3 * (s * s)) * (1 / 4) = s * s := by ring
  have hC : 8 * (s * s * s) * (1 / 2) = 4 * (s * s * s) := by ring
  simp only [hB, hC, one_mul]

/-- At equal arguments the controlling expression of the loop is false at once: the mean
is positive, the threshold and the deviations are zero. -/
lemma eq_cond {RO : RealOps R} {emb : F → R} (hex : ExactOn RO emb) (s : F) (hs : 0 < s) :
    loop_cond RO (realScalar RO) (eqState emb s) = false := by
  have hp : ¬ (|s * s| ≤ 0) := by
    rw [abs_of_pos (mul_pos hs hs)]
    exact not_le.2 (mul_pos hs hs)
  unfold loop_cond eqState max4
  simp only [realScalar, hex.abs, hex.le, hex.sub, hex.lt, List.foldl, sub_self, abs_zero,
    lt_self_iff_false, decide_False, Bool.false_eq_true, if_false, hp, Bool.or_self]

/-- Exact `nsum2` of three values. -/
lemma ex_nsum3 {RO : RealOps R} {emb : F → R} (hex : ExactOn RO emb) (a b c : F) :
    RO.nsum2 [emb a, emb b, emb c] = emb (a + b + c) := by
  have := hex.nsum2 [a, b, c]
  simp only [List.map, List.sum_cons, List.sum_nil] at this
  rw [this]; congr 1; ring

/-- Exact `ndot2` of two quadruples. -/
lemma ex_ndot4 {RO : RealOps R} {emb : F → R} (hex : ExactOn RO emb)
    (a b c d e f g h : F) :
    RO.ndot2 [emb a, emb b, emb c, emb d] [emb e, emb f, emb g, emb h] =
      emb (a * e + b * f + c * g + d * h) := by
  have := hex.ndot2 [a, b, c, d] [e, f, g, h]
  simp only [List.map, List.zipWith, List.sum_cons, List.sum_nil] at this
  rw [this]; congr 1; ring

/-- Exact `ndot2` of two pairs. -/
lemma ex_ndot2 {RO : RealOps R} {emb : F → R} (hex : ExactOn RO emb) (a b e f : F) :
    RO.ndot2 [emb a, emb b] [emb e, emb f] = emb (a * e + b * f) := by
  have := hex.ndot2 [a, b] [e, f]
  simp only [List.map, List.zipWith, List.sum_cons, List.sum_nil] at this
  rw [this]; congr 1; ring

/-- Exact `dot2` of two triples. -/
lemma ex_dot3 {RO : RealOps R} {emb : F → R} (hex : ExactOn RO emb) (a b c d e f : F) :
    RO.dot2 [emb a, emb b, emb c] [emb d, emb e, emb f] = emb (a * d + b * e + c * f) := by
  have := hex.dot2 [a, b, c] [d, e, f]
  simp only [List.map, List.zipWith, List.sum_cons, List.sum_nil] at this
  rw [this]; congr 1; ring

/-- Exact `dot2` of two sextuples. -/
lemma ex_dot6 {RO : RealOps R} {emb : F → R} (hex : ExactOn RO emb)
    (a1 a2 a3 a4 a5 a6 b1 b2 b3 b4 b5 b6 : F) :
    RO.dot2 [emb a1, emb a2, emb a3, emb a4, emb a5, emb a6]
        [emb b1, emb b2, emb b3, emb b4, emb b5, emb b6] =
      emb (a1 * b1 + a2 * b2 + a3 * b3 + a4 * b4 + a5 * b5 + a6 * b6) := by
  have := hex.dot2 [a1, a2, a3, a4, a5, a6] [b1, b2, b3, b4, b5, b6]
  simp only [List.map, List.zipWith, List.sum_cons, List.sum_nil] at this
  rw [this]; congr 1; ring

/-- The guarded arctangent at zero is exactly 1. -/
lemma eq_safe {RO : RealOps R} {emb : F → R} (hex : ExactOn RO emb) :
    safe_atan_sqrt_div RO (emb 0) = emb 1 := by
  unfold safe_atan_sqrt_div
  rw [if_pos hex.too_small_zero]
  exact (ex_lit hex).2.1

/-- The final assembly at equal arguments gives `1 / s^3`: the series contributes its
leading 1, the arctangent term `3 / (4 s^3)`. -/
lemma eq_finish {RO : RealOps R} {emb : F → R} (hex : ExactOn RO emb) (hset : ExactSetup RO emb)
    (s : F) (hs : 0 < s) :
    rj_finish RO (realScalar RO) (safe_atan_sqrt_div RO) (emb 0) (eqState emb s) =
      emb (1 / (s * s * s)) := by
  obtain ⟨l0, l1, l2, l3, l5, lh, lq, lmh, lm3, -, -⟩ := ex_lit hex
  obtain ⟨d, hd, hd0⟩ := hset.denom
  obtain ⟨c1, c2, c3, c4, c5, k, e1, e2, e3, e4, e5, ek, h12⟩ := hset.series
  have h5 : (5 : F) ≠ 0 := by norm_num
  have hs0 : s ≠ 0 := hs.ne'
  have hss : s * s ≠ 0 := mul_ne_zero hs0 hs0
  have hsss : s * s * s ≠ 0 := mul_ne_zero hss hs0
  have h4 : 4 * (s * s * s) * (4 * (s * s * s)) ≠ 0 := by positivity
  have h4b : 4 * (s * s * s) ≠ 0 := by positivity
  have hA : (s * s + s * s + s * s + s * s + s * s) / 5 = s * s := by
    field_simp; ring
  unfold rj_finish eqState
  simp only [realScalar, l0, l1, l2, l3, l5, lh, lq, lmh, lm3, ex_nsum5 hex, ex_nsum3 hex,
    ex_ndot4 hex, hex.sub, hex.mul, hex.add, hex.div _ _ h5, hA, hex.div _ _ hss,
    zero_div, zero_mul, mul_zero, add_zero, zero_add, hset.sqrt s hs.le, hex.div _ _ hsss,
    e1, e2, e3, e4, e5, ek, ex_dot6 hex, hd, hex.div _ _ hd0, hex.div _ _ h4, eq_safe hex,
    hex.div _ _ h4b]
  congr 1
  have h0 : c1 * 1 + c2 * 1 = 0 := by linarith
  rw [h0]
  field_simp
  ring

/-- The general path at equal arguments returns `1 / s^3` with `success`. -/
lemma eq_general {RO : RealOps R} {emb : F → R} (hex : ExactOn RO emb) (hset : ExactSetup RO emb)
    (s r : F) (hs : 0 < s) (hr : 0 < r) (fuel : Nat) :
    rj_general RO (realScalar RO) (safe_atan_sqrt_div RO) (fuel + 1)
        (emb (s * s)) (emb (s * s)) (emb (s * s)) (emb (s * s)) (emb r) ExitStatus.success =
      some (emb (1 / (s * s * s)), ExitStatus.success) := by
  unfold rj_general
  simp only [eq_init hex hset s r hs hr,
    rj_loop_stop RO (realScalar RO) (emb 0) fuel (eqState emb s) ExitStatus.success
      (eq_cond hex s hs), eq_finish hex hset s hs]

/-- Sorting three equal entries. -/
lemma sort3_same (cmp : R → R → Bool) (a : R) : sort3 cmp a a a = (a, a, a) := by
  rw [sort3_eq]
  split_ifs <;> rfl

/-- Equal positive arguments are accepted as eligible for a shortcut. -/
lemma eq_good_args {RO : RealOps R} {emb : F → R} (hex : ExactOn RO emb) (a : F) (ha : 0 < a) :
    good_args RO (realScalar RO) (emb a) (emb a) (emb a) (emb a) ArgCases.zeroed =
      (true, { maybe_asymp := true, retry_caupv := false, good_infinity := false,
               hit_pole := false }) := by
  obtain ⟨l0, -⟩ := ex_lit hex
  have h1 : ¬ (a < 0) := not_lt.2 ha.le
  unfold good_args
  cases hts : RO.too_small (emb a) <;>
    simp [realScalar, ArgCases.zeroed, l0, hex.isinf, hex.too_small_zero, hex.le, hex.lt, hts,
      ha, ha.le, h1]

/-- The ratio 1 is not asymptotically small. -/
lemma eq_asymp_zero_one {RO : RealOps R} {emb : F → R} (hex : ExactOn RO emb)
    (hset : ExactSetup RO emb) : asymp_zero RO (emb 1) = false := by
  obtain ⟨zu, hzu, hz1⟩ := hset.zero_ul
  obtain ⟨l0, -⟩ := ex_lit hex
  unfold asymp_zero
  simp only [l0, hzu, hex.lt, hex.le, not_le.2 hz1, decide_False, Bool.and_false]

/-- Equal arguments above `asym_close_ul` select no regime. -/
lemma eq_conf_nothing {RO : RealOps R} {emb : F → R} (hex : ExactOn RO emb)
    (hset : ExactSetup RO emb) (a cu : F) (ha : 0 < a) (hcu : RO.asym_close_ul = emb cu)
    (hcu26 : 1 / 10 ^ 26 ≤ cu) (hlt : cu < a) :
    rj_asym_conf RO (emb a) (emb a) (emb a) (emb a) (AsymConfig.fresh R) =
      (AsymFlag.nothing, AsymConfig.fresh R) := by
  obtain ⟨l0, l1, l2, l3, l5, lh, lq, lmh, lm3, l26, -⟩ := ex_lit hex
  have ha0 : a ≠ 0 := ha.ne'
  have h26 : ¬ (a ≤ 1 / 10 ^ 26) := not_le.2 (lt_of_le_of_lt hcu26 hlt)
  unfold rj_asym_conf abs_close_zero
  simp only [l0, l26, hcu, hex.lt, hex.le, hex.eq, hex.fmin, hex.fmax, min_self, max_self,
    hex.div _ _ ha0, div_self ha0, eq_asymp_zero_one hex hset, not_le.2 hlt, h26,
    decide_False, Bool.and_false, Bool.or_false, Bool.false_eq_true, if_false]

/-- Equal arguments at most `asym_close_ul` select regime `tinyp`, with `f = s^3`. -/
lemma eq_conf_tinyp {RO : RealOps R} {emb : F → R} (hex : ExactOn RO emb)
    (hset : ExactSetup RO emb) (s cu : F) (hs : 0 < s) (hcu : RO.asym_close_ul = emb cu)
    (hle : s * s ≤ cu) :
    rj_asym_conf RO (emb (s * s)) (emb (s * s)) (emb (s * s)) (emb (s * s))
        (AsymConfig.fresh R) =
      (AsymFlag.tinyp, { AsymConfig.fresh R with f := some (emb (s * s * s)) }) := by
  obtain ⟨l0, -⟩ := ex_lit hex
  have hpos : 0 < s * s := mul_pos hs hs
  have hsq : s * s * (s * s) * (s * s) = s * s * s * (s * s * s) := by ring
  unfold rj_asym_conf abs_close_zero
  simp only [l0, hcu, hex.lt, hex.le, hpos, hle, decide_True, Bool.and_self, Bool.true_or,
    if_true, hex.mul, hsq, hset.sqrt (s * s * s) (by positivity)]

/-- A tolerance in `(0, 1e-4]` passes the check of `rj`. -/
lemma eq_invalid {RO : RealOps R} {emb : F → R} (hex : ExactOn RO emb) (r : F) (hr : 0 < r)
    (hr4 : r ≤ 1 / 10 ^ 4) : RO.invalid_rerr (emb r) (RO.lit (1 / 10 ^ 4)) = false := by
  obtain ⟨-, -, -, -, -, -, -, -, -, -, l4⟩ := ex_lit hex
  rw [l4, hex.invalid_rerr]
  have h : ¬ (r ≤ 0 ∨ 1 / 10 ^ 4 < r) := by
    rintro (h | h)
    · exact absurd hr (not_lt.2 h)
    · exact absurd hr4 (not_le.2 h)
  exact decide_eq_false h

/-- The body of `rj` at equal arguments above `asym_close_ul`. -/
lemma eq_core_general {RO : RealOps R} {emb : F → R} (hex : ExactOn RO emb)
    (hset : ExactSetup RO emb) (s r cu : F) (hs : 0 < s) (hr : 0 < r) (hr4 : r ≤ 1 / 10 ^ 4)
    (hcu : RO.asym_close_ul = emb cu) (hcu26 : 1 / 10 ^ 26 ≤ cu) (hlt : cu < s * s)
    (recur : R → R → R → R → R → Option (R × ExitStatus)) (fuel : Nat) :
    rjCore RO (realScalar RO) (safe_atan_sqrt_div RO) recur (fuel + 1)
        (emb (s * s)) (emb (s * s)) (emb (s * s)) (emb (s * s)) (emb r) =
      some { res := emb (1 / (s * s * s)), status := ExitStatus.success, calls := [],
             via := ReturnSite.general } := by
  have hre : ∀ x : R, (realScalar RO).re x = x := fun _ => rfl
  unfold rjCore
  rw [if_neg (by rw [eq_invalid hex r hr hr4]; exact Bool.false_ne_true), sort3_same]
  simp only [eq_good_args hex (s * s) (mul_pos hs hs), hre,
    eq_conf_nothing hex hset (s * s) cu (mul_pos hs hs) hcu hcu26 hlt, rj_asym_switch,
    eq_general hex hset s r hs hr fuel]
  simp

/-- Regime `tinyp` at equal arguments: `rc` is called on the diagonal at `16 a^3`, the
nested `rj` at `4 a`, and `3 rc + 2 rj = 1 / s^3`. -/
lemma eq_switch_tinyp {RO : RealOps R} {emb : F → R} (hex : ExactOn RO emb)
    (hset : ExactSetup RO emb) (s r : F) (hs : 0 < s) (hr : 0 < r) (hr4 : r ≤ 1 / 10 ^ 4)
    (recur : R → R → R → R → R → Option (R × ExitStatus))
    (hrec : recur (emb (2 * s * (2 * s))) (emb (2 * s * (2 * s))) (emb (2 * s * (2 * s)))
        (emb (2 * s * (2 * s))) (emb (r * (1 / 2))) =
      some (emb (1 / (2 * s * (2 * s) * (2 * s))), ExitStatus.success))
    (status : ExitStatus) (tmpres : R) :
    ∃ cs, rj_asym_switch RO recur AsymFlag.tinyp
        { AsymConfig.fresh R with f := some (emb (s * s * s)) }
        (emb (s * s)) (emb (s * s)) (emb (s * s)) (emb (s * s)) (emb r) status tmpres =
      some (AsymFlag.tinyp, ExitStatus.success, emb (1 / (s * s * s)), cs) := by
  obtain ⟨l0, l1, l2, l3, l5, lh, lq, lmh, lm3, l26, -⟩ := ex_lit hex
  have hs0 : s ≠ 0 := hs.ne'
  have hlam : tinyp_lamt RO (emb (s * s)) (emb (s * s)) (emb (s * s)) =
      emb (s * s + s * s + s * s) := by
    unfold tinyp_lamt
    simp only [hset.sqrt s hs.le, ex_dot3 hex]
  have hx : s * s + (s * s + s * s + s * s) = 2 * s * (2 * s) := by ring
  have halpha : tinyp_alpha RO { AsymConfig.fresh R with f := some (emb (s * s * s)) }
      (emb (s * s)) (emb (s * s)) (emb (s * s)) (emb (s * s)) =
      emb (4 * (s * s * s) * (4 * (s * s * s))) := by
    unfold tinyp_alpha AsymConfig.rd
    simp only [hset.sqrt s hs.le, ex_dot3 hex, Option.getD_some, hex.add, hex.mul]
    congr 1; ring
  have hbeta : tinyp_beta RO (emb (s * s)) (emb (s * s)) (emb (s * s)) (emb (s * s)) =
      emb (4 * (s * s * s) * (4 * (s * s * s))) := by
    unfold tinyp_beta
    simp only [hlam, hex.add, hex.mul]
    congr 1; ring
  have hr2 : 0 < r * (1 / 2) := by positivity
  have hr24 : r * (1 / 2) ≤ 1 / 10 ^ 4 := by linarith
  have hrc := hset.rc (4 * (s * s * s)) (r * (1 / 2)) (by positivity) hr2 hr24
  have hval : (emb (1 / (s * s * s)) : R) =
      emb (3 * (1 / (4 * (s * s * s))) + 2 * (1 / (2 * s * (2 * s) * (2 * s)))) := by
    congr 1
    field_simp
    ring
  rw [hval]
  simp only [rj_asym_switch, hlam, halpha, hbeta, lh, hex.mul, hex.add, hx, hrec, hrc, l3, l2,
    ex_ndot2 hex, ne_eq, not_true_eq_false, if_false]
  exact ⟨_, rfl⟩

/-- The body of `rj` at equal arguments at most `asym_close_ul`, given the nested call. -/
lemma eq_core_tinyp {RO : RealOps R} {emb : F → R} (hex : ExactOn RO emb)
    (hset : ExactSetup RO emb) (s r cu : F) (hs : 0 < s) (hr : 0 < r) (hr4 : r ≤ 1 / 10 ^ 4)
    (hcu : RO.asym_close_ul = emb cu) (hle : s * s ≤ cu)
    (recur : R → R → R → R → R → Option (R × ExitStatus)) (lfuel : Nat)
    (hrec : recur (emb (2 * s * (2 * s))) (emb (2 * s * (2 * s))) (emb (2 * s * (2 * s)))
        (emb (2 * s * (2 * s))) (emb (r * (1 / 2))) =
      some (emb (1 / (2 * s * (2 * s) * (2 * s))), ExitStatus.success)) :
    ∃ cs, rjCore RO (realScalar RO) (safe_atan_sqrt_div RO) recur lfuel
        (emb (s * s)) (emb (s * s)) (emb (s * s)) (emb (s * s)) (emb r) =
      some { res := emb (1 / (s * s * s)), status := ExitStatus.success, calls := cs,
             via := ReturnSite.shortcut AsymFlag.tinyp } := by
  obtain ⟨cs, hsw⟩ := eq_switch_tinyp hex hset s r hs hr hr4 recur hrec ExitStatus.success
    RO.indet
  refine ⟨cs, ?_⟩
  have hre : ∀ x : R, (realScalar RO).re x = x := fun _ => rfl
  have h := rjCore_shortcut RO (realScalar RO) (safe_atan_sqrt_div RO) recur lfuel
    (emb (s * s)) (emb (s * s)) (emb (s * s)) (emb (s * s))
    (emb (s * s)) (emb (s * s)) (emb (s * s)) (emb r) _ AsymFlag.tinyp ExitStatus.success
    (emb (1 / (s * s * s))) cs (eq_invalid hex r hr hr4) (sort3_same _ _)
    (eq_good_args hex (s * s) (mul_pos hs hs)) rfl
    (by simp only [hre, eq_conf_tinyp hex hset s cu hs hcu hle]; exact hsw)
    (by decide)
  exact h

/-- Induction on the number of `tinyp` steps needed to lift `a` above `asym_close_ul`. -/
lemma eq_levels {RO : RealOps R} {emb : F → R} (hex : ExactOn RO emb)
    (hset : ExactSetup RO emb) (cu : F) (hcu : RO.asym_close_ul = emb cu)
    (hcu26 : 1 / 10 ^ 26 ≤ cu) :
    ∀ (n : Nat) (s r : F), 0 < s → 0 < r → r ≤ 1 / 10 ^ 4 → cu < 4 ^ n * (s * s) →
      ∀ fuel, n + 1 ≤ fuel →
      ∃ res, rj RO fuel (emb (s * s)) (emb (s * s)) (emb (s * s)) (emb (s * s)) (emb r) =
          some res ∧
        res.res = emb (1 / (s * s * s)) ∧ res.status = ExitStatus.success := by
  intro n
  induction n with
  | zero =>
    intro s r hs hr hr4 hlt fuel hf
    obtain ⟨f, rfl⟩ : ∃ f, fuel = f + 1 := ⟨fuel - 1, by omega⟩
    rw [pow_zero, one_mul] at hlt
    rw [rj_succ, eq_core_general hex hset s r cu hs hr hr4 hcu hcu26 hlt]
    exact ⟨_, rfl, rfl, rfl⟩
  | succ n ih =>
    intro s r hs hr hr4 hlt fuel hf
    obtain ⟨f, rfl⟩ : ∃ f, fuel = f + 1 := ⟨fuel - 1, by omega⟩
    by_cases hle : s * s ≤ cu
    · have h2 : cu < 4 ^ n * (2 * s * (2 * s)) := by
        have e : (4 : F) ^ n * (2 * s * (2 * s)) = 4 ^ (n + 1) * (s * s) := by
          rw [pow_succ]; ring
        rw [e]; exact hlt
      obtain ⟨res2, hres2, hv2, hst2⟩ :=
        ih (2 * s) (r * (1 / 2)) (by positivity) (by positivity) (by linarith) h2 f (by omega)
      obtain ⟨cs, hcore⟩ := eq_core_tinyp hex hset s r cu hs hr hr4 hcu hle
        (fun a b c d r => (rj RO f a b c d r).map (fun o => (o.res, o.status))) (f + 1)
        (by simp only [hres2, Option.map_some', hv2, hst2])
      rw [rj_succ, hcore]
      exact ⟨_, rfl, rfl, rfl⟩
    · rw [rj_succ, eq_core_general hex hset s r cu hs hr hr4 hcu hcu26 (not_le.1 hle)]
      exact ⟨_, rfl, rfl, rfl⟩

end Equal
/-! ### The reference interpretation is exact on the rationals -/

/-- Newton's iteration, started at or above `m`, finds the root `m` of `m * m`. -/
lemma isqrtAux_sq (m : ℕ) (hm : 0 < m) :
    ∀ (f x : ℕ), m ≤ x → x - m ≤ f → XQ.isqrtAux f (m * m) x = m := by
  intro f
  induction f with
  | zero =>
    intro x hx hf
    have : x = m := by omega
    simp [XQ.isqrtAux, this]
  | succ f ih =>
    intro x hx hf
    unfold XQ.isqrtAux
    by_cases hxm : x = m
    · subst hxm
      have h1 : x * x / x = x := Nat.mul_div_cancel _ hm
      have h2 : ¬ ((x + x) / 2 < x) := by omega
      simp only [h1, h2, if_false]
    · have hlt : m < x := lt_of_le_of_ne hx (Ne.symm hxm)
      have hx0 : 0 < x := lt_trans hm hlt
      have hq : m * m / x < x := by
        rw [Nat.div_lt_iff_lt_mul hx0]
        exact Nat.mul_lt_mul'' hlt hlt
      have hge : 2 * m - x ≤ m * m / x := by
        rw [Nat.le_div_iff_mul_le hx0]
        by_cases h2 : 2 * m ≤ x
        · have : 2 * m - x = 0 := by omega
          simp [this]
        · obtain ⟨e, rfl⟩ : ∃ e, x = m + e := ⟨x - m, by omega⟩
          obtain ⟨g, rfl⟩ : ∃ g, m = e + g := ⟨m - e, by omega⟩
          have : 2 * (e + g) - (e + g + e) = g := by omega
          rw [this]
          nlinarith
      have hy1 : (x + m * m / x) / 2 < x := by omega
      have hy2 : m ≤ (x + m * m / x) / 2 := by omega
      simp only [hy1, if_true]
      exact ih _ hy2 (by omega)

/-- The integer square root is exact on squares. -/
lemma isqrt_sq (m : ℕ) : XQ.isqrt (m * m) = m := by
  rcases Nat.eq_zero_or_pos m with rfl | hm
  · simp [XQ.isqrt, XQ.isqrtAux]
  · unfold XQ.isqrt
    exact isqrtAux_sq m hm _ _ (Nat.le_mul_self m) (Nat.sub_le _ _)

/-- The rational square root is exact on squares. -/
lemma qsqrt_sq (t : ℚ) (ht : 0 ≤ t) : XQ.qsqrt (t * t) = t := by
  have hn : 0 ≤ t.num := Rat.num_nonneg.2 ht
  obtain ⟨k, hk⟩ : ∃ k : ℕ, t.num = k := ⟨t.num.toNat, (Int.toNat_of_nonneg hn).symm⟩
  have h1 : (t * t).num.toNat = k * k := by
    rw [Rat.mul_self_num, hk]
    norm_cast
  have h2 : (t * t).den = t.den * t.den := Rat.mul_self_den t
  unfold XQ.qsqrt
  simp only [h1, h2, isqrt_sq, and_self, if_true]
  have h3 := Rat.num_div_den t
  rw [hk, Int.cast_natCast] at h3
  exact h3

/-- The sixth-root iteration stays positive. -/
lemma iroot6Aux_pos (n : ℕ) (hn : 1 ≤ n) :
    ∀ (f x : ℕ), 1 ≤ x → 1 ≤ iroot6Aux f n x := by
  intro f
  induction f with
  | zero => intro x hx; simpa [iroot6Aux] using hx
  | succ f ih =>
    intro x hx
    unfold iroot6Aux
    simp only
    split_ifs with h
    · apply ih
      rcases Nat.lt_or_ge x 2 with h2 | h2
      · have hx1 : x = 1 := by omega
        subst hx1
        simp at h
        omega
      · have : 5 * x ≤ 5 * x + n / x ^ 5 := Nat.le_add_right _ _
        omega
    · exact hx


/-- Summing finite values stays finite and exact. -/
lemma xq_sum_fin (l : List ℚ) : ∀ acc : ℚ,
    List.foldl XQ.add (XQ.fin acc) (l.map XQ.fin) = XQ.fin (acc + l.sum) := by
  induction l with
  | nil => intro acc; simp
  | cons a l ih =>
    intro acc
    simp only [List.map_cons, List.foldl_cons, List.sum_cons, XQ.add, ih]
    congr 1
    ring

/-- The dot product of finite values is finite and exact. -/
lemma xq_dot_fin (l l2 : List ℚ) :
    XQ.dot (l.map XQ.fin) (l2.map XQ.fin) =
      XQ.fin (List.zipWith (fun a b => a * b) l l2).sum := by
  have hz : ∀ (l l2 : List ℚ), List.zipWith XQ.mul (l.map XQ.fin) (l2.map XQ.fin) =
      (List.zipWith (fun a b => a * b) l l2).map XQ.fin := by
    intro l
    induction l with
    | nil => intro l2; simp
    | cons a l ih =>
      intro l2
      cases l2 with
      | nil => simp
      | cons b l2 => simp [XQ.mul, ih]
  unfold XQ.dot XQ.sum
  rw [hz, xq_sum_fin]
  simp

/-- The reference interpretation is exact on the rationals. -/
lemma refEnv_exact : ExactOn refEnv XQ.fin where
  lit := by intro q; simp [refEnv, refOps]
  add := by intro a b; rfl
  sub := by intro a b; simp [refEnv, refOps, XQ.sub, XQ.neg, XQ.add, sub_eq_add_neg]
  mul := by intro a b; rfl
  div := by intro a b hb; simp [refEnv, refOps, XQ.div, hb]
  lt := by intro a b; rfl
  le := by
    intro a b
    simp only [refEnv, refOps, XQ.le, XQ.lt, XQ.beq]
    by_cases h : a < b
    · simp [h, h.le]
    · by_cases h2 : a = b
      · simp [h2]
      · have : ¬ a ≤ b := fun hle => h (lt_of_le_of_ne hle h2)
        simp [h, h2, this]
  eq := by intro a b; rfl
  abs := by intro a; rfl
  fmin := by
    intro a b
    simp only [refEnv, refOps, XQ.fmin, XQ.lt]
    by_cases h : b < a
    · simp [h, min_eq_right h.le]
    · simp [h, min_eq_left (not_lt.1 h)]
  fmax := by
    intro a b
    simp only [refEnv, refOps, XQ.fmax, XQ.lt]
    by_cases h : a < b
    · simp [h, max_eq_right h.le]
    · simp [h, max_eq_left (not_lt.1 h)]
  nsum2 := by
    intro l
    simp only [refEnv, refOps, XQ.sum]
    rw [xq_sum_fin]
    simp
  ndot2 := by intro l l2; exact xq_dot_fin l l2
  dot2 := by intro l l2; exact xq_dot_fin l l2
  isinf := by intro a; rfl
  too_small_zero := by
    simp only [refEnv, refOps, spec_too_small]
    norm_num
  invalid_rerr := by
    intro r ul
    simp only [refEnv, refOps, spec_invalid_rerr, XQ.lt]
    by_cases h : 0 < r <;> by_cases h2 : ul < r <;> simp [h, h2, not_le.2, not_lt.1]

/-- Quotient of finite values by a non-zero one. -/
lemma xq_div (a b : ℚ) (hb : b ≠ 0) : XQ.div (XQ.fin a) (XQ.fin b) = XQ.fin (a / b) := by
  simp [XQ.div, hb]

/-- Square root of the square of a non-negative rational. -/
lemma xq_sqrt_sq (t : ℚ) (ht : 0 ≤ t) : XQ.sqrt (XQ.fin (t * t)) = XQ.fin t := by
  have h : ¬ (t * t < 0) := not_lt.2 (mul_nonneg ht ht)
  simp only [XQ.sqrt, h, if_false, qsqrt_sq t ht]

/-- The reference interpretation meets the further requirements of the closed form. -/
lemma refEnv_setup : ExactSetup refEnv XQ.fin where
  sqrt := by
    intro t ht
    exact xq_sqrt_sq t ht
  rc := by
    intro t r ht hr hr4
    have h1 : spec_invalid_rerr (XQ.fin r) (XQ.fin (3 / 10 ^ 4)) = false := by
      have h3 : ¬ (3 / 10 ^ 4 < r) := by
        apply not_lt.2
        have : (1 : ℚ) / 10 ^ 4 ≤ 3 / 10 ^ 4 := by norm_num
        linarith
      simp [spec_invalid_rerr, XQ.lt, hr, h3]
    have htt : 0 < t * t := mul_pos ht ht
    have h2 : (t * t + 2 * (t * t)) / 3 = t * t := by ring
    have h5 : (XQ.le (XQ.fin 0) (XQ.fin (t * t)) && XQ.lt (XQ.fin 0) (XQ.fin (t * t))) = true := by
      simp [XQ.le, XQ.lt, htt]
    have h6 : XQ.add (XQ.fin (t * t)) (XQ.mul (XQ.fin 2) (XQ.fin (t * t))) =
        XQ.fin (t * t + 2 * (t * t)) := rfl
    show ref_rc (XQ.fin (t * t)) (XQ.fin (t * t)) (XQ.fin r) = _
    unfold ref_rc
    rw [h1, h5, h6, xq_div _ _ (by norm_num), h2, xq_sqrt_sq t ht.le, xq_div _ _ ht.ne']
    simp
  ocrt := by
    intro q hq
    have hn : 0 < q.num := Rat.num_pos.2 hq
    have hn1 : 1 ≤ q.num.toNat := by omega
    have hd1 : 1 ≤ q.den := q.den_pos
    simp only [refEnv, refOps, spec_ocrt, not_lt.2 hq.le, if_false]
    split_ifs with h
    · refine ⟨_, ?_, rfl⟩
      have a1 : iroot6Aux q.num.toNat q.num.toNat q.num.toNat ≠ 0 := by
        intro h0; rw [h0] at h; simp at h; omega
      have a2 : iroot6Aux q.den q.den q.den ≠ 0 := by
        intro h0; rw [h0] at h; simp at h; omega
      exact div_ne_zero (by exact_mod_cast a1) (by exact_mod_cast a2)
    · refine ⟨_, ?_, rfl⟩
      have hk : 1 ≤ q.num.toNat * q.den ^ 5 * 2 ^ 120 :=
        Nat.mul_pos (Nat.mul_pos hn1 (pow_pos hd1 5)) (by positivity)
      have a1 := iroot6Aux_pos (q.num.toNat * q.den ^ 5 * 2 ^ 120) hk
        (q.num.toNat * q.den ^ 5 * 2 ^ 120) (q.num.toNat * q.den ^ 5 * 2 ^ 120) hk
      have a2 : iroot6Aux (q.num.toNat * q.den ^ 5 * 2 ^ 120)
          (q.num.toNat * q.den ^ 5 * 2 ^ 120) (q.num.toNat * q.den ^ 5 * 2 ^ 120) ≠ 0 := by
        omega
      have a3 : (q.den : ℚ) * 2 ^ 20 ≠ 0 := by positivity
      exact div_ne_zero (by exact_mod_cast a2) a3
  close_ul := ⟨1 / 10 ^ 26, rfl, le_refl _⟩
  zero_ul := ⟨5 / 10 ^ 14, rfl, by norm_num⟩
  denom := ⟨4084080, rfl, by norm_num⟩
  series := ⟨0, 0, 0, -556920, 471240, -540540, by decide!, by decide!, by decide!,
    by decide!, by decide!, by decide!, by norm_num⟩


/-- C5. Equal-argument closed form, in exact arithmetic: let the operations be exact on
an Archimedean ordered field embedded by `emb`, the square root exact on squares, the
sibling `rc` exact on the diagonal, the series without constant term.  Then for every
`a = s * s` with `s > 0` and every valid tolerance `0 < r <= 1e-4`, `rj(a, a, a, a)`
returns, given enough room for its recursion, status `success` and the value
`1 / (s * s * s)`, that is `a^(-3/2)`.  When `a` is above `asym_close_ul` it does so
through the general duplication path, with no sub-call and no pass through the loop
body. -/
theorem C5_equal_arguments {F : Type} [LinearOrderedField F] [Archimedean F]
    (RO : RealOps R) (emb : F → R) (hex : ExactOn RO emb) (hset : ExactSetup RO emb)
    (s r : F) (hs : 0 < s) (hr : 0 < r) (hr4 : r ≤ 1 / 10 ^ 4) :
    (∃ N, ∀ fuel, N ≤ fuel →
      ∃ res, rj RO fuel (emb (s * s)) (emb (s * s)) (emb (s * s)) (emb (s * s)) (emb r) =
          some res ∧
        res.res = emb (1 / (s * s * s)) ∧ res.status = ExitStatus.success) ∧
    (∀ cu : F, RO.asym_close_ul = emb cu → 1 / 10 ^ 26 ≤ cu → cu < s * s → ∀ fuel : Nat,
      rj RO (fuel + 1) (emb (s * s)) (emb (s * s)) (emb (s * s)) (emb (s * s)) (emb r) =
        some { res := emb (1 / (s * s * s)), status := ExitStatus.success, calls := [],
               via := ReturnSite.general } ∧
      rj_loop RO (realScalar RO)
          (rj_init RO (realScalar RO) (emb (s * s)) (emb (s * s)) (emb (s * s))
            (emb (s * s)) (emb r)).2 (fuel + 1)
          (rj_init RO (realScalar RO) (emb (s * s)) (emb (s * s)) (emb (s * s))
            (emb (s * s)) (emb r)).1 ExitStatus.success =
        some ((rj_init RO (realScalar RO) (emb (s * s)) (emb (s * s)) (emb (s * s))
            (emb (s * s)) (emb r)).1, ExitStatus.success)) := by
  constructor
  · obtain ⟨cu, hcu, hcu26⟩ := hset.close_ul
    obtain ⟨n, hn⟩ := pow_unbounded_of_one_lt (cu / (s * s)) (by norm_num : (1 : F) < 4)
    have hlt : cu < 4 ^ n * (s * s) := by
      rwa [div_lt_iff₀ (mul_pos hs hs)] at hn
    exact ⟨n + 1, fun fuel hf => eq_levels hex hset cu hcu hcu26 n s r hs hr hr4 hlt fuel hf⟩
  · intro cu hcu hcu26 hlt fuel
    refine ⟨?_, ?_⟩
    · rw [rj_succ, eq_core_general hex hset s r cu hs hr hr4 hcu hcu26 hlt]
    · rw [eq_init hex hset s r hs hr]
      exact rj_loop_stop RO (realScalar RO) (emb 0) fuel (eqState emb s) ExitStatus.success
        (eq_cond hex s hs)

/-- C5 at `a = 1` and tolerance `1e-12` in the reference interpretation: `rj(1, 1, 1, 1)`
returns 1 with status `success` through the general path, and the loop makes no pass
(it hands back the state it was entered with). -/
theorem C5_equal_arguments_witness :
    (∃ N, ∀ fuel, N ≤ fuel →
      ∃ res, rj refEnv fuel (XQ.fin (1 * 1)) (XQ.fin (1 * 1)) (XQ.fin (1 * 1))
          (XQ.fin (1 * 1)) (XQ.fin (1 / 10 ^ 12)) = some res ∧
        res.res = XQ.fin (1 / (1 * 1 * 1)) ∧ res.status = ExitStatus.success) ∧
    rj refEnv 1 (XQ.fin 1) (XQ.fin 1) (XQ.fin 1) (XQ.fin 1) (XQ.fin (1 / 10 ^ 12)) =
      some { res := XQ.fin 1, status := ExitStatus.success, calls := [],
             via := ReturnSite.general } ∧
    rj_loop refEnv (realScalar refEnv) sample_equal.2 1 sample_equal.1 ExitStatus.success =
      some (sample_equal.1, ExitStatus.success) :=
  ⟨(C5_equal_arguments refEnv XQ.fin refEnv_exact refEnv_setup 1 (1 / 10 ^ 12)
      (by norm_num) (by norm_num) (by norm_num)).1, by decide!, by decide!⟩

/-! ### Classification -/

/-- The outcomes of `good_args` on the zero-initialised record, by the tests that
decide them. -/
lemma good_args_eq (RO : RealOps R) (S : ScalarOps T R) (x y z p : T) :
    good_args RO S x y z p ArgCases.zeroed =
      if pole_rule S x y z p = true then
        (false, { maybe_asymp := false, retry_caupv := false, good_infinity := false,
                  hit_pole := true })
      else if infinity_rule S x y z p = true then
        (false, { maybe_asymp := false, retry_caupv := false, good_infinity := true,
                  hit_pole := false })
      else if real_block RO S x y z p = true then
        (if RO.lt (S.re p) (RO.lit 0) = true then
          (false, { maybe_asymp := false, retry_caupv := true, good_infinity := false,
                    hit_pole := false })
         else if RO.lt (RO.lit 0) (S.re p) = true then
          (true, { maybe_asymp := true, retry_caupv := false, good_infinity := false,
                   hit_pole := false })
         else
          (ordinary_rule RO S x y z p || complex_rule RO S x y z p, ArgCases.zeroed))
      else (ordinary_rule RO S x y z p || complex_rule RO S x y z p, ArgCases.zeroed) := by
  unfold good_args pole_rule infinity_rule real_block ordinary_rule complex_rule
    xyzreal_nonneg_atmost1z
  simp only [ArgCases.zeroed]
  generalize (S.too_small x && S.too_small y && S.ph_good z && !S.too_small p) = bP
  generalize ((S.isinf x || S.isinf y || S.isinf z || S.isinf p) &&
    (S.ph_good x && S.ph_good y && S.ph_good z)) = bI
  generalize (RO.too_small (S.im x) && RO.too_small (S.im y) && RO.too_small (S.im z) &&
    RO.le (RO.lit 0) (S.re x) && RO.lt (RO.lit 0) (S.re y)) = bX
  generalize RO.too_small (S.im p) = bT
  generalize RO.lt (S.re p) (RO.lit 0) = bN
  generalize RO.lt (RO.lit 0) (S.re p) = bQ
  generalize RO.le (RO.lit 0) (S.re x) = bL
  generalize (!(S.too_small y && (S.too_small x || S.too_small z) ||
    S.too_small x && S.too_small z)) = bZ
  generalize (!S.too_small p && S.ph_good p) = bG
  generalize (S.r1conj2 x y z || S.r1conj2 y z x || S.r1conj2 z x y) = bC
  revert bP bI bX bT bN bQ bL bZ bG bC
  decide

/-- C12. Classification flags are mutually exclusive: after `good_args` has run on the
zero-initialised record, no two of `hit_pole`, `good_infinity`, `retry_caupv`,
`maybe_asymp` are both set; `good_args` returns true only if `hit_pole`,
`good_infinity` and `retry_caupv` are all clear; and `maybe_asymp` set implies that
`good_args` returned true. -/
theorem C12_flags_exclusive (RO : RealOps R) (S : ScalarOps T R) (x y z p : T) :
    (¬ ((good_args RO S x y z p ArgCases.zeroed).2.hit_pole = true ∧
        (good_args RO S x y z p ArgCases.zeroed).2.good_infinity = true) ∧
     ¬ ((good_args RO S x y z p ArgCases.zeroed).2.hit_pole = true ∧
        (good_args RO S x y z p ArgCases.zeroed).2.retry_caupv = true) ∧
     ¬ ((good_args RO S x y z p ArgCases.zeroed).2.hit_pole = true ∧
        (good_args RO S x y z p ArgCases.zeroed).2.maybe_asymp = true) ∧
     ¬ ((good_args RO S x y z p ArgCases.zeroed).2.good_infinity = true ∧
        (good_args RO S x y z p ArgCases.zeroed).2.retry_caupv = true) ∧
     ¬ ((good_args RO S x y z p ArgCases.zeroed).2.good_infinity = true ∧
        (good_args RO S x y z p ArgCases.zeroed).2.maybe_asymp = true) ∧
     ¬ ((good_args RO S x y z p ArgCases.zeroed).2.retry_caupv = true ∧
        (good_args RO S x y z p ArgCases.zeroed).2.maybe_asymp = true)) ∧
    ((good_args RO S x y z p ArgCases.zeroed).1 = true →
      (good_args RO S x y z p ArgCases.zeroed).2.hit_pole = false ∧
      (good_args RO S x y z p ArgCases.zeroed).2.good_infinity = false ∧
      (good_args RO S x y z p ArgCases.zeroed).2.retry_caupv = false) ∧
    ((good_args RO S x y z p ArgCases.zeroed).2.maybe_asymp = true →
      (good_args RO S x y z p ArgCases.zeroed).1 = true) := by
  rw [good_args_eq]
  split_ifs <;> simp [ArgCases.zeroed]

/-! ### Regime detection and the regime cache -/

/-- The tag `rj_asym_conf` returns is one of the five enabled ones. -/
lemma rj_asym_conf_tag (RO : RealOps R) (x y z p : R) (conf : AsymConfig R) :
    (rj_asym_conf RO x y z p conf).1 = AsymFlag.nothing ∨
    (rj_asym_conf RO x y z p conf).1 = AsymFlag.tinyp ∨
    (rj_asym_conf RO x y z p conf).1 = AsymFlag.tinyy ∨
    (rj_asym_conf RO x y z p conf).1 = AsymFlag.hugey ∨
    (rj_asym_conf RO x y z p conf).1 = AsymFlag.hugez := by
  unfold rj_asym_conf
  simp only
  split_ifs <;> simp

/-- The `switch` leaves the tag as it was or resets it to `nothing`. -/
lemma rj_asym_switch_tag (RO : RealOps R)
    (recur : R → R → R → R → R → Option (R × ExitStatus))
    (cres : AsymFlag) (config : AsymConfig R) (xr yr zr pr rerr : R)
    (status : ExitStatus) (tmpres : R) (cres2 : AsymFlag) (st : ExitStatus) (t : R)
    (cs : List (SubCall R))
    (h : rj_asym_switch RO recur cres config xr yr zr pr rerr status tmpres =
      some (cres2, st, t, cs)) :
    cres2 = cres ∨ cres2 = AsymFlag.nothing := by
  cases cres with
  | nothing =>
    simp only [rj_asym_switch, Option.some.injEq, Prod.mk.injEq] at h
    exact Or.inl h.1.symm
  | hugep =>
    simp only [rj_asym_switch, Option.some.injEq, Prod.mk.injEq] at h
    exact Or.inl h.1.symm
  | tinyp =>
    simp only [rj_asym_switch] at h
    split at h
    · simp at h
    · simp only [Option.some.injEq, Prod.mk.injEq] at h
      exact Or.inl h.1.symm
  | hugey =>
    simp only [rj_asym_switch, Option.some.injEq, Prod.mk.injEq] at h
    exact Or.inl h.1.symm
  | tinyx =>
    simp only [rj_asym_switch] at h
    split at h
    · simp at h
    · simp only [Option.some.injEq, Prod.mk.injEq] at h
      exact Or.inl h.1.symm
  | tinyy =>
    simp only [rj_asym_switch] at h
    split at h
    · simp only [Option.some.injEq, Prod.mk.injEq] at h
      exact Or.inr h.1.symm
    · simp only [Option.some.injEq, Prod.mk.injEq] at h
      exact Or.inl h.1.symm
  | hugez =>
    simp only [rj_asym_switch] at h
    split at h
    · simp only [Option.some.injEq, Prod.mk.injEq] at h
      exact Or.inr h.1.symm
    · simp only [Option.some.injEq, Prod.mk.injEq] at h
      exact Or.inl h.1.symm

/-- A result that left `rj` through a shortcut carries the tag `rj_asym_conf` returned
on the sorted real parts. -/
lemma rjCore_via_shortcut (RO : RealOps R) (S : ScalarOps T R) (atanDiv : T → T)
    (recur : R → R → R → R → R → Option (R × ExitStatus)) (lfuel : Nat)
    (x y z p : T) (rerr : R) (res : Result T R) (g : AsymFlag)
    (h : rjCore RO S atanDiv recur lfuel x y z p rerr = some res)
    (hv : res.via = ReturnSite.shortcut g) :
    g = (rj_asym_conf RO (S.re (sort3 (rcmp RO S) x y z).1)
          (S.re (sort3 (rcmp RO S) x y z).2.1) (S.re (sort3 (rcmp RO S) x y z).2.2)
          (S.re p) (AsymConfig.fresh R)).1 := by
  unfold rjCore at h
  simp only at h
  split_ifs at h with h1 h2 h3 h4 h5 h6
  all_goals first
    | (simp only [Option.some.injEq] at h; subst h; simp at hv)
    | skip
  · split at h
    · simp at h
    · split_ifs at h <;> (simp only [Option.some.injEq] at h; subst h; simp at hv)
  · split at h
    · simp at h
    · rename_i cres status tmpres calls hsw
      split_ifs at h with h7
      · simp only [Option.some.injEq] at h
        subst h
        simp only [ReturnSite.shortcut.injEq] at hv
        subst hv
        rcases rj_asym_switch_tag RO recur _ _ _ _ _ _ _ _ _ _ _ _ _ hsw with e | e
        · exact e
        · exact absurd e h7
      · split at h
        · simp at h
        · simp only [Option.some.injEq] at h; subst h; simp at hv
  · split at h
    · simp at h
    · simp only [Option.some.injEq] at h; subst h; simp at hv

/-- C14. Disabled regimes are unreachable: for every real `a`, `b`, `c`, `d` (and
whatever the cache held) `rj_asym_conf` returns one of `nothing`, `tinyp`, `tinyy`,
`hugey`, `hugez`, never `tinyx` nor `hugep`; so no call of `rj` leaves through the
`tinyx` or the `hugep` case of the `switch`. -/
theorem C14_disabled_regimes (RO : RealOps R) (S : ScalarOps T R) (atanDiv : T → T)
    (recur : R → R → R → R → R → Option (R × ExitStatus)) (lfuel : Nat)
    (x y z p : T) (rerr : R) :
    (∀ (a b c d : R) (conf : AsymConfig R),
      ((rj_asym_conf RO a b c d conf).1 = AsymFlag.nothing ∨
       (rj_asym_conf RO a b c d conf).1 = AsymFlag.tinyp ∨
       (rj_asym_conf RO a b c d conf).1 = AsymFlag.tinyy ∨
       (rj_asym_conf RO a b c d conf).1 = AsymFlag.hugey ∨
       (rj_asym_conf RO a b c d conf).1 = AsymFlag.hugez) ∧
      (rj_asym_conf RO a b c d conf).1 ≠ AsymFlag.tinyx ∧
      (rj_asym_conf RO a b c d conf).1 ≠ AsymFlag.hugep) ∧
    (∀ res, rjCore RO S atanDiv recur lfuel x y z p rerr = some res →
      res.via ≠ ReturnSite.shortcut AsymFlag.tinyx ∧
      res.via ≠ ReturnSite.shortcut AsymFlag.hugep) := by
  have key : ∀ (a b c d : R) (conf : AsymConfig R),
      (rj_asym_conf RO a b c d conf).1 ≠ AsymFlag.tinyx ∧
      (rj_asym_conf RO a b c d conf).1 ≠ AsymFlag.hugep := by
    intro a b c d conf
    rcases rj_asym_conf_tag RO a b c d conf with e | e | e | e | e <;> rw [e] <;> decide
  refine ⟨fun a b c d conf => ⟨rj_asym_conf_tag RO a b c d conf, key a b c d conf⟩, ?_⟩
  intro res h
  constructor
  · intro hv
    exact (key _ _ _ _ _).1 (rjCore_via_shortcut RO S atanDiv recur lfuel x y z p rerr res _ h hv).symm
  · intro hv
    exact (key _ _ _ _ _).2 (rjCore_via_shortcut RO S atanDiv recur lfuel x y z p rerr res _ h hv).symm

/-- C15. The regime cache is written before it is read: starting from a cache with
no field assigned, on the path of `rj_asym_conf` that returns `tinyp` the field `f` was
assigned (with `sqrt(x*y*z)`), on the path that returns `tinyy` the fields `a` and `g`
were, and on the path that returns `hugez` the fields `b` and `h` were; and the
closed-form formula of each regime in `rj` reads no other field: its outcome is the
same for two caches that agree on `f` (tinyp), on `a` and `g` (tinyy), on `b` and `h`
(hugez), and for any two caches at all (hugey). -/
theorem C15_cache_written_before_read (RO : RealOps R)
    (recur : R → R → R → R → R → Option (R × ExitStatus))
    (x y z p : R) :
    ((rj_asym_conf RO x y z p (AsymConfig.fresh R)).1 = AsymFlag.tinyp →
      (rj_asym_conf RO x y z p (AsymConfig.fresh R)).2.f =
        some (RO.sqrt (RO.mul (RO.mul x y) z))) ∧
    ((rj_asym_conf RO x y z p (AsymConfig.fresh R)).1 = AsymFlag.tinyy →
      (rj_asym_conf RO x y z p (AsymConfig.fresh R)).2.a =
        some (RO.mul (RO.lit (1/2)) (RO.add x y)) ∧
      (rj_asym_conf RO x y z p (AsymConfig.fresh R)).2.g = some (RO.sqrt (RO.mul x y))) ∧
    ((rj_asym_conf RO x y z p (AsymConfig.fresh R)).1 = AsymFlag.hugez →
      (rj_asym_conf RO x y z p (AsymConfig.fresh R)).2.b =
        some (RO.mul (RO.lit (1/2)) (RO.add x y)) ∧
      (rj_asym_conf RO x y z p (AsymConfig.fresh R)).2.h = some (RO.sqrt (RO.mul x y))) ∧
    (∀ (c1 c2 : AsymConfig R) (xr yr zr pr rerr : R) (st : ExitStatus) (t : R),
      (c1.f = c2.f →
        rj_asym_switch RO recur AsymFlag.tinyp c1 xr yr zr pr rerr st t =
          rj_asym_switch RO recur AsymFlag.tinyp c2 xr yr zr pr rerr st t) ∧
      (c1.a = c2.a → c1.g = c2.g →
        rj_asym_switch RO recur AsymFlag.tinyy c1 xr yr zr pr rerr st t =
          rj_asym_switch RO recur AsymFlag.tinyy c2 xr yr zr pr rerr st t) ∧
      (c1.b = c2.b → c1.h = c2.h →
        rj_asym_switch RO recur AsymFlag.hugez c1 xr yr zr pr rerr st t =
          rj_asym_switch RO recur AsymFlag.hugez c2 xr yr zr pr rerr st t) ∧
      rj_asym_switch RO recur AsymFlag.hugey c1 xr yr zr pr rerr st t =
        rj_asym_switch RO recur AsymFlag.hugey c2 xr yr zr pr rerr st t ∧
      rj_asym_switch RO recur AsymFlag.nothing c1 xr yr zr pr rerr st t =
        rj_asym_switch RO recur AsymFlag.nothing c2 xr yr zr pr rerr st t) := by
  refine ⟨?_, ?_, ?_, ?_⟩
  · unfold rj_asym_conf
    simp only
    split_ifs <;> simp [AsymConfig.fresh]
  · unfold rj_asym_conf
    simp only
    split_ifs <;> simp [AsymConfig.fresh]
  · unfold rj_asym_conf
    simp only
    split_ifs <;> simp [AsymConfig.fresh]
  · intro c1 c2 xr yr zr pr rerr st t
    refine ⟨?_, ?_, ?_, ?_, ?_⟩
    · intro hf
      simp only [rj_asym_switch, tinyp_alpha, hf]
    · intro ha hg
      simp only [rj_asym_switch, ha, hg]
    · intro hb hh
      simp only [rj_asym_switch, hugez_tt, hugez_arg2, hb, hh]
    · simp only [rj_asym_switch]
    · simp only [rj_asym_switch]

/-! ### Precedence of the pole rule -/

/-- A result that left `rj` through the directed-infinity exit is 0 with `success`. -/
lemma rjCore_via_infinity (RO : RealOps R) (S : ScalarOps T R) (atanDiv : T → T)
    (recur : R → R → R → R → R → Option (R × ExitStatus)) (lfuel : Nat)
    (x y z p : T) (rerr : R) (res : Result T R)
    (h : rjCore RO S atanDiv recur lfuel x y z p rerr = some res)
    (hv : res.via = ReturnSite.infinity) :
    res.res = S.ofReal (RO.lit 0) ∧ res.status = ExitStatus.success := by
  unfold rjCore at h
  simp only at h
  split_ifs at h with h1 h2 h3 h4 h5 h6
  all_goals first
    | (simp only [Option.some.injEq] at h; subst h; simp at hv; done)
    | (simp only [Option.some.injEq] at h; subst h; exact ⟨rfl, rfl⟩)
    | skip
  · split at h
    · simp at h
    · split_ifs at h <;> (simp only [Option.some.injEq] at h; subst h; simp at hv)
  · split at h
    · simp at h
    · split_ifs at h with h7
      · simp only [Option.some.injEq] at h; subst h; simp at hv
      · split at h
        · simp at h
        · simp only [Option.some.injEq] at h; subst h; simp at hv
  · split at h
    · simp at h
    · simp only [Option.some.injEq] at h; subst h; simp at hv

/-- C13. Rule precedence pole > directed infinity > principal value: with a valid
tolerance, whenever the sorted arguments satisfy the pole rule (the two smallest
negligibly zero, the largest of good phase, `p` not negligibly small) `rj` returns the
huge sentinel with status `singular`, whatever else holds of the arguments (some
infinite, `p` negative); a result that leaves through the directed-infinity exit is
0 with `success` and the pole rule did not hold; and when the pole rule does not hold
and the directed-infinity rule does, that exit is taken. -/
theorem C13_precedence (RO : RealOps R) (S : ScalarOps T R) (atanDiv : T → T)
    (recur : R → R → R → R → R → Option (R × ExitStatus)) (lfuel : Nat)
    (x y z p : T) (rerr : R)
    (hv : RO.invalid_rerr rerr (RO.lit (1 / 10 ^ 4)) = false) :
    (pole_rule S (sort3 (rcmp RO S) x y z).1 (sort3 (rcmp RO S) x y z).2.1
        (sort3 (rcmp RO S) x y z).2.2 p = true →
      rjCore RO S atanDiv recur lfuel x y z p rerr =
        some { res := S.huge, status := ExitStatus.singular, calls := [],
               via := ReturnSite.pole }) ∧
    (∀ res, rjCore RO S atanDiv recur lfuel x y z p rerr = some res →
      res.via = ReturnSite.infinity →
      pole_rule S (sort3 (rcmp RO S) x y z).1 (sort3 (rcmp RO S) x y z).2.1
        (sort3 (rcmp RO S) x y z).2.2 p = false ∧
      res.res = S.ofReal (RO.lit 0) ∧ res.status = ExitStatus.success) ∧
    (pole_rule S (sort3 (rcmp RO S) x y z).1 (sort3 (rcmp RO S) x y z).2.1
        (sort3 (rcmp RO S) x y z).2.2 p = false →
      infinity_rule S (sort3 (rcmp RO S) x y z).1 (sort3 (rcmp RO S) x y z).2.1
        (sort3 (rcmp RO S) x y z).2.2 p = true →
      rjCore RO S atanDiv recur lfuel x y z p rerr =
        some { res := S.ofReal (RO.lit 0), status := ExitStatus.success, calls := [],
               via := ReturnSite.infinity }) := by
  generalize hs : sort3 (rcmp RO S) x y z = srt
  obtain ⟨xm, ym, zm⟩ := srt
  have hcore : rjCore RO S atanDiv recur lfuel x y z p rerr =
      if pole_rule S xm ym zm p = true then
        some { res := S.huge, status := ExitStatus.singular, calls := [],
               via := ReturnSite.pole }
      else if infinity_rule S xm ym zm p = true then
        some { res := S.ofReal (RO.lit 0), status := ExitStatus.success, calls := [],
               via := ReturnSite.infinity }
      else rjCore RO S atanDiv recur lfuel x y z p rerr := by
    split_ifs with h1 h2
    · unfold rjCore
      rw [if_neg (by rw [hv]; exact Bool.false_ne_true), hs]
      simp only [good_args_eq, if_pos h1]
      simp
    · unfold rjCore
      rw [if_neg (by rw [hv]; exact Bool.false_ne_true), hs]
      simp only [good_args_eq, if_neg h1, if_pos h2]
      simp
    · rfl
  have hvia : ∀ res, rjCore RO S atanDiv recur lfuel x y z p rerr = some res →
      res.via = ReturnSite.infinity → pole_rule S xm ym zm p = false := by
    intro res h hvia
    by_contra hp
    rw [hcore, if_pos (by simpa using hp)] at h
    simp only [Option.some.injEq] at h
    subst h
    simp at hvia
  refine ⟨?_, ?_, ?_⟩
  · intro hp
    rw [hcore, if_pos hp]
  · intro res h hr
    exact ⟨hvia res h hr, rjCore_via_infinity RO S atanDiv recur lfuel x y z p rerr res h hr⟩
  · intro hp hi
    rw [hcore, if_neg (by rw [hp]; exact Bool.false_ne_true), if_pos hi]

/-- C13 at `x = y = 0`, `z = 1`, `p = +infinity` in the reference interpretation: the
tolerance is valid, `p` is infinite and `x`, `y`, `z` have good phase (the
directed-infinity rule holds), and the result is the huge sentinel with `singular`. -/
theorem C13_precedence_witness :
    refEnv.invalid_rerr (XQ.fin (1 / 10 ^ 5)) (refEnv.lit (1 / 10 ^ 4)) = false ∧
    infinity_rule (realScalar refEnv) (XQ.fin 0) (XQ.fin 0) (XQ.fin 1) XQ.pinf = true ∧
    rj refEnv 1 (XQ.fin 0) (XQ.fin 0) (XQ.fin 1) XQ.pinf (XQ.fin (1 / 10 ^ 5)) =
      some { res := XQ.pinf, status := ExitStatus.singular, calls := [],
             via := ReturnSite.pole } :=
  ⟨by decide!, by decide!,
   (C13_precedence refEnv (realScalar refEnv) (safe_atan_sqrt_div refEnv)
      (fun a b c d r => (rj refEnv 0 a b c d r).map (fun o => (o.res, o.status)))
      1 (XQ.fin 0) (XQ.fin 0) (XQ.fin 1) XQ.pinf (XQ.fin (1 / 10 ^ 5)) (by decide!)).1
     (by decide!)⟩

/-! ### The ordinary-domain rule -/

/-- C19. Ordinary-domain rule: the coded test of lines 167-177,
`pr > 0 && xr >= 0 && !((y0 && (x0 || z0)) || (x0 && z0))`, holds exactly when
`Re p > 0`, `Re x >= 0` and at most one of `x`, `y`, `z` is negligibly zero; so it
rejects every pair of zeros, `y` and `z` both zero included.  And when `good_args`
leaves no flag set (neither the pole, directed-infinity, principal-value nor
asymptotic-eligible case fired), it returns true whenever that test holds, and
otherwise what the alternative rule for complex arguments gives. -/
theorem C19_ordinary_rule (RO : RealOps R) (S : ScalarOps T R) (x y z p : T) :
    ordinary_rule RO S x y z p = ordinary_rule_words RO S x y z p ∧
    (S.too_small x = true ∧ S.too_small y = true → ordinary_rule RO S x y z p = false) ∧
    (S.too_small x = true ∧ S.too_small z = true → ordinary_rule RO S x y z p = false) ∧
    (S.too_small y = true ∧ S.too_small z = true → ordinary_rule RO S x y z p = false) ∧
    ((good_args RO S x y z p ArgCases.zeroed).2 = ArgCases.zeroed →
      (good_args RO S x y z p ArgCases.zeroed).1 =
        (ordinary_rule_words RO S x y z p || complex_rule RO S x y z p)) := by
  have h1 : ordinary_rule RO S x y z p = ordinary_rule_words RO S x y z p := by
    unfold ordinary_rule ordinary_rule_words
    cases S.too_small x <;> cases S.too_small y <;> cases S.too_small z <;> simp
  refine ⟨h1, ?_, ?_, ?_, ?_⟩
  · rintro ⟨hx, hy⟩
    simp [ordinary_rule, hx, hy]
  · rintro ⟨hx, hz⟩
    simp [ordinary_rule, hx, hz]
  · rintro ⟨hy, hz⟩
    simp [ordinary_rule, hy, hz]
  · rw [← h1, good_args_eq]
    split_ifs <;> simp [ArgCases.zeroed]

/-! ### The guarded arctangent -/

/-- The Newton iteration for the integer square root of a positive number stays
positive. -/
lemma isqrtAux_pos (n : ℕ) (hn : 0 < n) :
    ∀ (f x : ℕ), 0 < x → 0 < XQ.isqrtAux f n x := by
  intro f
  induction f with
  | zero => intro x hx; simpa [XQ.isqrtAux] using hx
  | succ f ih =>
    intro x hx
    unfold XQ.isqrtAux
    simp only
    split_ifs with h
    · apply ih
      have h1 : 2 ≤ x + n / x := by
        rcases Nat.lt_or_ge x 2 with h2 | h2
        · have hx1 : x = 1 := by omega
          subst hx1
          simp only [Nat.div_one]
          omega
        · exact le_trans h2 (Nat.le_add_right _ _)
      exact Nat.div_pos h1 (by norm_num)
    · exact hx

/-- The integer square root of a positive number is positive. -/
lemma isqrt_pos (n : ℕ) (hn : 0 < n) : 0 < XQ.isqrt n :=
  isqrtAux_pos n hn n n hn

/-- The square root of the reference interpretation is positive on positive
rationals. -/
lemma qsqrt_pos (q : ℚ) (hq : 0 < q) : 0 < XQ.qsqrt q := by
  have hn : 0 < q.num := Rat.num_pos.2 hq
  have hn2 : 0 < q.num.toNat := by omega
  have hd : 0 < q.den := q.den_pos
  unfold XQ.qsqrt
  simp only
  split_ifs with h
  · have h1 : 0 < XQ.isqrt q.num.toNat := isqrt_pos _ hn2
    have h2 : 0 < XQ.isqrt q.den := isqrt_pos _ hd
    have h3 : (0 : ℚ) < (XQ.isqrt q.num.toNat : ℚ) := by exact_mod_cast h1
    have h4 : (0 : ℚ) < (XQ.isqrt q.den : ℚ) := by exact_mod_cast h2
    exact div_pos h3 h4
  · have h1 : 0 < XQ.isqrt (q.num.toNat * q.den * 4 ^ 40) :=
      isqrt_pos _ (Nat.mul_pos (Nat.mul_pos hn2 hd) (by norm_num))
    have h3 : (0 : ℚ) < (XQ.isqrt (q.num.toNat * q.den * 4 ^ 40) : ℚ) := by
      exact_mod_cast h1
    have h4 : (0 : ℚ) < (q.den : ℚ) := by exact_mod_cast hd
    exact div_pos h3 (mul_pos h4 (by norm_num))

/-- In the reference interpretation the square root of a positive finite value is a
positive finite value. -/
lemma refEnv_sqrt_pos (a : ℚ) (ha : 0 < a) :
    ∃ s : ℚ, 0 < s ∧ refEnv.sqrt (XQ.fin a) = XQ.fin s := by
  refine ⟨XQ.qsqrt a, qsqrt_pos a ha, ?_⟩
  have h : ¬ (a < 0) := not_lt.2 ha.le
  simp [refEnv, refOps, XQ.sqrt, h]

/-- C20. Guarded arctangent: `safe_atan_sqrt_div(t)` is exactly 1 when `t` is
negligibly close to zero, `atanh(sqrt(-t)) / sqrt(-t)` when `t` is negative and not
negligible, and `atan(sqrt(t)) / sqrt(t)` otherwise; and in exact arithmetic, where
the square root of a positive value is positive, the divisor on both dividing paths is
a non-zero value, so no division 0/0 occurs. -/
theorem C20_guarded_arctangent {F : Type} [LinearOrderedField F] (RO : RealOps R)
    (emb : F → R) (hE : ExactOn RO emb)
    (hneg : ∀ a : F, RO.neg (emb a) = emb (-a))
    (hsqrt : ∀ a : F, 0 < a → ∃ s : F, 0 < s ∧ RO.sqrt (emb a) = emb s) (t : R) (a : F) :
    (RO.too_small t = true → safe_atan_sqrt_div RO t = RO.lit 1) ∧
    (RO.too_small t = false → RO.lt t (RO.lit 0) = true →
      safe_atan_sqrt_div RO t =
        RO.div (RO.atanh (RO.sqrt (RO.neg t))) (RO.sqrt (RO.neg t))) ∧
    (RO.too_small t = false → RO.lt t (RO.lit 0) = false →
      safe_atan_sqrt_div RO t = RO.div (RO.atan (RO.sqrt t)) (RO.sqrt t)) ∧
    (RO.too_small (emb a) = false → RO.lt (emb a) (RO.lit 0) = true →
      RO.eq (RO.sqrt (RO.neg (emb a))) (RO.lit 0) = false ∧
      ∃ s : F, s ≠ 0 ∧ RO.sqrt (RO.neg (emb a)) = emb s) ∧
    (RO.too_small (emb a) = false → RO.lt (emb a) (RO.lit 0) = false →
      RO.eq (RO.sqrt (emb a)) (RO.lit 0) = false ∧
      ∃ s : F, s ≠ 0 ∧ RO.sqrt (emb a) = emb s) := by
  have h0 : RO.lit 0 = emb 0 := by
    have := hE.lit 0
    simpa using this
  have hne : RO.too_small (emb a) = false → a ≠ 0 := by
    intro h ha
    rw [ha, hE.too_small_zero] at h
    exact Bool.noConfusion h
  refine ⟨?_, ?_, ?_, ?_, ?_⟩
  · intro h
    simp [safe_atan_sqrt_div, h]
  · intro h1 h2
    simp [safe_atan_sqrt_div, h1, h2]
  · intro h1 h2
    simp [safe_atan_sqrt_div, h1, h2]
  · intro h1 h2
    rw [h0, hE.lt] at h2
    have ha : a < 0 := by simpa using h2
    obtain ⟨s, hs, e⟩ := hsqrt (-a) (by linarith)
    rw [hneg, e, h0, hE.eq]
    exact ⟨by simpa using hs.ne', s, hs.ne', rfl⟩
  · intro h1 h2
    rw [h0, hE.lt] at h2
    have ha : ¬ a < 0 := by simpa using h2
    have ha2 : 0 < a := lt_of_le_of_ne (not_lt.1 ha) (Ne.symm (hne h1))
    obtain ⟨s, hs, e⟩ := hsqrt a ha2
    rw [e, h0, hE.eq]
    exact ⟨by simpa using hs.ne', s, hs.ne', rfl⟩

/-- C20 in the reference interpretation at `t = -4`: not negligible, negative, and the
divisor `sqrt(4) = 2` is not zero. -/
theorem C20_guarded_arctangent_witness :
    refEnv.too_small (XQ.fin (-4)) = false ∧
    refEnv.lt (XQ.fin (-4)) (refEnv.lit 0) = true ∧
    safe_atan_sqrt_div refEnv (XQ.fin (-4)) =
      refEnv.div (refEnv.atanh (refEnv.sqrt (refEnv.neg (XQ.fin (-4)))))
        (refEnv.sqrt (refEnv.neg (XQ.fin (-4)))) ∧
    refEnv.eq (refEnv.sqrt (refEnv.neg (XQ.fin (-4)))) (refEnv.lit 0) = false :=
  ⟨by decide!, by decide!,
   (C20_guarded_arctangent refEnv XQ.fin refEnv_exact (fun _ => rfl) refEnv_sqrt_pos
      (XQ.fin (-4)) (-4)).2.1 (by decide!) (by decide!),
   ((C20_guarded_arctangent refEnv XQ.fin refEnv_exact (fun _ => rfl) refEnv_sqrt_pos
      (XQ.fin (-4)) (-4)).2.2.2.1 (by decide!) (by decide!)).1⟩

/-! ### The a-posteriori check of the regimes `tinyy` and `hugez` -/

/-- When the `switch` resets the tag to `nothing`, `rj` goes on to the general
duplication path with the status the `switch` left, and reports the sub-calls made. -/
lemma rjCore_discard (RO : RealOps R) (S : ScalarOps T R) (atanDiv : T → T)
    (recur : R → R → R → R → R → Option (R × ExitStatus)) (lfuel : Nat)
    (x y z p xm ym zm : T) (rerr : R) (c : ArgCases)
    (st : ExitStatus) (t : R) (cs : List (SubCall R))
    (hv : RO.invalid_rerr rerr (RO.lit (1 / 10 ^ 4)) = false)
    (hs : sort3 (rcmp RO S) x y z = (xm, ym, zm))
    (hga : good_args RO S xm ym zm p ArgCases.zeroed = (true, c))
    (hasym : c.maybe_asymp = true)
    (hsw : rj_asym_switch RO recur
        (rj_asym_conf RO (S.re xm) (S.re ym) (S.re zm) (S.re p) (AsymConfig.fresh R)).1
        (rj_asym_conf RO (S.re xm) (S.re ym) (S.re zm) (S.re p) (AsymConfig.fresh R)).2
        (S.re xm) (S.re ym) (S.re zm) (S.re p) rerr ExitStatus.success RO.indet =
      some (AsymFlag.nothing, st, t, cs)) :
    rjCore RO S atanDiv recur lfuel x y z p rerr =
      (rj_general RO S atanDiv lfuel xm ym zm p rerr st).map
        (fun r => { res := r.1, status := r.2, calls := cs, via := ReturnSite.general }) := by
  unfold rjCore
  rw [if_neg (by rw [hv]; exact Bool.false_ne_true), hs]
  simp only [hga, hasym, hsw]
  simp only [Bool.not_true, Bool.false_eq_true, if_false, if_true, ne_eq, not_true_eq_false]
  cases rj_general RO S atanDiv lfuel xm ym zm p rerr st with
  | none => rfl
  | some r => rfl

/-- C11, the claim as stated fails: for `rj(1, 1, 4e14, 1)` at tolerance `3e-14` the
regime is `hugez`; its error estimate is
`r_est = 0.25 * (0.5 + log1p(8e14)) / (0.5 * 4e14)`, between `4.35e-14` and `4.36e-14`
(`log1p(8e14) = 34.3156...`, `rc(4, 4) = 1/2`), so at least the tolerance and below
twice the tolerance; and the shortcut is discarded (tag `nothing`, status `success`),
because the test of line 548 is `r_est >= rerr`; `rj` then goes on to the general
duplication path. -/
theorem C11_a_posteriori_counterexample :
    (rj_asym_conf refEnv (XQ.fin 1) (XQ.fin 1) (XQ.fin (4 * 10 ^ 14)) (XQ.fin 1)
        (AsymConfig.fresh XQ)).1 = AsymFlag.hugez ∧
    refEnv.lt (XQ.fin (435 / 10 ^ 16))
      (hugez_est refEnv
        (rj_asym_conf refEnv (XQ.fin 1) (XQ.fin 1) (XQ.fin (4 * 10 ^ 14)) (XQ.fin 1)
          (AsymConfig.fresh XQ)).2
        (XQ.fin (4 * 10 ^ 14)) (XQ.fin 1) (XQ.fin (3 / 10 ^ 14))) = true ∧
    refEnv.lt
      (hugez_est refEnv
        (rj_asym_conf refEnv (XQ.fin 1) (XQ.fin 1) (XQ.fin (4 * 10 ^ 14)) (XQ.fin 1)
          (AsymConfig.fresh XQ)).2
        (XQ.fin (4 * 10 ^ 14)) (XQ.fin 1) (XQ.fin (3 / 10 ^ 14)))
      (XQ.fin (436 / 10 ^ 16)) = true ∧
    refEnv.le (refEnv.mul (refEnv.lit 2) (XQ.fin (3 / 10 ^ 14)))
      (hugez_est refEnv
        (rj_asym_conf refEnv (XQ.fin 1) (XQ.fin 1) (XQ.fin (4 * 10 ^ 14)) (XQ.fin 1)
          (AsymConfig.fresh XQ)).2
        (XQ.fin (4 * 10 ^ 14)) (XQ.fin 1) (XQ.fin (3 / 10 ^ 14))) = false ∧
    rj_asym_switch refEnv (fun _ _ _ _ _ => none) AsymFlag.hugez
        (rj_asym_conf refEnv (XQ.fin 1) (XQ.fin 1) (XQ.fin (4 * 10 ^ 14)) (XQ.fin 1)
          (AsymConfig.fresh XQ)).2
        (XQ.fin 1) (XQ.fin 1) (XQ.fin (4 * 10 ^ 14)) (XQ.fin 1) (XQ.fin (3 / 10 ^ 14))
        ExitStatus.success refEnv.indet =
      some (AsymFlag.nothing, ExitStatus.success, XQ.fin (1 / 2),
        [{ fn := Integral.rc, args := [XQ.fin 4, XQ.fin 4], rerr := XQ.fin (3 / 10 ^ 14),
           status := ExitStatus.success }]) ∧
    (∀ n : Nat,
      rj refEnv (n + 1) (XQ.fin 1) (XQ.fin 1) (XQ.fin (4 * 10 ^ 14)) (XQ.fin 1)
          (XQ.fin (3 / 10 ^ 14)) =
        (rj_general refEnv (realScalar refEnv) (safe_atan_sqrt_div refEnv) (n + 1)
            (XQ.fin 1) (XQ.fin 1) (XQ.fin (4 * 10 ^ 14)) (XQ.fin 1) (XQ.fin (3 / 10 ^ 14))
            ExitStatus.success).map
          (fun r => { res := r.1, status := r.2,
                      calls := [{ fn := Integral.rc, args := [XQ.fin 4, XQ.fin 4],
                                  rerr := XQ.fin (3 / 10 ^ 14),
                                  status := ExitStatus.success }],
                      via := ReturnSite.general })) := by
  have hc : rj_asym_conf refEnv (XQ.fin 1) (XQ.fin 1) (XQ.fin (4 * 10 ^ 14)) (XQ.fin 1)
      (AsymConfig.fresh XQ) =
      (AsymFlag.hugez, { a := none, b := some (XQ.fin 1), c := none, f := none, g := none,
                         h := some (XQ.fin 1) }) := by
    decide!
  have hsw : rj_asym_switch refEnv (fun _ _ _ _ _ => none) AsymFlag.hugez
      { a := none, b := some (XQ.fin 1), c := none, f := none, g := none,
        h := some (XQ.fin 1) }
      (XQ.fin 1) (XQ.fin 1) (XQ.fin (4 * 10 ^ 14)) (XQ.fin 1) (XQ.fin (3 / 10 ^ 14))
      ExitStatus.success refEnv.indet =
      some (AsymFlag.nothing, ExitStatus.success, XQ.fin (1 / 2),
        [{ fn := Integral.rc, args := [XQ.fin 4, XQ.fin 4], rerr := XQ.fin (3 / 10 ^ 14),
           status := ExitStatus.success }]) := by
    decide!
  refine ⟨by rw [hc], ?_, ?_, ?_, by rw [hc]; exact hsw, ?_⟩
  · rw [hc]
    decide!
  · rw [hc]
    decide!
  · rw [hc]
    decide!
  · intro n
    rw [rj_succ]
    refine rjCore_discard refEnv (realScalar refEnv) _ _ _ _ _ _ _ (XQ.fin 1) (XQ.fin 1)
      (XQ.fin (4 * 10 ^ 14)) _
      { maybe_asymp := true, retry_caupv := false, good_infinity := false,
        hit_pole := false } ExitStatus.success (XQ.fin (1 / 2)) _
      (by decide!) (by decide!) (by decide!) rfl ?_
    dsimp only [realScalar]
    rw [hc]
    exact hsw

/-- C11, amended. A-posteriori check: in the regime `tinyy` the shortcut is discarded
(tag reset to `nothing`, status reset to `success`) exactly when the width
`r_est_h - r_est_l` of its error bracket is at least twice the tolerance, and in the
regime `hugez` exactly when its estimate `r_est` is at least the tolerance itself (not
twice it); otherwise the `switch` keeps the tag and leaves the shortcut value and the
status of the `rc` call.  After the `switch`, `rj` goes on to the general duplication
path when the tag is `nothing`, and returns the shortcut value and status otherwise. -/
theorem C11_a_posteriori (RO : RealOps R) (S : ScalarOps T R) (atanDiv : T → T)
    (recur : R → R → R → R → R → Option (R × ExitStatus)) (lfuel : Nat)
    (config : AsymConfig R) (xr yr zr pr rerr : R) (status : ExitStatus) (tmpres : R) :
    rj_asym_switch RO recur AsymFlag.tinyy config xr yr zr pr rerr status tmpres =
      (if RO.le (RO.mul (RO.lit 2) rerr)
            (RO.sub (tinyy_est_h RO config zr pr rerr) (tinyy_est_l RO config zr pr rerr)) =
          true then
        some (AsymFlag.nothing, ExitStatus.success, tinyy_tmpres RO config zr pr rerr,
          [{ fn := Integral.rc, args := [RO.lit 1, RO.div pr zr], rerr := rerr,
             status := (RO.rc (RO.lit 1) (RO.div pr zr) rerr).2 }])
      else
        some (AsymFlag.tinyy, (RO.rc (RO.lit 1) (RO.div pr zr) rerr).2,
          RO.mul (RO.add (tinyy_tmpres RO config zr pr rerr)
              (tinyy_est_l RO config zr pr rerr))
            (RO.div (RO.lit (3/2)) (RO.mul (RO.sqrt zr) pr)),
          [{ fn := Integral.rc, args := [RO.lit 1, RO.div pr zr], rerr := rerr,
             status := (RO.rc (RO.lit 1) (RO.div pr zr) rerr).2 }])) ∧
    rj_asym_switch RO recur AsymFlag.hugez config xr yr zr pr rerr status tmpres =
      (if RO.le rerr (hugez_est RO config zr pr rerr) = true then
        some (AsymFlag.nothing, ExitStatus.success,
          (RO.rc (hugez_tt RO config pr) (hugez_arg2 RO config pr) rerr).1,
          [{ fn := Integral.rc, args := [hugez_tt RO config pr, hugez_arg2 RO config pr],
             rerr := rerr,
             status := (RO.rc (hugez_tt RO config pr) (hugez_arg2 RO config pr) rerr).2 }])
      else
        some (AsymFlag.hugez,
          (RO.rc (hugez_tt RO config pr) (hugez_arg2 RO config pr) rerr).2,
          RO.mul (RO.rc (hugez_tt RO config pr) (hugez_arg2 RO config pr) rerr).1
            (RO.div (RO.lit 3) (RO.sqrt zr)),
          [{ fn := Integral.rc, args := [hugez_tt RO config pr, hugez_arg2 RO config pr],
             rerr := rerr,
             status :=
               (RO.rc (hugez_tt RO config pr) (hugez_arg2 RO config pr) rerr).2 }])) ∧
    (∀ (x y z p xm ym zm : T) (c : ArgCases) (g : AsymFlag) (st : ExitStatus) (t : R)
        (cs : List (SubCall R)),
      RO.invalid_rerr rerr (RO.lit (1 / 10 ^ 4)) = false →
      sort3 (rcmp RO S) x y z = (xm, ym, zm) →
      good_args RO S xm ym zm p ArgCases.zeroed = (true, c) →
      c.maybe_asymp = true →
      rj_asym_switch RO recur
          (rj_asym_conf RO (S.re xm) (S.re ym) (S.re zm) (S.re p) (AsymConfig.fresh R)).1
          (rj_asym_conf RO (S.re xm) (S.re ym) (S.re zm) (S.re p) (AsymConfig.fresh R)).2
          (S.re xm) (S.re ym) (S.re zm) (S.re p) rerr ExitStatus.success RO.indet =
        some (g, st, t, cs) →
      rjCore RO S atanDiv recur lfuel x y z p rerr =
        if g = AsymFlag.nothing then
          (rj_general RO S atanDiv lfuel xm ym zm p rerr ExitStatus.success).map
            (fun r => { res := r.1, status := r.2, calls := cs,
                        via := ReturnSite.general })
        else
          some { res := S.ofReal t, status := st, calls := cs,
                 via := ReturnSite.shortcut g }) := by
  refine ⟨?_, ?_, ?_⟩
  · simp only [rj_asym_switch, tinyy_est_h, tinyy_est_l, tinyy_tx, tinyy_tmpres]
  · simp only [rj_asym_switch, hugez_est]
  · intro x y z p xm ym zm c g st t cs hv hs hga hasym hsw
    by_cases hg : g = AsymFlag.nothing
    · subst hg
      rw [if_pos rfl]
      have hst := rj_asym_switch_nothing RO recur _ _ _ _ _ _ _ _ _ _ _ hsw
      subst hst
      exact rjCore_discard RO S atanDiv recur lfuel x y z p xm ym zm rerr c _ t cs
        hv hs hga hasym hsw
    · rw [if_neg hg]
      exact rjCore_shortcut RO S atanDiv recur lfuel x y z p xm ym zm rerr c g st t cs
        hv hs hga hasym hsw hg

/-! ### The principal-value reduction in exact arithmetic -/

/-- The flag `retry_caupv` is set only for a negative real part of `p`. -/
lemma good_args_retry (RO : RealOps R) (S : ScalarOps T R) (x y z p : T)
    (h : (good_args RO S x y z p ArgCases.zeroed).2.retry_caupv = true) :
    RO.lt (S.re p) (RO.lit 0) = true := by
  rw [good_args_eq] at h
  split_ifs at h with h1 h2 h3 h4 h5
  all_goals first
    | exact h4
    | (simp [ArgCases.zeroed] at h)

/-- A result that left `rj` through the principal-value branch had a negative real
part of `p`. -/
lemma rjCore_via_cpv (RO : RealOps R) (S : ScalarOps T R) (atanDiv : T → T)
    (recur : R → R → R → R → R → Option (R × ExitStatus)) (lfuel : Nat)
    (x y z p : T) (rerr : R) (res : Result T R)
    (h : rjCore RO S atanDiv recur lfuel x y z p rerr = some res)
    (hv : res.via = ReturnSite.cpv) :
    RO.lt (S.re p) (RO.lit 0) = true := by
  unfold rjCore at h
  simp only at h
  split_ifs at h with h1 h2 h3 h4 h5 h6
  all_goals first
    | (simp only [Option.some.injEq] at h; subst h; simp at hv)
    | skip
  · exact good_args_retry RO S _ _ _ _ h4
  · split at h
    · simp at h
    · split_ifs at h with h7
      · simp only [Option.some.injEq] at h; subst h; simp at hv
      · split at h
        · simp at h
        · simp only [Option.some.injEq] at h; subst h; simp at hv
  · split at h
    · simp at h
    · simp only [Option.some.injEq] at h; subst h; simp at hv

section Cpv
variable {F : Type} [LinearOrderedField F]

/-- The bounds `0 < pn <= z` of the transformed fourth argument. -/
lemma pn_formula_bounds (x y z p : F) (hx : 0 ≤ x) (hxy : x ≤ y) (hyz : y ≤ z)
    (hy : 0 < y) (hp : p < 0) :
    0 < pn_formula x y z p ∧ pn_formula x y z p ≤ z := by
  have hz : 0 < z := lt_of_lt_of_le hy hyz
  have hd : 0 < 1 - p / z := by
    have : p / z < 0 := div_neg_of_neg_of_pos hp hz
    linarith
  have hnum : x + y - p - x * y / z = (z * (x + y - p) - x * y) / z := by
    field_simp
    ring
  have hxz : x ≤ z := le_trans hxy hyz
  unfold pn_formula
  constructor
  · apply div_pos _ hd
    rw [hnum]
    apply div_pos _ hz
    have h1 : 0 ≤ (z - x) * y := mul_nonneg (by linarith) hy.le
    have h2 : 0 ≤ z * x := mul_nonneg hz.le hx
    have h3 : 0 < z * (-p) := mul_pos hz (by linarith)
    nlinarith
  · rw [div_le_iff₀ hd, hnum, div_le_iff₀ hz]
    have h1 : 0 ≤ (z - x) * (z - y) := mul_nonneg (by linarith) (by linarith)
    have h2 : z * (1 - p / z) = z - p := by field_simp
    rw [h2]
    nlinarith

/-- In exact arithmetic the code's `pn` is the value of the formula. -/
lemma cpv_pn_exact {RO : RealOps R} {emb : F → R} (hE : ExactOn RO emb)
    (hneg : ∀ a : F, RO.neg (emb a) = emb (-a)) (x y z p : F)
    (hz : 0 < z) (hp : p < 0) :
    cpv_pn RO (emb x) (emb y) (emb z) (emb p) = emb (pn_formula x y z p) := by
  obtain ⟨l0, l1, -⟩ := ex_lit hE
  have hz0 : z ≠ 0 := hz.ne'
  have hd : -p / z + 1 ≠ 0 := by
    have : 0 < -p / z := div_pos (by linarith) hz
    linarith
  unfold cpv_pn pn_formula
  simp only [hneg, ex_nsum3 hE, hE.mul, hE.div _ _ hz0, hE.sub, hE.add, l1, hE.div _ _ hd]
  congr 1
  have e1 : x + y + -p - x * y / z = x + y - p - x * y / z := by ring
  have e2 : -p / z + 1 = 1 - p / z := by ring
  rw [e1, e2]

/-- C16. The principal-value reduction stays in the ordinary domain: in exact
arithmetic, for `0 <= x <= y <= z` with `y > 0` and `p < 0`, the transformed fourth
argument computed by `rj_cpv_dispatch` is `pn = (x + y - p - x*y/z) / (1 - p/z)` and
satisfies `0 < pn <= z`; both arguments passed to `rc`, `x*y + pn*(-p)` and `pn*(-p)`,
are strictly positive; and the nested call `rj(x, y, z, pn)` has a positive fourth
argument, so that no result of it comes from the principal-value branch. -/
theorem C16_cpv_domain {RO : RealOps R} {emb : F → R} (hE : ExactOn RO emb)
    (hneg : ∀ a : F, RO.neg (emb a) = emb (-a)) (x y z p : F)
    (hx : 0 ≤ x) (hxy : x ≤ y) (hyz : y ≤ z) (hy : 0 < y) (hp : p < 0) :
    cpv_pn RO (emb x) (emb y) (emb z) (emb p) = emb (pn_formula x y z p) ∧
    0 < pn_formula x y z p ∧ pn_formula x y z p ≤ z ∧
    cpv_xypq RO (emb x) (emb y) (emb z) (emb p) =
      emb (x * y + pn_formula x y z p * (-p)) ∧
    0 < x * y + pn_formula x y z p * (-p) ∧
    cpv_pq RO (emb x) (emb y) (emb z) (emb p) = emb (pn_formula x y z p * (-p)) ∧
    0 < pn_formula x y z p * (-p) ∧
    RO.lt (RO.lit 0) (cpv_pn RO (emb x) (emb y) (emb z) (emb p)) = true ∧
    (∀ (atanDiv : R → R) (recur : R → R → R → R → R → Option (R × ExitStatus))
        (lfuel : Nat) (r : R) (res : Result R R),
      rjCore RO (realScalar RO) atanDiv recur lfuel (emb x) (emb y) (emb z)
          (cpv_pn RO (emb x) (emb y) (emb z) (emb p)) r = some res →
      res.via ≠ ReturnSite.cpv) ∧
    (∀ (n : Nat) (r : R) (res : Result R R),
      rj RO n (emb x) (emb y) (emb z) (cpv_pn RO (emb x) (emb y) (emb z) (emb p)) r =
        some res →
      res.via ≠ ReturnSite.cpv) := by
  obtain ⟨l0, -⟩ := ex_lit hE
  have hz : 0 < z := lt_of_lt_of_le hy hyz
  obtain ⟨hpos, hle⟩ := pn_formula_bounds x y z p hx hxy hyz hy hp
  have hpn := cpv_pn_exact hE hneg x y z p hz hp
  have hpq : 0 < pn_formula x y z p * (-p) := mul_pos hpos (by linarith)
  have hxy0 : 0 ≤ x * y := mul_nonneg hx hy.le
  have hcore : ∀ (atanDiv : R → R) (recur : R → R → R → R → R → Option (R × ExitStatus))
      (lfuel : Nat) (r : R) (res : Result R R),
      rjCore RO (realScalar RO) atanDiv recur lfuel (emb x) (emb y) (emb z)
          (cpv_pn RO (emb x) (emb y) (emb z) (emb p)) r = some res →
      res.via ≠ ReturnSite.cpv := by
    intro atanDiv recur lfuel r res h hv
    have h1 := rjCore_via_cpv RO (realScalar RO) atanDiv recur lfuel _ _ _ _ r res h hv
    have h2 : (realScalar RO).re (cpv_pn RO (emb x) (emb y) (emb z) (emb p)) =
        emb (pn_formula x y z p) := hpn
    rw [h2, l0, hE.lt] at h1
    have h3 : pn_formula x y z p < 0 := by simpa using h1
    exact absurd h3 (not_lt.2 hpos.le)
  refine ⟨hpn, hpos, hle, ?_, by linarith, ?_, hpq, ?_, hcore, ?_⟩
  · unfold cpv_xypq cpv_pq
    rw [hpn, hneg, hE.mul, hE.mul, hE.add]
  · unfold cpv_pq
    rw [hpn, hneg, hE.mul]
  · rw [hpn, l0, hE.lt]
    simpa using hpos
  · intro n r res h
    cases n with
    | zero => simp [rj] at h
    | succ n =>
      rw [rj_succ] at h
      exact hcore _ _ _ r res h

/-- C16 at `x = 1`, `y = 4`, `z = 9`, `p = -1` in the reference interpretation, where
`pn = 5`. -/
theorem C16_cpv_domain_witness :
    (0 : ℚ) ≤ 1 ∧ (1 : ℚ) ≤ 4 ∧ (4 : ℚ) ≤ 9 ∧ (0 : ℚ) < 4 ∧ (-1 : ℚ) < 0 ∧
    cpv_pn refEnv (XQ.fin 1) (XQ.fin 4) (XQ.fin 9) (XQ.fin (-1)) =
      XQ.fin (pn_formula 1 4 9 (-1)) ∧
    (0 : ℚ) < pn_formula 1 4 9 (-1) ∧ pn_formula (1 : ℚ) 4 9 (-1) ≤ 9 :=
  ⟨by norm_num, by norm_num, by norm_num, by norm_num, by norm_num,
   (C16_cpv_domain refEnv_exact (fun _ => rfl) 1 4 9 (-1)
      (by norm_num) (by norm_num) (by norm_num) (by norm_num) (by norm_num)).1,
   (C16_cpv_domain refEnv_exact (fun _ => rfl) 1 4 9 (-1)
      (by norm_num) (by norm_num) (by norm_num) (by norm_num) (by norm_num)).2.1,
   (C16_cpv_domain refEnv_exact (fun _ => rfl) 1 4 9 (-1)
      (by norm_num) (by norm_num) (by norm_num) (by norm_num) (by norm_num)).2.2.1⟩

end Cpv

/-! ### The principal-value combination -/

/-- When none of the three sub-calls reports a fatal status, `rj_cpv_dispatch` returns
the combination `cpv_combine` of their values. -/
lemma rj_cpv_dispatch_value (RO : RealOps R)
    (recur : R → R → R → R → R → Option (R × ExitStatus))
    (x y z p rerr res rjv : R) (st1 : ExitStatus)
    (hrj : recur x y z (cpv_pn RO x y z p) (cpv_r RO rerr) = some (rjv, st1))
    (h1 : RO.is_horrible st1 = false)
    (h2 : RO.is_horrible (RO.rf x y z (cpv_r RO rerr)).2 = false)
    (h3 : RO.is_horrible
      (RO.rc (cpv_xypq RO x y z p) (cpv_pq RO x y z p) (cpv_r RO rerr)).2 = false) :
    (rj_cpv_dispatch RO recur x y z p rerr res).map (fun o => o.2.1) =
      some (cpv_combine RO x y z p rjv (RO.rf x y z (cpv_r RO rerr)).1
        (RO.rc (cpv_xypq RO x y z p) (cpv_pq RO x y z p) (cpv_r RO rerr)).1) := by
  unfold rj_cpv_dispatch cpv_combine
  simp only [hrj, h1, h2, h3, Bool.false_eq_true, if_false, Option.map_some']

section CpvValue
variable {F : Type} [LinearOrderedField F]

/-- C17. The principal-value combination equals the documented formula: in exact
arithmetic, for `z > 0`, `q = -p > 0` and `x*y + pn*q > 0`, the radicand
`x*y / ((x*y + pn*q) * z)` being the square of some `t >= 0` of the field (as every
real that is not negative is) and the square root being exact on squares, the value
`((pn/z - 1)*RJ + (-3/z)*RF + 3*sqrt(x*y / ((x*y + pn*q)*z))*RC) / (q/z + 1)` that
`rj_cpv_dispatch` assembles is the value
`((pn - z)*RJ - 3*(RF - sqrt(x*y*z / (x*y + pn*q))*RC)) / (q + z)` of the formula in
its comments, the root there being `z * t`. -/
theorem C17_cpv_formula {RO : RealOps R} {emb : F → R} (hE : ExactOn RO emb)
    (hneg : ∀ a : F, RO.neg (emb a) = emb (-a))
    (hsqrt : ∀ s : F, 0 ≤ s → RO.sqrt (emb (s * s)) = emb s)
    (x y z p RJ RF RC t : F) (hz : 0 < z) (hp : p < 0)
    (hxypq : 0 < x * y + pn_formula x y z p * (-p))
    (ht : 0 ≤ t) (ht2 : t * t = x * y / ((x * y + pn_formula x y z p * (-p)) * z)) :
    cpv_combine RO (emb x) (emb y) (emb z) (emb p) (emb RJ) (emb RF) (emb RC) =
      cpv_documented RO (emb x) (emb y) (emb z) (emb p) (emb RJ) (emb RF) (emb RC) ∧
    cpv_combine RO (emb x) (emb y) (emb z) (emb p) (emb RJ) (emb RF) (emb RC) =
      emb (((pn_formula x y z p / z - 1) * RJ + (-3 / z) * RF + 3 * t * RC) /
        (-p / z + 1)) ∧
    cpv_documented RO (emb x) (emb y) (emb z) (emb p) (emb RJ) (emb RF) (emb RC) =
      emb (((pn_formula x y z p - z) * RJ - 3 * (RF - z * t * RC)) / (-p + z)) ∧
    (z * t) * (z * t) = x * y * z / (x * y + pn_formula x y z p * (-p)) ∧
    (∀ (recur : R → R → R → R → R → Option (R × ExitStatus)) (rerr res rjv : R)
        (st1 : ExitStatus),
      recur (emb x) (emb y) (emb z) (cpv_pn RO (emb x) (emb y) (emb z) (emb p))
          (cpv_r RO rerr) = some (rjv, st1) →
      RO.is_horrible st1 = false →
      RO.is_horrible (RO.rf (emb x) (emb y) (emb z) (cpv_r RO rerr)).2 = false →
      RO.is_horrible
        (RO.rc (cpv_xypq RO (emb x) (emb y) (emb z) (emb p))
          (cpv_pq RO (emb x) (emb y) (emb z) (emb p)) (cpv_r RO rerr)).2 = false →
      (rj_cpv_dispatch RO recur (emb x) (emb y) (emb z) (emb p) rerr res).map
          (fun o => o.2.1) =
        some (cpv_combine RO (emb x) (emb y) (emb z) (emb p) rjv
          (RO.rf (emb x) (emb y) (emb z) (cpv_r RO rerr)).1
          (RO.rc (cpv_xypq RO (emb x) (emb y) (emb z) (emb p))
            (cpv_pq RO (emb x) (emb y) (emb z) (emb p)) (cpv_r RO rerr)).1)) := by
  obtain ⟨l0, l1, l2, l3, -⟩ := ex_lit hE
  have hz0 : z ≠ 0 := hz.ne'
  have hq0 : x * y + pn_formula x y z p * (-p) ≠ 0 := hxypq.ne'
  have hd1 : -p / z + 1 ≠ 0 := by
    have : 0 < -p / z := div_pos (by linarith) hz
    linarith
  have hd2 : -p + z ≠ 0 := by
    have : 0 < -p + z := by linarith
    exact this.ne'
  have hpn := cpv_pn_exact hE hneg x y z p hz hp
  have hxq : cpv_xypq RO (emb x) (emb y) (emb z) (emb p) =
      emb (x * y + pn_formula x y z p * (-p)) := by
    unfold cpv_xypq cpv_pq
    rw [hpn, hneg, hE.mul, hE.mul, hE.add]
  have hroot : (z * t) * (z * t) = x * y * z / (x * y + pn_formula x y z p * (-p)) := by
    have : (z * t) * (z * t) = z * z * (t * t) := by ring
    rw [this, ht2]
    generalize x * y + pn_formula x y z p * (-p) = w at hq0
    field_simp
    ring
  have hc : cpv_combine RO (emb x) (emb y) (emb z) (emb p) (emb RJ) (emb RF) (emb RC) =
      emb (((pn_formula x y z p / z - 1) * RJ + (-3 / z) * RF + 3 * t * RC) /
        (-p / z + 1)) := by
    unfold cpv_combine
    simp only [hpn, hxq, hneg, hE.mul, hE.div _ _ hz0, hE.sub, hE.add, l1, l3,
      hE.div _ _ (mul_ne_zero hq0 hz0), ← ht2, hsqrt t ht, ex_ndot3 hE, hE.div _ _ hd1]
  have hdoc : cpv_documented RO (emb x) (emb y) (emb z) (emb p) (emb RJ) (emb RF)
      (emb RC) =
      emb (((pn_formula x y z p - z) * RJ - 3 * (RF - z * t * RC)) / (-p + z)) := by
    unfold cpv_documented
    simp only [hpn, hxq, hneg, hE.mul, hE.div _ _ hq0, hE.sub, hE.add, l3, ← hroot,
      hsqrt (z * t) (mul_nonneg hz.le ht), hE.div _ _ hd2]
  refine ⟨?_, hc, hdoc, hroot, ?_⟩
  · rw [hc, hdoc]
    congr 1
    field_simp
    ring
  · intro recur rerr res rjv st1 hrj h1 h2 h3
    exact rj_cpv_dispatch_value RO recur _ _ _ _ rerr res rjv st1 hrj h1 h2 h3

/-- C17 at `x = 1`, `y = 4`, `z = 9`, `p = -1` in the reference interpretation:
`pn = 5`, `x*y + pn*q = 9`, the radicand is `4/81 = (2/9)^2`. -/
theorem C17_cpv_formula_witness :
    (0 : ℚ) < 9 ∧ (-1 : ℚ) < 0 ∧ (0 : ℚ) < 1 * 4 + pn_formula 1 4 9 (-1) * (-(-1)) ∧
    (0 : ℚ) ≤ 2 / 9 ∧
    (2 / 9 : ℚ) * (2 / 9) = 1 * 4 / ((1 * 4 + pn_formula 1 4 9 (-1) * (-(-1))) * 9) ∧
    cpv_combine refEnv (XQ.fin 1) (XQ.fin 4) (XQ.fin 9) (XQ.fin (-1)) (XQ.fin 1)
        (XQ.fin 1) (XQ.fin 1) =
      cpv_documented refEnv (XQ.fin 1) (XQ.fin 4) (XQ.fin 9) (XQ.fin (-1)) (XQ.fin 1)
        (XQ.fin 1) (XQ.fin 1) :=
  ⟨by norm_num, by norm_num, by norm_num [pn_formula], by norm_num,
   by norm_num [pn_formula],
   (C17_cpv_formula refEnv_exact (fun _ => rfl) (fun s hs => xq_sqrt_sq s hs)
      1 4 9 (-1) 1 1 1 (2 / 9) (by norm_num) (by norm_num) (by norm_num [pn_formula])
      (by norm_num) (by norm_num [pn_formula])).1⟩

end CpvValue

/-! ### Invariants of the duplication step -/

/-- The state on reaching the `while` is the start state after one update. -/
lemma rj_init_start (RO : RealOps R) (S : ScalarOps T R) (xm ym zm p : T) (rerr : R) :
    rj_init RO S xm ym zm p rerr =
      (rj_updt RO S (rj_start RO S xm ym zm p rerr).2.1 (rj_start RO S xm ym zm p rerr).1,
       (rj_start RO S xm ym zm p rerr).2.2) := rfl

/-- The body of the loop is an update of the state with the new `sm`, then `++m`. -/
lemma loop_body_updt (RO : RealOps R) (S : ScalarOps T R) (delta : T) (st : DupState T R) :
    ∃ sm1 : T, loop_body RO S delta st =
      { rj_updt RO S (rj_calc S st.xm st.ym st.zm st.pm).1 { st with sm := sm1 } with
        m := (st.m + 1) % 2 ^ 32 } :=
  ⟨_, rfl⟩

section Dup
variable {F : Type} [LinearOrderedField F]

/-- The invariants hold of the start state, with no update made. -/
lemma dupInv_start {RO : RealOps R} {emb : F → R} (hE : ExactOn RO emb) (x y z p r : F) :
    DupInv emb ((p - x) * (p - y) * (p - z)) 0
      (rj_start RO (realScalar RO) (emb x) (emb y) (emb z) (emb p) (emb r)).1 := by
  obtain ⟨l0, l1, l2, l3, l5, -⟩ := ex_lit hE
  have h5 : (5 : F) ≠ 0 := by norm_num
  refine ⟨(x + y + z + 2 * p) / 5, x, y, z, p, ?_, rfl, rfl, rfl, rfl, ?_, ?_, ?_, ?_, rfl, ?_⟩
  · simp only [rj_start, realScalar, ex_nsum5 hE, l5, hE.div _ _ h5]
    congr 1; ring
  · simp only [rj_start, realScalar, ex_nsum5 hE, l5, hE.div _ _ h5, hE.sub]
    congr 1; ring
  · simp only [rj_start, realScalar, ex_nsum5 hE, l5, hE.div _ _ h5, hE.sub]
    congr 1; ring
  · simp only [rj_start, realScalar, ex_nsum5 hE, l5, hE.div _ _ h5, hE.sub]
    congr 1; ring
  · simp only [rj_start, l1, pow_zero]
  · simp

/-- One update, with any `lam`, takes the invariants after `k` updates to those after
`k + 1`. -/
lemma dupInv_updt {RO : RealOps R} {emb : F → R} (hE : ExactOn RO emb) (delta : F)
    (k : Nat) (st : DupState R R) (l : F) (h : DupInv emb delta k st) :
    DupInv emb delta (k + 1) (rj_updt RO (realScalar RO) (emb l) st) := by
  obtain ⟨l0, l1, l2, l3, l5, lh, lq, -⟩ := ex_lit hE
  obtain ⟨A, x, y, z, p, hA, hx, hy, hz, hp, hxx, hyy, hzz, hd, hAm, hprod⟩ := h
  refine ⟨(A + l) * (1 / 4), (x + l) * (1 / 4), (y + l) * (1 / 4), (z + l) * (1 / 4),
    (p + l) * (1 / 4), ?_, ?_, ?_, ?_, ?_, ?_, ?_, ?_, ?_, ?_, ?_⟩
  · simp only [rj_updt, realScalar, hA, lq, hE.add, hE.mul]
  · simp only [rj_updt, realScalar, hx, lq, hE.add, hE.mul]
  · simp only [rj_updt, realScalar, hy, lq, hE.add, hE.mul]
  · simp only [rj_updt, realScalar, hz, lq, hE.add, hE.mul]
  · simp only [rj_updt, realScalar, hp, lq, hE.add, hE.mul]
  · simp only [rj_updt, realScalar, hxx, lq, hE.mul]
    congr 1; ring
  · simp only [rj_updt, realScalar, hyy, lq, hE.mul]
    congr 1; ring
  · simp only [rj_updt, realScalar, hzz, lq, hE.mul]
    congr 1; ring
  · simp only [rj_updt, hd, lq, hE.mul]
    congr 1; ring
  · rw [hAm]; ring
  · have e : ((p + l) * (1 / 4) - (x + l) * (1 / 4)) * ((p + l) * (1 / 4) - (y + l) * (1 / 4)) *
        ((p + l) * (1 / 4) - (z + l) * (1 / 4)) =
        (p - x) * (p - y) * (p - z) * (1 / 4) ^ 3 := by ring
    rw [e, hprod]
    ring

/-- The invariants after `k` updates, read on the code's own operations. -/
lemma dupInv_code {RO : RealOps R} {emb : F → R} (hE : ExactOn RO emb) (delta : F)
    (k : Nat) (st : DupState R R) (h : DupInv emb delta k st) :
    RO.div (RO.nsum2 [st.xm, st.ym, st.zm, st.pm, st.pm]) (RO.lit 5) = st.Am ∧
    RO.sub st.Am st.xm = st.xxm ∧ RO.sub st.Am st.ym = st.yym ∧
    RO.sub st.Am st.zm = st.zzm ∧ st.d4m = emb ((1 / 4) ^ k) ∧
    RO.mul (RO.mul (RO.sub st.pm st.xm) (RO.sub st.pm st.ym)) (RO.sub st.pm st.zm) =
      RO.mul (emb delta) (RO.mul (RO.mul st.d4m st.d4m) st.d4m) := by
  obtain ⟨l0, l1, l2, l3, l5, -⟩ := ex_lit hE
  obtain ⟨A, x, y, z, p, hA, hx, hy, hz, hp, hxx, hyy, hzz, hd, hAm, hprod⟩ := h
  have h5 : (5 : F) ≠ 0 := by norm_num
  refine ⟨?_, ?_, ?_, ?_, hd, ?_⟩
  · rw [hx, hy, hz, hp, hA, ex_nsum5 hE, l5, hE.div _ _ h5, hAm]
    congr 1; ring
  · rw [hA, hx, hxx, hE.sub]
  · rw [hA, hy, hyy, hE.sub]
  · rw [hA, hz, hzz, hE.sub]
  · rw [hx, hy, hz, hp, hd]
    simp only [hE.sub, hE.mul]
    congr 1
    rw [hprod]; ring

/-- Updates with any values of `lam`, one after the other, keep the invariants. -/
lemma dupInv_foldl {RO : RealOps R} {emb : F → R} (hE : ExactOn RO emb) (delta : F)
    (lams : List F) :
    ∀ (k : Nat) (st : DupState R R), DupInv emb delta k st →
      DupInv emb delta (k + lams.length)
        (lams.foldl (fun s l => rj_updt RO (realScalar RO) (emb l) s) st) := by
  induction lams with
  | nil => intro k st h; simpa using h
  | cons l ls ih =>
    intro k st h
    have h1 := ih (k + 1) _ (dupInv_updt hE delta k st l h)
    simp only [List.foldl_cons, List.length_cons]
    have e : k + (ls.length + 1) = k + 1 + ls.length := by omega
    rw [e]
    exact h1

/-- C18. Duplication-step invariants, in exact arithmetic: after every application of
the update step `ELLINT_RJ_UPDT`, for any values of `lam`, the state satisfies
`Am = (xm + ym + zm + 2*pm) / 5`, `xxm = Am - xm`, `yym = Am - ym`, `zzm = Am - zm`,
`d4m = 4^(-k)` and `(pm - xm) * (pm - ym) * (pm - zm) = delta * d4m^3`, where `k` is
the number of updates so far and `delta` the value computed once before the loop.  The
state on reaching the `while` is the start state after one update, a pass through the
loop body is one more update, and in a state with the invariants the recomputation of
the centroid after the loop gives `Am` again. -/
theorem C18_duplication_invariants {RO : RealOps R} {emb : F → R} (hE : ExactOn RO emb)
    (x y z p r : F) (lams : List F) :
    DupInv emb ((p - x) * (p - y) * (p - z)) lams.length
      (lams.foldl (fun s l => rj_updt RO (realScalar RO) (emb l) s)
        (rj_start RO (realScalar RO) (emb x) (emb y) (emb z) (emb p) (emb r)).1) ∧
    (rj_start RO (realScalar RO) (emb x) (emb y) (emb z) (emb p) (emb r)).2.2 =
      emb ((p - x) * (p - y) * (p - z)) ∧
    rj_init RO (realScalar RO) (emb x) (emb y) (emb z) (emb p) (emb r) =
      (rj_updt RO (realScalar RO)
        (rj_start RO (realScalar RO) (emb x) (emb y) (emb z) (emb p) (emb r)).2.1
        (rj_start RO (realScalar RO) (emb x) (emb y) (emb z) (emb p) (emb r)).1,
       (rj_start RO (realScalar RO) (emb x) (emb y) (emb z) (emb p) (emb r)).2.2) ∧
    (∀ (delta : F) (k : Nat) (st : DupState R R), DupInv emb delta k st →
      (∀ l : F, DupInv emb delta (k + 1) (rj_updt RO (realScalar RO) (emb l) st)) ∧
      (∀ (dl : R) (l : F),
        (rj_calc (realScalar RO) st.xm st.ym st.zm st.pm).1 = emb l →
        DupInv emb delta (k + 1) (loop_body RO (realScalar RO) dl st)) ∧
      RO.div (RO.nsum2 [st.xm, st.ym, st.zm, st.pm, st.pm]) (RO.lit 5) = st.Am ∧
      RO.sub st.Am st.xm = st.xxm ∧ RO.sub st.Am st.ym = st.yym ∧
      RO.sub st.Am st.zm = st.zzm ∧ st.d4m = emb ((1 / 4) ^ k) ∧
      RO.mul (RO.mul (RO.sub st.pm st.xm) (RO.sub st.pm st.ym)) (RO.sub st.pm st.zm) =
        RO.mul (emb delta) (RO.mul (RO.mul st.d4m st.d4m) st.d4m)) := by
  refine ⟨?_, ?_, rfl, ?_⟩
  · have h := dupInv_foldl hE ((p - x) * (p - y) * (p - z)) lams 0 _
      (dupInv_start hE x y z p r)
    rwa [Nat.zero_add] at h
  · simp only [rj_start, realScalar, hE.sub, hE.mul]
  · intro delta k st h
    refine ⟨fun l => dupInv_updt hE delta k st l h, ?_, dupInv_code hE delta k st h⟩
    intro dl l hl
    obtain ⟨sm1, e⟩ := loop_body_updt RO (realScalar RO) dl st
    rw [e, hl]
    exact dupInv_updt hE delta k { st with sm := sm1 } l h

/-- C18 in the reference interpretation at `(x, y, z, p) = (1, 2, 3, 4)` after two
updates, with `lam = 1` and `lam = 2`. -/
theorem C18_duplication_invariants_witness :
    DupInv XQ.fin (((4 : ℚ) - 1) * (4 - 2) * (4 - 3)) 2
      ([(1 : ℚ), 2].foldl (fun s l => rj_updt refEnv (realScalar refEnv) (XQ.fin l) s)
        (rj_start refEnv (realScalar refEnv) (XQ.fin 1) (XQ.fin 2) (XQ.fin 3) (XQ.fin 4)
          (XQ.fin (1 / 10 ^ 5))).1) :=
  (C18_duplication_invariants refEnv_exact 1 2 3 4 (1 / 10 ^ 5) [1, 2]).1

end Dup

end Theorems

end EllintRJ
